import Mathlib

/-!
# ai-content-generator: pipeline orchestrator and idea/scene parser

A shallow embedding of the Go sources

* `cmd/main.go` (`main`, `parseIdeaAndScenes`),
* `internal/video/editor.go` (`ConcatenateVideos`),
* `internal/ai/video_gen.go` (`GenerateVideoSegment`, `downloadFile`),
* `internal/uploader/*.go` (`MultiPlatformUploader`, `YouTubeUploader`, `TikTokUploader`),
* `pkg/utils/logger.go` (`Logger`),

followed by theorems about them.

Conventions.
* A Go `string` is a list of Unicode code points (`Str`).  All text the program handles comes
  out of `encoding/json`, YAML or source literals, hence is valid UTF-8.
* Everything outside the process (HTTP services, the verdicts of the operating system,
  `ffmpeg`) is an oracle in `Env`; the program's observable behaviour is the `World` it leaves
  behind (the set of existing paths and the trace of log lines and external actions) and how it
  ended (`Outcome`).
* The file system is a set of paths: creating a path adds it, `os.Remove` of an existing path
  removes it unless the operating system refuses, and fails on a missing path.
* A `defer` runs when its function returns or panics; `os.Exit` runs no deferred function.
* Paths follow the Unix build of `path/filepath` (separator `/`).
-/

namespace AIContentGen

/-- Go strings, as lists of code points. -/
abbrev Str := List Char

/-! ## Standard-library string helpers used by the sources -/

/-- Go `unicode.IsSpace`: the Latin-1 spaces `\t \n \v \f \r`, space, U+0085, U+00A0, and the
characters with the Unicode White_Space property. -/
def isSpace (c : Char) : Bool :=
  let n := c.toNat
  (0x09 ≤ n && n ≤ 0x0D) || n == 0x20 || n == 0x85 || n == 0xA0 || n == 0x1680 ||
  (0x2000 ≤ n && n ≤ 0x200A) || n == 0x2028 || n == 0x2029 || n == 0x202F ||
  n == 0x205F || n == 0x3000

/-- Go `strings.TrimSpace`: drop leading and trailing white space. -/
def TrimSpace (s : Str) : Str :=
  ((s.dropWhile isSpace).reverse.dropWhile isSpace).reverse

/-- Go `strings.Split(s, sep)` for a one-character separator: the pieces between the
separators; a string without separator is the only piece (also the empty string). -/
def Split (sep : Char) : Str → List Str
  | [] => [[]]
  | c :: cs =>
    if c = sep then [] :: Split sep cs
    else
      match Split sep cs with
      | [] => [[c]]
      | piece :: pieces => (c :: piece) :: pieces

/-- Go `strings.HasPrefix(s, p)`. -/
def startsWith : Str → Str → Bool
  | _, [] => true
  | [], _ :: _ => false
  | c :: cs, p :: ps => c == p && startsWith cs ps

/-- Consume the literal `lit` at the start of `s`; the rest of `s` when it is there. -/
def matchLit : Str → Str → Option Str
  | [], s => some s
  | _ :: _, [] => none
  | p :: ps, c :: cs => if p = c then matchLit ps cs else none

/-- The regexp class `\d` of Go (RE2 syntax): ASCII digits only. -/
def isDigit (c : Char) : Bool := 48 ≤ c.toNat && c.toNat ≤ 57

/-- The regexp `.` of Go without the `s` flag: any character but the newline. -/
def isDot (c : Char) : Bool := c != '\n'

/-- The label `Идея:` tested by `strings.HasPrefix(line, "Идея:")`. -/
def ideaLabel : Str := "Идея:".toList

/-- The literal head `Идея: ` of `ideaRegex`. -/
def ideaHead : Str := "Идея: ".toList

/-- The literal head `Сцена ` of `sceneRegex`. -/
def sceneHead : Str := "Сцена ".toList

/-- The literal `: ` between the digits and the group of `sceneRegex`. -/
def sceneSep : Str := ": ".toList

/-- The call `ideaRegex.FindStringSubmatch(line)` for `^Идея: (.+)`: the empty slice when the
line does not match, else the whole match followed by the group.  The pattern is anchored at the
start, and the greedy `.+` takes every character up to the first newline, at least one. -/
def ideaRegexFind (line : Str) : List Str :=
  match matchLit ideaHead line with
  | none => []
  | some rest =>
    let g := rest.takeWhile isDot
    if g = [] then [] else [ideaHead ++ g, g]

/-- The call `sceneRegex.FindStringSubmatch(line)` for `^Сцена \d+: (.+)`: the empty slice when
the line does not match, else the whole match followed by the group.  `\d+` is greedy and must be
followed by `:`, which is no digit, so it takes the whole run of digits. -/
def sceneRegexFind (line : Str) : List Str :=
  match matchLit sceneHead line with
  | none => []
  | some r1 =>
    let ds := r1.takeWhile isDigit
    if ds = [] then []
    else
      match matchLit sceneSep (r1.dropWhile isDigit) with
      | none => []
      | some r2 =>
        let g := r2.takeWhile isDot
        if g = [] then [] else [sceneHead ++ ds ++ sceneSep ++ g, g]

/-! ## Logger (`pkg/utils/logger.go`) and the world -/

/-- Severity prefixes written by `Logger`. -/
inductive Level
  | info | warn | error | fatal
  deriving DecidableEq, Repr

/-- Arguments of a log call. -/
inductive Arg
  | str (s : Str)
  | int (n : Int)
  | strs (l : List Str)
  deriving DecidableEq, Repr

/-- Platform tags, `type PlatformType string`. -/
abbrev PlatformType := Str

/-- What the process does that is visible from outside, in order. -/
inductive Event
  /-- A log line, `l.Printf(LEVEL + format, v...)` -/
  | log (lvl : Level) (format : Str) (args : List Arg)
  /-- A line printed by `fmt.Println` -/
  | println (s : Str)
  /-- The request of `textGen.GenerateShortsIdeaAndScenes(topic)` to the text service -/
  | ideaRequest (topic : Str)
  /-- The request of `textGen.GenerateVideoPromptForScene(idea, scene)` to the text service -/
  | promptRequest (idea scene : Str)
  /-- The request of `GenerateVideoSegment(prompt, segmentIndex)` to the video service -/
  | videoRequest (prompt : Str) (segmentIndex : Nat)
  /-- The call `http.Get(url)` of `downloadFile`, to be stored at `path` -/
  | download (url path : Str)
  /-- The call `os.MkdirAll(path, os.ModePerm)` -/
  | mkdirAll (path : Str)
  /-- The call `os.Create(path)` -/
  | create (path : Str)
  /-- The call `file.WriteString(data)` on the file at `path` -/
  | write (path data : Str)
  /-- The call `file.Close()` on the file at `path` -/
  | close (path : Str)
  /-- The call `os.Remove(path)` -/
  | remove (path : Str)
  /-- The call `os.RemoveAll(path)` -/
  | removeAll (path : Str)
  /-- The call `exec.Command(name, args...).Run()` -/
  | exec (name : Str) (args : List Str)
  /-- The call `uploader.Upload(...)` of the uploader registered for a platform -/
  | platformUpload (platform : PlatformType) (videoPath title description tags : Str)
  /-- The call `os.Exit(code)` -/
  | exit (code : Nat)
  deriving DecidableEq, Repr

/-- The state outside the program's variables: which paths exist, and what happened so far. -/
structure World where
  fs : List Str
  trace : List Event
  deriving DecidableEq, Repr

/-- Append an event to the trace. -/
def World.emit (w : World) (e : Event) : World := { w with trace := w.trace ++ [e] }

/-- The method `Logger.Info`. -/
def World.Info (w : World) (format : Str) (args : List Arg) : World :=
  w.emit (.log .info format args)

/-- The method `Logger.Warn`. -/
def World.Warn (w : World) (format : Str) (args : List Arg) : World :=
  w.emit (.log .warn format args)

/-- The method `Logger.Error`. -/
def World.Error (w : World) (format : Str) (args : List Arg) : World :=
  w.emit (.log .error format args)

/-! ## `parseIdeaAndScenes` (`cmd/main.go`) -/

/-- The variables of `parseIdeaAndScenes` together with the logger's output. -/
structure ParseState where
  overallIdea : Str
  scenes : List Str
  log : List Event
  deriving DecidableEq, Repr

/-- One turn of the loop `for _, line := range lines` of `parseIdeaAndScenes`. -/
def parseLine (st : ParseState) (raw : Str) : ParseState :=
  let line := TrimSpace raw
  if line = [] then st
  else if startsWith line ideaLabel then
    match ideaRegexFind line with
    | _ :: g :: _ =>
      { st with overallIdea := g
                log := st.log ++ [.log .info "Извлечена идея: %s".toList [.str g]] }
    | _ => st
  else
    match sceneRegexFind line with
    | _ :: g :: _ =>
      if g.length > 0 then
        { st with scenes := st.scenes ++ [g]
                  log := st.log ++ [.log .info "Извлечена сцена: %s".toList [.str g]] }
      else
        { st with log := st.log ++
            [.log .warn "Пустое описание для сцены в строке: %s".toList [.str line]] }
    | _ => st

/-- The function `parseIdeaAndScenes(content, logger)`: the idea, the scenes, and what it logged. -/
def parseIdeaAndScenes (content : Str) : ParseState :=
  let st := (Split '\n' content).foldl parseLine ⟨[], [], []⟩
  let log1 :=
    if st.overallIdea = [] then
      st.log ++ [.log .warn "Не удалось найти 'Идея:' в сгенерированном контенте.".toList []]
    else st.log
  let log2 :=
    if st.scenes.length = 0 then
      log1 ++ [.log .warn "Не удалось найти ни одной 'Сцены' в сгенерированном контенте.".toList []]
    else log1
  { st with log := log2 }

/-! ### Line grammar, as the specification words it -/

/-- An idea line carrying the text `y`: after trimming it reads `Идея: y`, `y` not empty. -/
def IsIdeaLine (raw y : Str) : Prop :=
  y ≠ [] ∧ TrimSpace raw = ideaHead ++ y

/-- A well-formed scene line carrying the text `t`: after trimming it reads `Сцена <digits>: t`
with at least one digit and `t` not empty. -/
def IsSceneLine (raw t : Str) : Prop :=
  t ≠ [] ∧ ∃ ds : Str, ds ≠ [] ∧ (∀ c ∈ ds, isDigit c = true) ∧
    TrimSpace raw = sceneHead ++ ds ++ sceneSep ++ t

/-- What a line of the raw text is. -/
inductive LineKind
  | idea (y : Str)
  | scene (t : Str)
  | other
  deriving DecidableEq, Repr

/-- The line `raw` is of the given kind. -/
def Classifies (raw : Str) : LineKind → Prop
  | .idea y => IsIdeaLine raw y
  | .scene t => IsSceneLine raw t
  | .other => (∀ y, ¬ IsIdeaLine raw y) ∧ (∀ t, ¬ IsSceneLine raw t)

/-- The idea text of an idea line. -/
def LineKind.ideaText : LineKind → Option Str
  | .idea y => some y
  | _ => none

/-- The scene text of a scene line. -/
def LineKind.sceneText : LineKind → Option Str
  | .scene t => some t
  | _ => none


/-- The state after an idea line carrying `y` (the `overallIdea = matches[1]` branch). -/
def ParseState.setIdea (st : ParseState) (y : Str) : ParseState :=
  { st with overallIdea := y
            log := st.log ++ [.log .info "Извлечена идея: %s".toList [.str y]] }

/-- The state after a scene line carrying `t` (the `scenes = append(scenes, matches[1])`
branch). -/
def ParseState.addScene (st : ParseState) (t : Str) : ParseState :=
  { st with scenes := st.scenes ++ [t]
            log := st.log ++ [.log .info "Извлечена сцена: %s".toList [.str t]] }

/-! ## `path/filepath`, `strings` and `fmt` helpers (Unix) -/

/-- The path element `..`. -/
def dotdot : Str := ['.', '.']

/-- One path element seen by `filepath.Clean`; `out` is the stack of elements kept so far, the
last one first.  Empty elements and `.` are dropped; `..` removes the element before it, and is
kept at the start of a path that is not rooted; any other element is kept. -/
def cleanStep (rooted : Bool) (out : List Str) (elem : Str) : List Str :=
  if elem = [] ∨ elem = ['.'] then out
  else if elem = dotdot then
    match out with
    | [] => if rooted then [] else [dotdot]
    | top :: rest => if !rooted && top == dotdot then dotdot :: out else rest
  else elem :: out

/-- Go `filepath.Clean`: the shortest path equivalent to `path` by purely lexical processing. -/
def Clean (path : Str) : Str :=
  if path = [] then ['.']
  else
    let rooted := path.head? == some '/'
    let out := ((Split '/' path).foldl (cleanStep rooted) []).reverse
    let body := List.intercalate ['/'] out
    if rooted then '/' :: body else if body = [] then ['.'] else body

/-- Go `filepath.Join(a, b)`: the non-empty elements joined by `/`, cleaned; empty when both
are empty. -/
def Join (a b : Str) : Str :=
  if a ≠ [] then Clean (a ++ '/' :: b)
  else if b ≠ [] then Clean b
  else []

/-- Go `filepath.Base`: the last element of the path, trailing slashes removed first. -/
def Base (path : Str) : Str :=
  if path = [] then ['.']
  else
    let stripped := (path.reverse.dropWhile (· == '/')).reverse
    let last := (stripped.reverse.takeWhile (· != '/')).reverse
    if last = [] then ['/'] else last

/-- Go `filepath.Dir`: all but the last element of the path, cleaned. -/
def Dir (path : Str) : Str :=
  Clean (path.reverse.dropWhile (· != '/')).reverse

/-- The slice `s[:strings.LastIndex(s, "/")]`: what stands before the last `/`; `none` when
there is no `/` (the index is -1 and the slice expression panics). -/
def beforeLastSlash (s : Str) : Option Str :=
  match s.reverse.dropWhile (· != '/') with
  | [] => none
  | _ :: before => some before.reverse

/-- Go `strings.ReplaceAll(s, " ", "_")`. -/
def spacesToUnderscores (s : Str) : Str :=
  s.map fun c => if c = ' ' then '_' else c

/-- The verb `%d` of `fmt` on a natural number. -/
def fmtNat (n : Nat) : Str := Nat.toDigits 10 n

/-- The verb `%d` of `fmt` on an `int`. -/
def fmtInt : Int → Str
  | .ofNat m => fmtNat m
  | .negSucc m => '-' :: fmtNat (m + 1)

/-! ## Configuration (`internal/config/config.go`) and the outside world -/

/-- The section `ai.video` of `AppConfig`. -/
structure VideoConfig where
  OutputFormat : Str
  Resolution : Str
  FPS : Int
  deriving DecidableEq, Repr

/-- The fields of `Config` and of its `App` that the pipeline reads. -/
structure Config where
  AppName : Str
  YouTubeAPIKey : Str
  TikTokAPIKey : Str
  TextAIEndpoint : Str
  VideoAIEndpoint : Str
  VideoAIAPIKey : Str
  TextModel : Str
  Video : VideoConfig
  deriving DecidableEq, Repr

/-- An error of the `os` package, with the verdict of `os.IsExist` on it. -/
structure OsErr where
  msg : Str
  isExist : Bool
  deriving DecidableEq, Repr

/-- Where `os.MkdirAll` is called from. -/
inductive Site
  | mainTemp
  | download (segmentIndex : Nat)
  | mainOutput
  | concatOutput
  deriving DecidableEq, Repr

/-- The answers of everything outside the process.  An error is its message; `none` or `.ok`
is Go's `nil` error.  Calls made in a loop are told apart by their index. -/
structure Env where
  /-- The call `config.LoadConfig()` -/
  loadConfig : Except Str Config
  /-- The call of `callAI` by `GenerateShortsIdeaAndScenes(topic)` -/
  ideaAndScenes : Str → Except Str Str
  /-- The call of `callAI` by `GenerateVideoPromptForScene(idea, scene)` at loop index `i` -/
  scenePrompt : Nat → Str → Str → Except Str Str
  /-- In `GenerateVideoSegment(prompt, segmentIndex)`: request, status check and JSON decoding;
  the error met, or the decoded `VideoURL` -/
  videoResponse : Nat → Str → Except Str Str
  /-- The call `os.MkdirAll(path, os.ModePerm)` -/
  mkdirAll : Site → Str → Option OsErr
  /-- In `downloadFile` for segment `segmentIndex`: `http.Get(url)`, its error or the status -/
  httpGet : Nat → Str → Except Str Nat
  /-- In `downloadFile` for segment `segmentIndex`: `os.Create(path)` -/
  createSegment : Nat → Str → Option Str
  /-- In `downloadFile` for segment `segmentIndex`: `io.Copy(out, resp.Body)` -/
  copyBody : Nat → Option Str
  /-- In `ConcatenateVideos`: `os.Create(listFilePath)` -/
  createList : Str → Option Str
  /-- In `ConcatenateVideos`: the `i`-th `listFile.WriteString` -/
  writeString : Nat → Option Str
  /-- In `ConcatenateVideos`: `cmd.Run()` of `ffmpeg` with these arguments; on failure the
  error with the captured standard output and standard error, on success the standard output -/
  ffmpeg : List Str → Except (Str × Str × Str) Str
  /-- The call `os.RemoveAll(path)` -/
  removeAll : Str → Option Str
  /-- The call `os.Remove(path)`: an error of the operating system on an existing path (the
  error for a missing path is in `osRemove`) -/
  remove : Str → Option Str

/-! ### File system: the set of existing paths -/

/-- A path comes to exist (`os.Create`, `os.MkdirAll`, a file written by `ffmpeg`). -/
def World.addPath (w : World) (p : Str) : World := { w with fs := p :: w.fs }

/-- A path ceases to exist. -/
def World.delPath (w : World) (p : Str) : World := { w with fs := w.fs.filter (· ≠ p) }

/-- A path and everything below it cease to exist. -/
def World.delTree (w : World) (dir : Str) : World :=
  { w with fs := w.fs.filter fun p => !(p == dir || startsWith p (dir ++ ['/'])) }

/-- Go `os.Remove(path)`: it fails when the path does not exist or when the operating system
refuses the removal, and then nothing changes; otherwise the path is unlinked. -/
def osRemove (env : Env) (w : World) (path : Str) : Option Str × World :=
  let w1 := w.emit (.remove path)
  if path ∈ w.fs then
    match env.remove path with
    | some e => (some e, w1)
    | none => (none, w1.delPath path)
  else (some ("remove ".toList ++ path ++ ": no such file or directory".toList), w1)

/-- How a function or the process ends: by returning, by `os.Exit(code)`, or by a panic. -/
inductive Outcome
  | returned
  | exited (code : Nat)
  | panicked
  deriving DecidableEq, Repr

/-- The method `Logger.Fatal`: `log.Fatalf`, which prints and then calls `os.Exit(1)`. -/
def World.Fatal (w : World) (format : Str) (args : List Arg) : World :=
  (w.emit (.log .fatal format args)).emit (.exit 1)

/-! ## `internal/ai/text_gen.go` -/

/-- The method `TextGenerator.GenerateShortsIdeaAndScenes(topic)`. -/
def GenerateShortsIdeaAndScenes (env : Env) (w : World) (topic : Str) :
    Except Str Str × World :=
  let w1 := w.Info "Запрос на генерацию общей идеи и сцен для темы: %s".toList [.str topic]
  (env.ideaAndScenes topic, w1.emit (.ideaRequest topic))

/-- The method `TextGenerator.GenerateVideoPromptForScene(overallIdea, sceneDescription)`, as
called by the turn `i` of the loop of `main`. -/
def GenerateVideoPromptForScene (env : Env) (w : World) (i : Nat)
    (overallIdea sceneDescription : Str) : Except Str Str × World :=
  let w1 := w.Info "Запрос на генерацию подробного промпта для видео-сцены: %s".toList
    [.str sceneDescription]
  (env.scenePrompt i overallIdea sceneDescription,
    w1.emit (.promptRequest overallIdea sceneDescription))

/-! ## `internal/ai/video_gen.go` -/

/-- What a call that may panic gives back: a value, an error, or the panic. -/
inductive Res (α : Type)
  | ok (a : α)
  | err (msg : Str)
  | panic
  deriving DecidableEq, Repr

/-- The function `downloadFile`, from `http.Get(url)` on. -/
def downloadRest (env : Env) (w2 : World) (k : Nat) (url filepath : Str) : Res Unit × World :=
  let w3 := w2.emit (.download url filepath)
  match env.httpGet k url with
  | .error e => (.err ("ошибка при HTTP GET запросе для скачивания: ".toList ++ e), w3)
  | .ok status =>
    if status ≠ 200 then
      (.err ("получен некорректный статус при скачивании: ".toList ++ fmtNat status), w3)
    else
      let w4 := w3.emit (.create filepath)
      match env.createSegment k filepath with
      | some e => (.err ("ошибка создания файла для сохранения видео: ".toList ++ e), w4)
      | none =>
        let w5 := w4.addPath filepath
        match env.copyBody k with
        | some e => (.err ("ошибка записи скачанного файла: ".toList ++ e), w5)
        | none => (.ok (), w5)

/-- The function `downloadFile(url, filepath, logger)` for the segment `k`. -/
def downloadFile (env : Env) (w : World) (k : Nat) (url filepath : Str) : Res Unit × World :=
  let w1 := w.Info "Скачивание файла: %s в %s".toList [.str url, .str filepath]
  match beforeLastSlash filepath with
  | none => (.panic, w1)
  | some dir =>
    let w2 := w1.emit (.mkdirAll dir)
    match env.mkdirAll (.download k) dir with
    | some e =>
      if !e.isExist then (.err ("не удалось создать директорию: ".toList ++ e.msg), w2)
      else downloadRest env w2 k url filepath
    | none => downloadRest env (w2.addPath dir) k url filepath

/-- The path `filepath.Join("temp_videos", fmt.Sprintf("segment_%d.%s", segmentIndex, format))`
computed by `GenerateVideoSegment`. -/
def segmentPath (format : Str) (segmentIndex : Nat) : Str :=
  Join "temp_videos".toList ("segment_".toList ++ fmtNat segmentIndex ++ '.' :: format)

/-- The method `VideoGenerator.GenerateVideoSegment(prompt, segmentIndex)`. -/
def GenerateVideoSegment (env : Env) (cfg : Config) (w : World) (prompt : Str)
    (segmentIndex : Nat) : Res Str × World :=
  let w1 := w.Info "Запрос на генерацию видеофрагмента для промпта (сцена %d): %s".toList
    [.int segmentIndex, .str prompt]
  let w2 := w1.emit (.videoRequest prompt segmentIndex)
  match env.videoResponse segmentIndex prompt with
  | .error e => (.err e, w2)
  | .ok videoURL =>
    if videoURL = [] then (.err "видео URL не найден в ответе от видео нейросети".toList, w2)
    else
      let videoPath := segmentPath cfg.Video.OutputFormat segmentIndex
      let d := downloadFile env w2 segmentIndex videoURL videoPath
      match d.1 with
      | .panic => (.panic, d.2)
      | .err e => (.err ("ошибка при скачивании видео: ".toList ++ e), d.2)
      | .ok _ =>
        (.ok videoPath,
          d.2.Info "Видеофрагмент для сцены %d сгенерирован и сохранен: %s".toList
            [.int segmentIndex, .str videoPath])

/-! ## `internal/video/editor.go` -/

/-- The manifest `temp_videos/concat_list.txt`. -/
def listFilePath : Str := "temp_videos/concat_list.txt".toList

/-- The loop `for _, path := range inputPaths` of `ConcatenateVideos`, writing one line
`file '<path>'` per input; it stops at the first write error. -/
def writeList (env : Env) : Nat → List Str → World → Option Str × World
  | _, [], w => (none, w)
  | i, path :: rest, w =>
    let w1 := w.emit (.write listFilePath ("file '".toList ++ path ++ "'\n".toList))
    match env.writeString i with
    | some e => (some e, w1)
    | none => writeList env (i + 1) rest w1

/-- The arguments given to `ffmpeg`. -/
def cmdArgs (outputPath : Str) (fps : Int) : List Str :=
  ["-f".toList, "concat".toList, "-safe".toList, "0".toList, "-i".toList, listFilePath,
   "-c".toList, "copy".toList, "-r".toList, fmtInt fps, outputPath]

/-- The function `ConcatenateVideos`, from the construction of the `ffmpeg` command on. -/
def runFfmpeg (env : Env) (w2 : World) (outputPath : Str) (fps : Int) :
    (Str × Option Str) × World :=
  let w3 := w2.Info "Запуск FFmpeg с командой: ffmpeg %s".toList
    [.str (List.intercalate [' '] (cmdArgs outputPath fps))]
  let w4 := w3.emit (.exec "ffmpeg".toList (cmdArgs outputPath fps))
  match env.ffmpeg (cmdArgs outputPath fps) with
  | .error (e, out, errOut) =>
    (([], some ("ошибка выполнения команды FFmpeg: ".toList ++ e)),
      (w4.Error "Ошибка FFmpeg. Stdout: %s".toList [.str out]).Error
        "Ошибка FFmpeg. Stderr: %s".toList [.str errOut])
  | .ok out =>
    ((outputPath, none),
      ((w4.addPath outputPath).Info "FFmpeg успешно завершил склейку. Stdout: %s".toList
        [.str out]).Info "Видео успешно склеено в: %s".toList [.str outputPath])

/-- The part of `ConcatenateVideos` that follows the two `defer` statements, up to its
`return`. -/
def concatBody (env : Env) (w : World) (inputPaths : List Str) (outputPath : Str) (fps : Int) :
    (Str × Option Str) × World :=
  let wr := writeList env 0 inputPaths w
  match wr.1 with
  | some e => (([], some ("не удалось записать в список файлов для FFmpeg: ".toList ++ e)), wr.2)
  | none =>
    let w1 := wr.2.emit (.close listFilePath)
    let outputDir := Dir outputPath
    let w2 := w1.emit (.mkdirAll outputDir)
    match env.mkdirAll .concatOutput outputDir with
    | some e =>
      if !e.isExist then
        (([], some ("не удалось создать выходную директорию ".toList ++ outputDir ++
          ": ".toList ++ e.msg)), w2)
      else runFfmpeg env w2 outputPath fps
    | none => runFfmpeg env (w2.addPath outputDir) outputPath fps

/-- The method `VideoEditor.ConcatenateVideos(inputPaths, outputPath, fps)`: the path of the
result and the error.  Once `os.Create` has succeeded the two `defer` statements are reached, so
when the function returns `os.Remove(listFilePath)` runs, its error being discarded, and then
`listFile.Close()`. -/
def ConcatenateVideos (env : Env) (w : World) (inputPaths : List Str) (outputPath : Str)
    (fps : Int) : (Str × Option Str) × World :=
  let w1 := w.Info "Начало склейки видеофайлов с FFmpeg: %v в %s".toList
    [.strs inputPaths, .str outputPath]
  if inputPaths.length = 0 then
    (([], some "нет входных видеофайлов для склейки".toList), w1)
  else
    let w2 := w1.emit (.create listFilePath)
    match env.createList listFilePath with
    | some e => (([], some ("не удалось создать список файлов для FFmpeg: ".toList ++ e)), w2)
    | none =>
      let r := concatBody env (w2.addPath listFilePath) inputPaths outputPath fps
      (r.1, (osRemove env r.2 listFilePath).2.emit (.close listFilePath))

/-! ## `internal/uploader` -/

/-- The constant `PlatformYouTube`. -/
def PlatformYouTube : PlatformType := "youtube".toList

/-- The constant `PlatformTikTok`. -/
def PlatformTikTok : PlatformType := "tiktok".toList

/-- The struct `YouTubeUploader`. -/
structure YouTubeUploader where
  APIKey : Str
  deriving DecidableEq, Repr

/-- The struct `TikTokUploader`. -/
structure TikTokUploader where
  APIKey : Str
  deriving DecidableEq, Repr

/-- The method `YouTubeUploader.Upload`. -/
def YouTubeUploader.Upload (u : YouTubeUploader) (w : World)
    (videoPath title description tags : Str) : (Str × Option Str) × World :=
  let w1 := w.Info "Начало загрузки видео на YouTube: %s".toList [.str videoPath]
  let w2 := w1.Info "Название: %s, Описание: %s, Теги: %s".toList
    [.str title, .str description, .str tags]
  if u.APIKey = [] then
    (([], some "YouTube API Key не предоставлен".toList),
      w2.Warn "YouTube API Key не предоставлен. Загрузка на YouTube невозможна.".toList [])
  else
    let dummyVideoID := "dummy_youtube_id_".toList ++ Base videoPath
    (("http://youtube.com/watch?v=".toList ++ dummyVideoID, none),
      w2.Warn ("Внимание: Загрузка видео на YouTube - это заглушка. " ++
        "Реализуйте использование YouTube Data API здесь.").toList [])

/-- The method `TikTokUploader.Upload`. -/
def TikTokUploader.Upload (t : TikTokUploader) (w : World)
    (videoPath title description tags : Str) : (Str × Option Str) × World :=
  let w1 := w.Info "Начало загрузки видео на TikTok: %s".toList [.str videoPath]
  let w2 := w1.Info "Название: %s, Описание: %s, Теги: %s".toList
    [.str title, .str description, .str tags]
  if t.APIKey = [] then
    (([], some "TikTok API Key не предоставлен".toList),
      w2.Warn "TikTok API Key не предоставлен. Загрузка на TikTok невозможна.".toList [])
  else
    let dummyVideoID := "dummy_tiktok_id_".toList ++ Base videoPath
    (("https://www.tiktok.com/@youraccount/video/".toList ++ dummyVideoID, none),
      w2.Warn ("Внимание: Загрузка видео на TikTok - это заглушка. " ++
        "Реализуйте использование TikTok API здесь.").toList [])

/-- The interface `VideoUploader`, over its two implementations. -/
inductive VideoUploader
  | youtube (u : YouTubeUploader)
  | tiktok (t : TikTokUploader)
  deriving DecidableEq, Repr

/-- The interface method `VideoUploader.Upload`, dispatched on the implementation. -/
def VideoUploader.Upload (v : VideoUploader) (w : World)
    (videoPath title description tags : Str) : (Str × Option Str) × World :=
  match v with
  | .youtube u => u.Upload w videoPath title description tags
  | .tiktok t => t.Upload w videoPath title description tags

/-- The struct `MultiPlatformUploader`: its map `platforms`. -/
structure MultiPlatformUploader where
  platforms : PlatformType → Option VideoUploader

/-- The map assignment `m[key] = value`. -/
def mapSet (m : PlatformType → Option VideoUploader) (key : PlatformType)
    (value : VideoUploader) : PlatformType → Option VideoUploader :=
  fun k => if k = key then some value else m k

/-- The constructor `NewMultiPlatformUploader(youtubeAPIKey, tiktokAPIKey, logger)`. -/
def NewMultiPlatformUploader (youtubeAPIKey tiktokAPIKey : Str) : MultiPlatformUploader :=
  let m0 : PlatformType → Option VideoUploader := fun _ => none
  let m1 := mapSet m0 PlatformYouTube (.youtube ⟨youtubeAPIKey⟩)
  let m2 := mapSet m1 PlatformTikTok (.tiktok ⟨tiktokAPIKey⟩)
  ⟨m2⟩

/-- The method `MultiPlatformUploader.Upload(platform, videoPath, title, description, tags)`.
The event `platformUpload` marks the call `uploader.Upload(...)` of the registered uploader. -/
def MultiPlatformUploader.Upload (m : MultiPlatformUploader) (w : World)
    (platform : PlatformType) (videoPath title description tags : Str) :
    (Str × Option Str) × World :=
  match m.platforms platform with
  | none =>
    (([], some ("загрузчик для платформы ".toList ++ platform ++ " не найден".toList)), w)
  | some uploader =>
    let w1 := w.Info "Запуск загрузки видео '%s' на платформу: %s".toList
      [.str videoPath, .str platform]
    let r := uploader.Upload (w1.emit (.platformUpload platform videoPath title description tags))
      videoPath title description tags
    match r.1.2 with
    | some e =>
      (([], some e), r.2.Error "Ошибка загрузки на %s: %v".toList [.str platform, .str e])
    | none =>
      ((r.1.1, none),
        r.2.Info "Видео успешно загружено на %s. URL: %s".toList [.str platform, .str r.1.1])

/-! ## `cmd/main.go` -/

/-- The topic fixed in `main`. -/
def topic : Str := "космическая битва с флотом Федерации".toList

/-- The loop of `main` that logs the scenes, `i` being the loop index. -/
def logScenes : Nat → List Str → World → World
  | _, [], w => w
  | i, scene :: rest, w =>
    logScenes (i + 1) rest (w.Info "Сцена %d: %s".toList [.int (i + 1), .str scene])

/-- The loop `for i, sceneDesc := range sceneDescriptions` of `main`, from index `i` on, with
the prompts collected so far. -/
def promptLoop (env : Env) (overallIdea : Str) :
    Nat → List Str → List Str → World → List Str × World
  | _, [], detailedPrompts, w => (detailedPrompts, w)
  | i, sceneDesc :: rest, detailedPrompts, w =>
    let r := GenerateVideoPromptForScene env w i overallIdea sceneDesc
    match r.1 with
    | .error e =>
      promptLoop env overallIdea (i + 1) rest detailedPrompts
        (r.2.Error "Ошибка при генерации подробного промпта для сцены %d: %v".toList
          [.int (i + 1), .str e])
    | .ok detailedPrompt =>
      promptLoop env overallIdea (i + 1) rest (detailedPrompts ++ [detailedPrompt])
        ((r.2.Info "Детальный промпт для Сцены %d:\n%s\n".toList
          [.int (i + 1), .str detailedPrompt]).Info
          "-------------------------------------------".toList [])

/-- The loop `for i, prompt := range detailedPrompts` of `main`, from index `i` on, with the
segment paths collected so far; `none` when a call panicked. -/
def segmentLoop (env : Env) (cfg : Config) :
    Nat → List Str → List Str → World → Option (List Str) × World
  | _, [], videoSegmentPaths, w => (some videoSegmentPaths, w)
  | i, prompt :: rest, videoSegmentPaths, w =>
    let r := GenerateVideoSegment env cfg w prompt (i + 1)
    match r.1 with
    | .panic => (none, r.2)
    | .err e =>
      segmentLoop env cfg (i + 1) rest videoSegmentPaths
        (r.2.Error "Ошибка при генерации видео для сцены %d: %v".toList
          [.int (i + 1), .str e])
    | .ok segmentPath =>
      segmentLoop env cfg (i + 1) rest (videoSegmentPaths ++ [segmentPath])
        ((r.2.Info "Видеофрагмент для Сцены %d сгенерирован и сохранен: %s".toList
          [.int (i + 1), .str segmentPath]).Info
          "-------------------------------------------".toList [])

/-- The loop of `main` that removes the segments after the concatenation. -/
def removeSegments (env : Env) : List Str → World → World
  | [], w => w
  | path :: rest, w =>
    let r := osRemove env w path
    match r.1 with
    | some e =>
      removeSegments env rest
        (r.2.Warn "Не удалось удалить временный файл %s: %v".toList [.str path, .str e])
    | none => removeSegments env rest r.2

/-- The title given to the YouTube upload. -/
def youtubeTitle (overallIdea : Str) : Str := "AI Shorts: ".toList ++ overallIdea

/-- The description given to the YouTube upload. -/
def youtubeDescription (overallIdea : Str) : Str :=
  "Это YouTube Shorts, сгенерированный полностью AI на тему: ".toList ++ overallIdea ++ ['.']

/-- The tags given to the YouTube upload. -/
def youtubeTags : Str := "AI,Shorts,YouTubeShorts,AIgenerated,космическаябитва,федерация".toList

/-- The title given to the TikTok upload. -/
def tiktokTitle (overallIdea : Str) : Str := "AI Космос: ".toList ++ overallIdea

/-- The description given to the TikTok upload. -/
def tiktokDescription : Str := "Генерация AI для TikTok! #AI #Shorts".toList

/-- The tags given to the TikTok upload. -/
def tiktokTags : Str := "AI,космос,shorts".toList

/-- Step 5 of `main`, the upload to YouTube: an error is logged and nothing more. -/
def publishYouTube (multiUploader : MultiPlatformUploader) (w : World)
    (overallIdea compiledVideoPath : Str) : World :=
  let yt := multiUploader.Upload w PlatformYouTube compiledVideoPath (youtubeTitle overallIdea)
    (youtubeDescription overallIdea) youtubeTags
  match yt.1.2 with
  | some e => yt.2.Error "Ошибка при загрузке видео на YouTube: %v".toList [.str e]
  | none => yt.2.Info "Видео успешно загружено на YouTube: %s".toList [.str yt.1.1]

/-- Step 5 of `main`, the upload to TikTok: an error is logged and nothing more. -/
def publishTikTok (multiUploader : MultiPlatformUploader) (w : World)
    (overallIdea compiledVideoPath : Str) : World :=
  let tt := multiUploader.Upload w PlatformTikTok compiledVideoPath (tiktokTitle overallIdea)
    tiktokDescription tiktokTags
  match tt.1.2 with
  | some e => tt.2.Error "Ошибка при загрузке видео на TikTok: %v".toList [.str e]
  | none => tt.2.Info "Видео успешно загружено на TikTok: %s".toList [.str tt.1.1]

/-- Step 5 of `main`: the upload to YouTube, then the upload to TikTok, then the last log
line. -/
def publish (cfg : Config) (w : World) (overallIdea compiledVideoPath : Str) : World :=
  let multiUploader := NewMultiPlatformUploader cfg.YouTubeAPIKey cfg.TikTokAPIKey
  let w1 := w.Info "\n--- Загрузка финального видео на платформы ---".toList []
  let w2 := publishYouTube multiUploader w1 overallIdea compiledVideoPath
  let w3 := publishTikTok multiUploader w2 overallIdea compiledVideoPath
  w3.Info "Бот завершил свою работу!".toList []

/-- Steps 4 and 5 of `main`, entered with at least one segment. -/
def concatAndPublish (env : Env) (cfg : Config) (w : World) (overallIdea : Str)
    (videoSegmentPaths : List Str) : Outcome × World :=
  let outputDir := "output_shorts".toList
  let w1 := w.emit (.mkdirAll outputDir)
  match env.mkdirAll .mainOutput outputDir with
  | some e =>
    (.exited 1, w1.Fatal "Не удалось создать директорию %s: %v".toList
      [.str outputDir, .str e.msg])
  | none =>
    let finalVideoPath := outputDir ++ ['/'] ++ spacesToUnderscores overallIdea ++
      "_final_short.".toList ++ cfg.Video.OutputFormat
    let c := ConcatenateVideos env (w1.addPath outputDir) videoSegmentPaths finalVideoPath
      cfg.Video.FPS
    match c.1.2 with
    | some e => (.exited 1, c.2.Fatal "Ошибка при склейке видео: %v".toList [.str e])
    | none =>
      let w2 := c.2.Info "Финальное видео скомпилировано: %s".toList [.str c.1.1]
      let w3 := w2.Info "Удаление отдельных видеосегментов после склейки...".toList []
      let w4 := removeSegments env videoSegmentPaths w3
      let w5 := w4.Info "Отдельные видеосегменты удалены.".toList []
      (.returned, publish cfg w5 overallIdea c.1.1)

/-- Steps 2 to 5 of `main`: what follows the `defer` statement, up to the end of the
function. -/
def pipeline (env : Env) (cfg : Config) (w : World) (overallIdea : Str)
    (sceneDescriptions : List Str) : Outcome × World :=
  let w1 := w.Info "\n--- Генерация подробных промптов для видео ---".toList []
  let p := promptLoop env overallIdea 0 sceneDescriptions [] w1
  if p.1.length = 0 then
    (.exited 1, p.2.Fatal "Не удалось сгенерировать ни одного детального промпта.".toList [])
  else
    let w2 := p.2.Info "\n--- Генерация всех видеосегментов ---".toList []
    let s := segmentLoop env cfg 0 p.1 [] w2
    match s.1 with
    | none => (.panicked, s.2)
    | some videoSegmentPaths =>
      if videoSegmentPaths.length = 0 then
        (.exited 1, s.2.Fatal "Не удалось сгенерировать ни одного видеофрагмента.".toList [])
      else concatAndPublish env cfg s.2 overallIdea videoSegmentPaths

/-- The function deferred by `main`: remove the directory `temp_videos`. -/
def deferredCleanup (env : Env) (w : World) : World :=
  let w1 := w.Info "Очистка временных видеофайлов...".toList []
  let w2 := w1.emit (.removeAll "temp_videos".toList)
  let w3 :=
    match env.removeAll "temp_videos".toList with
    | some e =>
      w2.Warn "Не удалось удалить временную папку 'temp_videos': %v".toList [.str e]
    | none => w2.delTree "temp_videos".toList
  w3.Info "Временные видеофайлы удалены.".toList []

/-- The `defer` statement of `main` around the rest `r` of the function: the deferred function
runs when `main` returns or panics; `os.Exit`, hence `Logger.Fatal`, ends the process at once,
without running deferred functions. -/
def runDeferred (env : Env) (r : Outcome × World) : Outcome × World :=
  match r.1 with
  | .exited code => (.exited code, r.2)
  | o => (o, deferredCleanup env r.2)

/-- The function `main` from the log line `Общая идея` on, once the parser has given an idea
and scenes: the directory `temp_videos`, the `defer` statement, and steps 2 to 5. -/
def stages (env : Env) (cfg : Config) (w : World) (overallIdea : Str)
    (sceneDescriptions : List Str) : Outcome × World :=
  let w1 := w.Info "Общая идея: %s".toList [.str overallIdea]
  let w2 := logScenes 0 sceneDescriptions w1
  let w3 := w2.emit (.mkdirAll "temp_videos".toList)
  match env.mkdirAll .mainTemp "temp_videos".toList with
  | some e =>
    (.exited 1, w3.Fatal "Не удалось создать директорию temp_videos: %v".toList [.str e.msg])
  | none =>
    runDeferred env
      (pipeline env cfg (w3.addPath "temp_videos".toList) overallIdea sceneDescriptions)

/-- The function `main` once the text service has answered `generalContent`: the content is
printed and parsed, and the run is fatal when the idea or the scene list is empty. -/
def afterGeneration (env : Env) (cfg : Config) (w : World) (generalContent : Str) :
    Outcome × World :=
  let w1 := w.Info "\n--- Сгенерированная общая идея и сцены ---".toList []
  let w2 := w1.emit (.println generalContent)
  let w3 := w2.Info "----------------------------------------".toList []
  let parsed := parseIdeaAndScenes generalContent
  let w4 : World := { w3 with trace := w3.trace ++ parsed.log }
  if parsed.overallIdea = [] ∨ parsed.scenes.length = 0 then
    (.exited 1, w4.Fatal
      "Не удалось извлечь идею или описания сцен из сгенерированного контента.".toList [])
  else stages env cfg w4 parsed.overallIdea parsed.scenes

/-- The function `main`, from the world `w0`: how the process ends and the world it leaves. -/
def main (env : Env) (w0 : World) : Outcome × World :=
  let w1 := w0.Info "Запуск YouTube Shorts AI Bot...".toList []
  match env.loadConfig with
  | .error e => (.exited 1, w1.Fatal "Ошибка загрузки конфигурации: %v".toList [.str e])
  | .ok cfg =>
    let w2 := w1.Info "Бот запущен с настройкой: %s".toList [.str cfg.AppName]
    let w3 := w2.Info "Эндпоинт текстового ИИ: %s".toList [.str cfg.TextAIEndpoint]
    let w4 := w3.Info "Эндпоинт видео ИИ: %s".toList [.str cfg.VideoAIEndpoint]
    let w5 := w4.Info "Модель текстового ИИ: %s".toList [.str cfg.TextModel]
    let g := GenerateShortsIdeaAndScenes env w5 topic
    match g.1 with
    | .error e =>
      (.exited 1, g.2.Fatal "Ошибка при генерации общей идеи и сцен: %v".toList [.str e])
    | .ok generalContent => afterGeneration env cfg g.2 generalContent

/-- The exit status of the process: 0 when `main` returns, the argument of `os.Exit`, 2 after
a panic. -/
def exitStatus : Outcome → Nat
  | .returned => 0
  | .exited code => code
  | .panicked => 2

/-! ## Sample runs -/

/-- A configuration with both upload keys set and the format `mp4`. -/
def sampleConfig : Config :=
  { AppName := "bot".toList
    YouTubeAPIKey := "yt-key".toList
    TikTokAPIKey := "tt-key".toList
    TextAIEndpoint := "http://text".toList
    VideoAIEndpoint := "http://video".toList
    VideoAIAPIKey := "video-key".toList
    TextModel := "model".toList
    Video := { OutputFormat := "mp4".toList, Resolution := "1080x1920".toList, FPS := 30 } }

/-- An outside world in which everything succeeds; the text service answers the end-to-end
example of the specification and elaborates a scene `s` into `prompt for s`. -/
def sampleEnv : Env :=
  { loadConfig := .ok sampleConfig
    ideaAndScenes := fun _ => .ok "Идея: Y\nСцена 1: A\nСцена 2: B".toList
    scenePrompt := fun _ _ scene => .ok ("prompt for ".toList ++ scene)
    videoResponse := fun _ _ => .ok "http://video/out".toList
    mkdirAll := fun _ _ => none
    httpGet := fun _ _ => .ok 200
    createSegment := fun _ _ => none
    copyBody := fun _ => none
    createList := fun _ => none
    writeString := fun _ => none
    ffmpeg := fun _ => .ok []
    removeAll := fun _ => none
    remove := fun _ => none }

/-- The world before the process starts: nothing exists that the run cares about, nothing has
happened. -/
def World.initial : World := ⟨[], []⟩

/-! ## Vocabulary for statements about traces -/

/-- The format of the log line that opens step 5 of `main`, the upload to the platforms. -/
def publishFormat : Str := "\n--- Загрузка финального видео на платформы ---".toList

/-- The log line that opens step 5 of `main`. -/
def publishMarker : Event := .log .info publishFormat []

/-- Everyday events: all but fatal log lines, `os.Exit`, `os.RemoveAll`, the call of a platform
uploader and the line that opens the upload step. -/
def Event.plain : Event → Bool
  | .log lvl format _ => lvl != .fatal && format != publishFormat
  | .exit _ => false
  | .platformUpload .. => false
  | .removeAll _ => false
  | _ => true

/-- The events of the start of `main`, before step 2: everyday events other than the requests
for prompts and for segments. -/
def Event.early : Event → Bool
  | .promptRequest _ _ => false
  | .videoRequest _ _ => false
  | e => e.plain

/-- The events of the deferred cleanup: everyday events and `os.RemoveAll("temp_videos")`. -/
def Event.cleanup (e : Event) : Prop :=
  e.plain = true ∨ e = .removeAll "temp_videos".toList

/-- From `w` to `w'` the trace has only grown, by events that satisfy `P`. -/
def Emits (P : Event → Prop) (w w' : World) : Prop :=
  ∃ t, w'.trace = w.trace ++ t ∧ ∀ e ∈ t, P e

/-- The event is the call of the uploader registered for `platform`. -/
def Event.isUploadTo (platform : PlatformType) : Event → Bool
  | .platformUpload p _ _ _ _ => p == platform
  | _ => false

/-- The event is a call of the text service for a scene prompt. -/
def Event.isPromptRequest : Event → Bool
  | .promptRequest _ _ => true
  | _ => false

/-- The format of the fatal log line of the prompt stage. -/
def promptsFormat : Str := "Не удалось сгенерировать ни одного детального промпта.".toList

/-- The format of the fatal log line of the segment stage. -/
def segmentsFormat : Str := "Не удалось сгенерировать ни одного видеофрагмента.".toList

/-- The prompts that survive the prompt stage: the answers of the successful requests, in the
order of their scenes. -/
def promptSurvivors (env : Env) (overallIdea : Str) (scenes : List Str) : List Str :=
  scenes.enum.filterMap fun p => (env.scenePrompt p.1 overallIdea p.2).toOption

/-- The outcome of rendering `prompt` as segment `k`: the value of
`GenerateVideoSegment(prompt, k)`. -/
def segmentResult (env : Env) (cfg : Config) (prompt : Str) (k : Nat) : Res Str :=
  (GenerateVideoSegment env cfg World.initial prompt k).1

/-- The path of a successful rendering. -/
def Res.toOption {α : Type} : Res α → Option α
  | .ok a => some a
  | _ => none

/-- The result of the segment stage on the given prompts: the surviving paths, or `none` when
a call panicked. -/
def segmentOutcome (env : Env) (cfg : Config) (prompts : List Str) : Option (List Str) :=
  (segmentLoop env cfg 0 prompts [] World.initial).1

/-- The formats of the fatal log lines of step 4 of `main` (output directory, concatenation). -/
def lateFatalFormats : List Str :=
  ["Не удалось создать директорию %s: %v".toList, "Ошибка при склейке видео: %v".toList]

/-- The ways `pipeline` (steps 2 to 5 of `main`) can go from the world `w`, with what it
leaves.  In each case `w'` is the world reached by everyday events before the last action; it has
seen a prompt request for every scene and, when the segment loop came to its end, a video
request for every surviving prompt, numbered by its position. -/
inductive PipelineRun (env : Env) (cfg : Config) (w : World) (overallIdea : Str)
    (scenes : List Str) : Outcome × World → Prop
  /-- No prompt survived: fatal at the prompt stage. -/
  | noPrompts (w' : World) :
      promptSurvivors env overallIdea scenes = [] →
      Emits (fun e => e.plain = true) w w' →
      (∀ s ∈ scenes, Event.promptRequest overallIdea s ∈ w'.trace) →
      PipelineRun env cfg w overallIdea scenes (.exited 1, w'.Fatal promptsFormat [])
  /-- A segment call panicked. -/
  | panicked (w' : World) :
      promptSurvivors env overallIdea scenes ≠ [] →
      segmentOutcome env cfg (promptSurvivors env overallIdea scenes) = none →
      Emits (fun e => e.plain = true) w w' →
      (∀ s ∈ scenes, Event.promptRequest overallIdea s ∈ w'.trace) →
      PipelineRun env cfg w overallIdea scenes (.panicked, w')
  /-- No segment survived: fatal at the segment stage. -/
  | noSegments (w' : World) :
      promptSurvivors env overallIdea scenes ≠ [] →
      segmentOutcome env cfg (promptSurvivors env overallIdea scenes) = some [] →
      Emits (fun e => e.plain = true) w w' →
      (∀ s ∈ scenes, Event.promptRequest overallIdea s ∈ w'.trace) →
      (∀ q ∈ (promptSurvivors env overallIdea scenes).enum,
        Event.videoRequest q.2 (q.1 + 1) ∈ w'.trace) →
      PipelineRun env cfg w overallIdea scenes (.exited 1, w'.Fatal segmentsFormat [])
  /-- The output directory or the concatenation failed: fatal at step 4. -/
  | lateFatal (w' : World) (paths : List Str) (format : Str) (args : List Arg) :
      promptSurvivors env overallIdea scenes ≠ [] →
      segmentOutcome env cfg (promptSurvivors env overallIdea scenes) = some paths →
      paths ≠ [] →
      format ∈ lateFatalFormats →
      Emits (fun e => e.plain = true) w w' →
      (∀ s ∈ scenes, Event.promptRequest overallIdea s ∈ w'.trace) →
      (∀ q ∈ (promptSurvivors env overallIdea scenes).enum,
        Event.videoRequest q.2 (q.1 + 1) ∈ w'.trace) →
      PipelineRun env cfg w overallIdea scenes (.exited 1, w'.Fatal format args)
  /-- The final video was made: the upload step runs and `pipeline` returns. -/
  | published (w' : World) (paths : List Str) (compiledVideoPath : Str) :
      promptSurvivors env overallIdea scenes ≠ [] →
      segmentOutcome env cfg (promptSurvivors env overallIdea scenes) = some paths →
      paths ≠ [] →
      Emits (fun e => e.plain = true) w w' →
      (∀ s ∈ scenes, Event.promptRequest overallIdea s ∈ w'.trace) →
      (∀ q ∈ (promptSurvivors env overallIdea scenes).enum,
        Event.videoRequest q.2 (q.1 + 1) ∈ w'.trace) →
      PipelineRun env cfg w overallIdea scenes
        (.returned, publish cfg w' overallIdea compiledVideoPath)

/-- The format of the fatal log line of the parse stage. -/
def parseFormat : Str :=
  "Не удалось извлечь идею или описания сцен из сгенерированного контента.".toList

/-- The formats of the fatal log lines of `main` before the parse stage (configuration, idea
request) and after it (directory `temp_videos`). -/
def earlyFatalFormats : List Str :=
  ["Ошибка загрузки конфигурации: %v".toList,
   "Ошибка при генерации общей идеи и сцен: %v".toList,
   "Не удалось создать директорию temp_videos: %v".toList]

/-- The ways `main` can go from the world `w0`, with what it leaves. -/
inductive MainRun (env : Env) (w0 : World) : Outcome × World → Prop
  /-- The configuration, the idea request or the creation of `temp_videos` failed. -/
  | earlyFatal (w' : World) (format : Str) (args : List Arg) :
      format ∈ earlyFatalFormats →
      (∀ cfg content, env.loadConfig = .ok cfg → env.ideaAndScenes topic = .ok content →
        ((parseIdeaAndScenes content).overallIdea ≠ [] ∧
         (parseIdeaAndScenes content).scenes ≠ [] ∧
         env.mkdirAll .mainTemp "temp_videos".toList ≠ none)) →
      Emits (fun e => e.early = true) w0 w' →
      MainRun env w0 (.exited 1, w'.Fatal format args)
  /-- The parser found no idea or no scene. -/
  | parseFatal (cfg : Config) (content : Str) (w' : World) :
      env.loadConfig = .ok cfg → env.ideaAndScenes topic = .ok content →
      ((parseIdeaAndScenes content).overallIdea = [] ∨
        (parseIdeaAndScenes content).scenes = []) →
      Emits (fun e => e.early = true) w0 w' →
      MainRun env w0 (.exited 1, w'.Fatal parseFormat [])
  /-- The directory `temp_videos` was made and steps 2 to 5 ran as `r`, inside the `defer`. -/
  | staged (cfg : Config) (content : Str) (w' : World) (r : Outcome × World) :
      env.loadConfig = .ok cfg → env.ideaAndScenes topic = .ok content →
      (parseIdeaAndScenes content).overallIdea ≠ [] →
      (parseIdeaAndScenes content).scenes ≠ [] →
      env.mkdirAll .mainTemp "temp_videos".toList = none →
      Emits (fun e => e.early = true) w0 w' →
      Event.mkdirAll "temp_videos".toList ∈ w'.trace →
      "temp_videos".toList ∈ w'.fs →
      PipelineRun env cfg w' (parseIdeaAndScenes content).overallIdea
        (parseIdeaAndScenes content).scenes r →
      MainRun env w0 (runDeferred env r)

/-- The process was ended by `Logger.Fatal` with the given format: the run ends with that fatal
log line followed by `os.Exit(1)`. -/
def AbortsWith (format : Str) (r : Outcome × World) : Prop :=
  ∃ (w' : World) (args : List Arg), r = (.exited 1, w'.Fatal format args)

/-- An outside world in which the text service fails on every scene prompt. -/
def promptsDownEnv : Env :=
  { sampleEnv with scenePrompt := fun _ _ _ => .error "service unavailable".toList }

/-- An outside world in which the text service fails on the prompt of the first scene only. -/
def firstPromptDownEnv : Env :=
  { sampleEnv with
    scenePrompt := fun i _ scene =>
      if i = 0 then .error ("timeout".toList) else .ok ("prompt for ".toList ++ scene) }

/-- The sample configuration with the output format `mp4/`. -/
def slashFormatConfig : Config :=
  { sampleConfig with Video := { sampleConfig.Video with OutputFormat := "mp4/".toList } }

/-- An outside world in which the video service fails on the second segment only. -/
def secondSegmentDownEnv : Env :=
  { sampleEnv with
    videoResponse := fun k _ =>
      if k = 2 then .error ("render failed".toList) else .ok ("http://video/out".toList) }

/-- An outside world in which the video service fails on every segment. -/
def segmentsDownEnv : Env :=
  { sampleEnv with videoResponse := fun _ _ => .error ("render failed".toList) }

/-- An outside world whose configuration has no upload key at all: both uploads fail. -/
def noUploadKeyEnv : Env :=
  { sampleEnv with
    loadConfig := .ok { sampleConfig with YouTubeAPIKey := [], TikTokAPIKey := [] } }

/-! ## Vocabulary for the statements on the parser and on segment paths -/

/-- The format of the warning of `parseIdeaAndScenes` for a scene with an empty description. -/
def emptySceneFormat : Str := "Пустое описание для сцены в строке: %s".toList

/-- A scene line without text: after trimming it reads `Сцена <digits>:`, nothing after the
colon (what follows the colon in the raw line is white space only). -/
def IsEmptySceneLine (raw : Str) : Prop :=
  ∃ ds : Str, (∀ c ∈ ds, isDigit c = true) ∧ TrimSpace raw = sceneHead ++ ds ++ [':']

/-- The number written by a string of decimal digits. -/
def digitsValue (s : Str) : Nat :=
  s.foldl (fun acc c => 10 * acc + (c.toNat - 48)) 0

/-- The sample configuration with the output format `/../x`. -/
def dotdotFormatConfig : Config :=
  { sampleConfig with Video := { sampleConfig.Video with OutputFormat := "/../x".toList } }

/-- The sample world with the output format `/../x`. -/
def dotdotFormatEnv : Env :=
  { sampleEnv with loadConfig := .ok dotdotFormatConfig }

/-- The sample world in which `os.Remove` is refused by the operating system. -/
def removeDownEnv : Env :=
  { sampleEnv with remove := fun _ => some ("operation not permitted".toList) }

/-- The sample world in which the directory `temp_videos` cannot be created by `main`. -/
def tempDirDownEnv : Env :=
  { sampleEnv with
    mkdirAll := fun site _ =>
      match site with
      | .mainTemp => some ⟨"permission denied".toList, false⟩
      | _ => none }

/-! ## Lemmas on the string helpers -/

theorem ideaHead_eq : ideaHead = ideaLabel ++ [' '] := by decide

theorem matchLit_append (p s : Str) : matchLit p (p ++ s) = some s := by
  induction p with
  | nil => simp [matchLit]
  | cons a p ih => simp [matchLit, ih]

theorem matchLit_eq_some {p s r : Str} (h : matchLit p s = some r) : s = p ++ r := by
  induction p generalizing s with
  | nil => simpa [matchLit] using h
  | cons a p ih =>
    cases s with
    | nil => simp [matchLit] at h
    | cons c cs =>
      by_cases hac : a = c
      · subst hac
        simp only [matchLit, if_true] at h
        simp [ih h]
      · simp [matchLit, hac] at h

theorem startsWith_append (p s : Str) : startsWith (p ++ s) p = true := by
  induction p with
  | nil => cases s <;> simp [startsWith]
  | cons a p ih => simp [startsWith, ih]

theorem startsWith_append_append (p q s : Str) : startsWith (p ++ q ++ s) p = true := by
  rw [List.append_assoc]; exact startsWith_append p (q ++ s)

theorem takeWhile_isDot_eq {s : Str} (h : '\n' ∉ s) : s.takeWhile isDot = s := by
  rw [List.takeWhile_eq_self_iff]
  intro c hc
  have : c ≠ '\n' := fun e => h (e ▸ hc)
  simpa [isDot] using this

theorem mem_TrimSpace {c : Char} {s : Str} (h : c ∈ TrimSpace s) : c ∈ s := by
  unfold TrimSpace at h
  rw [List.mem_reverse] at h
  have h1 := (List.dropWhile_sublist isSpace).subset h
  rw [List.mem_reverse] at h1
  exact (List.dropWhile_sublist isSpace).subset h1

theorem Split_ne_nil (sep : Char) (s : Str) : Split sep s ≠ [] := by
  induction s with
  | nil => simp [Split]
  | cons c cs ih =>
    unfold Split
    split
    · simp
    · split <;> simp

theorem not_mem_of_mem_Split {sep : Char} {s piece : Str} (h : piece ∈ Split sep s) :
    sep ∉ piece := by
  induction s generalizing piece with
  | nil =>
    simp [Split] at h
    simp [h]
  | cons c cs ih =>
    unfold Split at h
    split at h
    · rcases List.mem_cons.1 h with h | h
      · simp [h]
      · exact ih h
    · rename_i hc
      split at h
      · rename_i heq
        exact absurd heq (Split_ne_nil sep cs)
      · rename_i p ps heq
        rcases List.mem_cons.1 h with h | h
        · subst h
          have hp : sep ∉ p := ih (by rw [heq]; simp)
          intro hmem
          rcases List.mem_cons.1 hmem with e | e
          · exact hc e.symm
          · exact hp e
        · exact ih (by rw [heq]; simp [h])

/-! ## Lemmas on the two patterns -/

theorem ideaRegexFind_head {y : Str} (hy : y ≠ []) (hnl : '\n' ∉ y) :
    ideaRegexFind (ideaHead ++ y) = [ideaHead ++ y, y] := by
  simp [ideaRegexFind, matchLit_append, takeWhile_isDot_eq hnl, hy]

theorem ideaRegexFind_cases {line : Str} (hnl : '\n' ∉ line) :
    ideaRegexFind line = [] ∨
      ∃ g, g ≠ [] ∧ line = ideaHead ++ g ∧ ideaRegexFind line = [ideaHead ++ g, g] := by
  unfold ideaRegexFind
  cases hm : matchLit ideaHead line with
  | none => simp
  | some rest =>
    have hline := matchLit_eq_some hm
    have hrest : '\n' ∉ rest := fun h => hnl (by rw [hline]; simp [h])
    simp only [takeWhile_isDot_eq hrest]
    by_cases hr : rest = []
    · simp [hr]
    · right
      exact ⟨rest, hr, hline, by simp [hr]⟩

theorem takeWhile_digits {ds t : Str} (hd : ∀ c ∈ ds, isDigit c = true) :
    (ds ++ sceneSep ++ t).takeWhile isDigit = ds := by
  rw [List.append_assoc, List.takeWhile_append_of_pos hd]
  have : (sceneSep ++ t).takeWhile isDigit = [] := by
    simp [sceneSep, List.takeWhile, isDigit]
  simp [this]

theorem dropWhile_digits {ds t : Str} (hd : ∀ c ∈ ds, isDigit c = true) :
    (ds ++ sceneSep ++ t).dropWhile isDigit = sceneSep ++ t := by
  rw [List.append_assoc, List.dropWhile_append_of_pos hd]
  simp [sceneSep, List.dropWhile, isDigit]

theorem sceneRegexFind_head {ds t : Str} (hds : ds ≠ []) (hd : ∀ c ∈ ds, isDigit c = true)
    (ht : t ≠ []) (hnl : '\n' ∉ t) :
    sceneRegexFind (sceneHead ++ ds ++ sceneSep ++ t) =
      [sceneHead ++ ds ++ sceneSep ++ t, t] := by
  have e : sceneHead ++ ds ++ sceneSep ++ t = sceneHead ++ (ds ++ sceneSep ++ t) := by
    simp [List.append_assoc]
  unfold sceneRegexFind
  rw [e, matchLit_append]
  simp only [takeWhile_digits hd, dropWhile_digits hd, matchLit_append, takeWhile_isDot_eq hnl]
  simp [hds, ht]

theorem sceneRegexFind_cases {line : Str} (hnl : '\n' ∉ line) :
    sceneRegexFind line = [] ∨
      ∃ ds g, ds ≠ [] ∧ (∀ c ∈ ds, isDigit c = true) ∧ g ≠ [] ∧
        line = sceneHead ++ ds ++ sceneSep ++ g ∧
        sceneRegexFind line = [sceneHead ++ ds ++ sceneSep ++ g, g] := by
  unfold sceneRegexFind
  cases hm : matchLit sceneHead line with
  | none => simp
  | some r1 =>
    have hline := matchLit_eq_some hm
    by_cases hds : r1.takeWhile isDigit = []
    · simp [hds]
    · cases hm2 : matchLit sceneSep (r1.dropWhile isDigit) with
      | none => simp [hds, hm2]
      | some r2 =>
        have hr1 : r1 = r1.takeWhile isDigit ++ (sceneSep ++ r2) := by
          rw [← matchLit_eq_some hm2, List.takeWhile_append_dropWhile]
        have hr2 : '\n' ∉ r2 := fun h => hnl (by rw [hline, hr1]; simp [h])
        by_cases hg : r2 = []
        · simp [hds, hg, hm2]
        · right
          refine ⟨r1.takeWhile isDigit, r2, hds, ?_, hg, ?_, ?_⟩
          · intro c hc
            exact (List.mem_takeWhile_imp hc)
          · rw [hline]; nth_rewrite 1 [hr1]; simp [List.append_assoc]
          · simp [hds, hm2, takeWhile_isDot_eq hr2, hg]

/-! ## One turn of the parser's loop -/

theorem not_startsWith_sceneHead (s : Str) : startsWith (sceneHead ++ s) ideaLabel = false := by
  have h : sceneHead = 'С' :: "цена ".toList := by decide
  have h2 : ideaLabel = 'И' :: "дея:".toList := by decide
  rw [h, h2]
  simp [startsWith]

theorem parseLine_idea (st : ParseState) {raw y : Str} (h : IsIdeaLine raw y)
    (hnl : '\n' ∉ raw) : parseLine st raw = st.setIdea y := by
  obtain ⟨hy, ht⟩ := h
  have hy' : '\n' ∉ y := fun hm => hnl (mem_TrimSpace (by rw [ht]; simp [hm]))
  have hne : ideaHead ++ y ≠ [] := by simp [hy]
  have hsw : startsWith (ideaHead ++ y) ideaLabel = true := by
    rw [ideaHead_eq]; exact startsWith_append_append _ _ _
  simp only [parseLine, ht, hne, if_false, hsw, if_true, ideaRegexFind_head hy hy',
    ParseState.setIdea]

theorem parseLine_scene (st : ParseState) {raw t : Str} (h : IsSceneLine raw t)
    (hnl : '\n' ∉ raw) : parseLine st raw = st.addScene t := by
  obtain ⟨ht, ds, hds, hd, htrim⟩ := h
  have ht' : '\n' ∉ t := fun hm => hnl (mem_TrimSpace (by rw [htrim]; simp [hm]))
  have hne : sceneHead ++ ds ++ sceneSep ++ t ≠ [] := by simp [ht]
  have hsw : startsWith (sceneHead ++ ds ++ sceneSep ++ t) ideaLabel = false := by
    rw [List.append_assoc, List.append_assoc]; exact not_startsWith_sceneHead _
  have hlen : t.length > 0 := List.length_pos.2 ht
  unfold parseLine
  simp only [htrim]
  rw [if_neg hne, hsw, sceneRegexFind_head hds hd ht ht']
  simp [hlen, ParseState.addScene]

theorem parseLine_cases (st : ParseState) {raw : Str} (hnl : '\n' ∉ raw) :
    (∃ y, IsIdeaLine raw y ∧ parseLine st raw = st.setIdea y) ∨
    (∃ t, IsSceneLine raw t ∧ parseLine st raw = st.addScene t) ∨
    parseLine st raw = st := by
  have hline : '\n' ∉ TrimSpace raw := fun hm => hnl (mem_TrimSpace hm)
  by_cases hempty : TrimSpace raw = []
  · right; right
    simp [parseLine, hempty]
  by_cases hsw : startsWith (TrimSpace raw) ideaLabel = true
  · rcases ideaRegexFind_cases hline with h | ⟨g, hg, hl, hfind⟩
    · right; right
      simp [parseLine, hempty, hsw, h]
    · left
      exact ⟨g, ⟨hg, hl⟩, parseLine_idea st ⟨hg, hl⟩ hnl⟩
  · rcases sceneRegexFind_cases hline with h | ⟨ds, g, hds, hd, hg, hl, hfind⟩
    · right; right
      simp [parseLine, hempty, hsw, h]
    · right; left
      exact ⟨g, ⟨hg, ds, hds, hd, hl⟩, parseLine_scene st ⟨hg, ds, hds, hd, hl⟩ hnl⟩

theorem parseLine_other (st : ParseState) {raw : Str} (hnl : '\n' ∉ raw)
    (hi : ∀ y, ¬ IsIdeaLine raw y) (hs : ∀ t, ¬ IsSceneLine raw t) :
    parseLine st raw = st := by
  rcases parseLine_cases st hnl with ⟨y, h, _⟩ | ⟨t, h, _⟩ | h
  · exact absurd h (hi y)
  · exact absurd h (hs t)
  · exact h

theorem parseLine_idea_unchanged (st : ParseState) {raw : Str} (hnl : '\n' ∉ raw)
    (hi : ∀ y, ¬ IsIdeaLine raw y) : (parseLine st raw).overallIdea = st.overallIdea := by
  rcases parseLine_cases st hnl with ⟨y, h, _⟩ | ⟨t, _, h⟩ | h
  · exact absurd h (hi y)
  · rw [h]; rfl
  · rw [h]

theorem parseLine_scenes_unchanged (st : ParseState) {raw : Str} (hnl : '\n' ∉ raw)
    (hs : ∀ t, ¬ IsSceneLine raw t) : (parseLine st raw).scenes = st.scenes := by
  rcases parseLine_cases st hnl with ⟨y, _, h⟩ | ⟨t, h, _⟩ | h
  · rw [h]; rfl
  · exact absurd h (hs t)
  · rw [h]

theorem parseLine_classified (st : ParseState) {raw : Str} {k : LineKind} (hnl : '\n' ∉ raw)
    (h : Classifies raw k) :
    (parseLine st raw).overallIdea = (k.ideaText).getD st.overallIdea ∧
    (parseLine st raw).scenes = st.scenes ++ (k.sceneText).toList := by
  cases k with
  | idea y =>
    rw [parseLine_idea st h hnl]
    simp [ParseState.setIdea, LineKind.ideaText, LineKind.sceneText]
  | scene t =>
    rw [parseLine_scene st h hnl]
    simp [ParseState.addScene, LineKind.ideaText, LineKind.sceneText]
  | other => rw [parseLine_other st hnl h.1 h.2]; simp [LineKind.ideaText, LineKind.sceneText]

/-- The loop of the parser over classified lines: the scenes are appended in order of
appearance and the idea is the text of the last idea line, if any. -/
theorem foldl_parseLine_classified {lines : List Str} {kinds : List LineKind}
    (h : List.Forall₂ Classifies lines kinds) (hnl : ∀ l ∈ lines, '\n' ∉ l) (st : ParseState) :
    (lines.foldl parseLine st).overallIdea =
        ((kinds.filterMap LineKind.ideaText).getLast?).getD st.overallIdea ∧
    (lines.foldl parseLine st).scenes = st.scenes ++ kinds.filterMap LineKind.sceneText := by
  induction h generalizing st with
  | nil => simp
  | @cons raw k lines kinds hk _ ih =>
    have hraw : '\n' ∉ raw := hnl raw (by simp)
    have htail : ∀ l ∈ lines, '\n' ∉ l := fun l hl => hnl l (by simp [hl])
    obtain ⟨h1, h2⟩ := parseLine_classified st hraw hk
    obtain ⟨i1, i2⟩ := ih htail (parseLine st raw)
    rw [List.foldl_cons, i1, i2, h1, h2]
    constructor
    · cases k with
      | idea y =>
        have e : List.filterMap LineKind.ideaText (LineKind.idea y :: kinds) =
            y :: List.filterMap LineKind.ideaText kinds := rfl
        rw [e]
        generalize List.filterMap LineKind.ideaText kinds = found
        cases found with
        | nil => rfl
        | cons a l =>
          simp only [List.getLast?_cons_cons,
            List.getLast?_eq_getLast _ (List.cons_ne_nil a l), Option.getD_some]
      | scene t => simp [LineKind.ideaText]
      | other => simp [LineKind.ideaText]
    · cases k <;> simp [LineKind.sceneText]

theorem parse_overallIdea (content : Str) :
    (parseIdeaAndScenes content).overallIdea =
      ((Split '\n' content).foldl parseLine ⟨[], [], []⟩).overallIdea := rfl

theorem parse_scenes (content : Str) :
    (parseIdeaAndScenes content).scenes =
      ((Split '\n' content).foldl parseLine ⟨[], [], []⟩).scenes := rfl

/-! ## The parser on a classified text -/

theorem Split_no_newline (content : Str) : ∀ l ∈ Split '\n' content, '\n' ∉ l :=
  fun _ hl => not_mem_of_mem_Split hl

/-- C1. For every raw text whose lines are classified as idea lines, well-formed scene lines
(`Сцена <digits>: <text>`, any digits) and other lines, with exactly one idea line, carrying `y`:
`parseIdeaAndScenes` returns the idea `y` and the scene list made of the texts of the scene
lines, in order of appearance; its length is the number `k` of scene lines, and the numeric
labels play no part. -/
theorem parseIdeaAndScenes_scenes_in_order (content : Str) (kinds : List LineKind) (y : Str)
    (hcls : List.Forall₂ Classifies (Split '\n' content) kinds)
    (hidea : kinds.filterMap LineKind.ideaText = [y]) :
    (parseIdeaAndScenes content).overallIdea = y ∧
    (parseIdeaAndScenes content).scenes = kinds.filterMap LineKind.sceneText ∧
    (parseIdeaAndScenes content).scenes.length =
      (kinds.filter fun k => k.sceneText.isSome).length := by
  obtain ⟨h1, h2⟩ :=
    foldl_parseLine_classified hcls (Split_no_newline content) ⟨[], [], []⟩
  have hlen : (kinds.filterMap LineKind.sceneText).length =
      (kinds.filter fun k => k.sceneText.isSome).length := by
    clear hcls hidea h1 h2
    induction kinds with
    | nil => rfl
    | cons k ks ih => cases k <;> simp [LineKind.sceneText, List.filter, ih]
  refine ⟨?_, ?_, ?_⟩
  · rw [parse_overallIdea, h1, hidea]; rfl
  · rw [parse_scenes, h2]; rfl
  · rw [parse_scenes, h2]; simpa using hlen

/-- C1, the end-to-end example of the specification: idea `Y`, then scenes `A` and `B`. -/
theorem parseIdeaAndScenes_scenes_in_order_witness :
    (parseIdeaAndScenes "Идея: Y\nСцена 1: A\nСцена 2: B".toList).overallIdea = "Y".toList ∧
    (parseIdeaAndScenes "Идея: Y\nСцена 1: A\nСцена 2: B".toList).scenes =
      ["A".toList, "B".toList] ∧
    (parseIdeaAndScenes "Идея: Y\nСцена 1: A\nСцена 2: B".toList).scenes.length = 2 := by
  have hsplit : Split '\n' "Идея: Y\nСцена 1: A\nСцена 2: B".toList =
      ["Идея: Y".toList, "Сцена 1: A".toList, "Сцена 2: B".toList] := by decide
  have h := parseIdeaAndScenes_scenes_in_order "Идея: Y\nСцена 1: A\nСцена 2: B".toList
    [.idea "Y".toList, .scene "A".toList, .scene "B".toList] "Y".toList
    (by
      rw [hsplit]
      refine .cons ⟨by decide, by decide⟩ (.cons ⟨by decide, "1".toList, ?_, ?_, ?_⟩
        (.cons ⟨by decide, "2".toList, ?_, ?_, ?_⟩ .nil)) <;> decide)
    (by decide)
  exact h

/-! ## C10: the idea line -/

/-- C10, as stated, fails: the line `Идея:Y` begins with the label `Идея:` and its remainder is
`Y`, yet the idea stays empty, because `ideaRegex` wants a space after the colon. -/
theorem idea_label_without_space_counterexample :
    startsWith (TrimSpace "Идея:Y".toList) ideaLabel = true ∧
    TrimSpace "Идея:Y".toList = ideaLabel ++ "Y".toList ∧
    (parseIdeaAndScenes "Идея:Y".toList).overallIdea = [] ∧
    (parseIdeaAndScenes "Идея:Y".toList).overallIdea ≠ "Y".toList := by decide

theorem foldl_parseLine_idea_unchanged {lines : List Str} (hnl : ∀ l ∈ lines, '\n' ∉ l)
    (hno : ∀ l ∈ lines, ∀ y, ¬ IsIdeaLine l y) (st : ParseState) :
    (lines.foldl parseLine st).overallIdea = st.overallIdea := by
  induction lines generalizing st with
  | nil => rfl
  | cons l ls ih =>
    rw [List.foldl_cons, ih (fun x hx => hnl x (by simp [hx])) (fun x hx => hno x (by simp [hx])),
      parseLine_idea_unchanged st (hnl l (by simp)) (hno l (by simp))]

theorem foldl_parseLine_scenes_unchanged {lines : List Str} (hnl : ∀ l ∈ lines, '\n' ∉ l)
    (hno : ∀ l ∈ lines, ∀ t, ¬ IsSceneLine l t) (st : ParseState) :
    (lines.foldl parseLine st).scenes = st.scenes := by
  induction lines generalizing st with
  | nil => rfl
  | cons l ls ih =>
    rw [List.foldl_cons, ih (fun x hx => hnl x (by simp [hx])) (fun x hx => hno x (by simp [hx])),
      parseLine_scenes_unchanged st (hnl l (by simp)) (hno l (by simp))]

theorem not_IsIdeaLine_of_no_head {raw : Str}
    (h : ∀ r, r ≠ [] → TrimSpace raw ≠ ideaHead ++ r) : ∀ y, ¬ IsIdeaLine raw y :=
  fun y hy => h y hy.1 hy.2

/-- C10, amended. In a text whose other lines are no idea lines: a line that after trimming
reads `Идея: ` (label and one space) followed by a non-empty remainder `r` sets the idea to `r`,
as it stands; a line that begins with the label `Идея:` but does not read `Идея: ` followed by
some text (no space after the colon, or nothing after the label) sets no idea. -/
theorem idea_line_sets_idea (content : Str) (before after : List Str) (raw : Str)
    (hsplit : Split '\n' content = before ++ raw :: after)
    (hbefore : ∀ l ∈ before, ∀ y, ¬ IsIdeaLine l y)
    (hafter : ∀ l ∈ after, ∀ y, ¬ IsIdeaLine l y) :
    (∀ r, r ≠ [] → TrimSpace raw = ideaLabel ++ ' ' :: r →
      (parseIdeaAndScenes content).overallIdea = r) ∧
    (startsWith (TrimSpace raw) ideaLabel = true →
      (∀ r, r ≠ [] → TrimSpace raw ≠ ideaLabel ++ ' ' :: r) →
      (parseIdeaAndScenes content).overallIdea = []) := by
  have hnl := Split_no_newline content
  rw [hsplit] at hnl
  have hnb : ∀ l ∈ before, '\n' ∉ l := fun l hl => hnl l (by simp [hl])
  have hna : ∀ l ∈ after, '\n' ∉ l := fun l hl => hnl l (by simp [hl])
  have hnr : '\n' ∉ raw := hnl raw (by simp)
  have hhead : ∀ r : Str, ideaLabel ++ ' ' :: r = ideaHead ++ r := by
    intro r; rw [ideaHead_eq]; simp
  constructor
  · intro r hr htrim
    rw [hhead] at htrim
    rw [parse_overallIdea, hsplit, List.foldl_append, List.foldl_cons,
      foldl_parseLine_idea_unchanged hna hafter, parseLine_idea _ ⟨hr, htrim⟩ hnr]
    rfl
  · intro _ hno
    have hraw : ∀ y, ¬ IsIdeaLine raw y :=
      not_IsIdeaLine_of_no_head fun r hr => by rw [← hhead]; exact hno r hr
    rw [parse_overallIdea, hsplit, List.foldl_append, List.foldl_cons,
      foldl_parseLine_idea_unchanged hna hafter, parseLine_idea_unchanged _ hnr hraw,
      foldl_parseLine_idea_unchanged hnb hbefore]

/-- C10, amended, on the texts `Сцена 1: A`, `  Идея:  два слова ` (the second space stays in
the idea) and `Сцена 1: A`, `Идея:Y`. -/
theorem idea_line_sets_idea_witness :
    (parseIdeaAndScenes "Сцена 1: A\n  Идея:  два слова ".toList).overallIdea =
      " два слова".toList ∧
    (parseIdeaAndScenes "Сцена 1: A\nИдея:Y".toList).overallIdea = [] := by
  have hother : ∀ l ∈ ["Сцена 1: A".toList], ∀ y, ¬ IsIdeaLine l y := by
    intro l hl y hy
    rw [List.mem_singleton.1 hl] at hy
    have h := hy.2
    have e : TrimSpace "Сцена 1: A".toList = 'С' :: "цена 1: A".toList := by decide
    have e2 : ideaHead = 'И' :: "дея: ".toList := by decide
    rw [e, e2] at h
    simp at h
  constructor
  · exact (idea_line_sets_idea "Сцена 1: A\n  Идея:  два слова ".toList
      ["Сцена 1: A".toList] [] "  Идея:  два слова ".toList (by decide) hother
      (by simp)).1 " два слова".toList (by decide) (by decide)
  · refine (idea_line_sets_idea "Сцена 1: A\nИдея:Y".toList
      ["Сцена 1: A".toList] [] "Идея:Y".toList (by decide) hother (by simp)).2 (by decide) ?_
    intro r _ h
    have e : TrimSpace "Идея:Y".toList = "Идея:".toList ++ ['Y'] := by decide
    have e2 : ideaLabel = "Идея:".toList := rfl
    rw [e, e2] at h
    have := List.append_cancel_left h
    simp at this

/-! ## `ConcatenateVideos` -/

/-- C6. For every output path and fps, `ConcatenateVideos` on the empty list of inputs returns
the empty path and an error; the file system is untouched and the only thing that happened is
its first log line: no manifest was created, no directory was created, `ffmpeg` was not run. -/
theorem ConcatenateVideos_empty (env : Env) (w : World) (outputPath : Str) (fps : Int) :
    (ConcatenateVideos env w [] outputPath fps).1 =
      ([], some "нет входных видеофайлов для склейки".toList) ∧
    (ConcatenateVideos env w [] outputPath fps).2.fs = w.fs ∧
    (ConcatenateVideos env w [] outputPath fps).2.trace =
      w.trace ++ [.log .info "Начало склейки видеофайлов с FFmpeg: %v в %s".toList
        [.strs [], .str outputPath]] ∧
    (∀ path, Event.create path ∉
      (ConcatenateVideos env w [] outputPath fps).2.trace.drop w.trace.length) ∧
    (∀ path, Event.mkdirAll path ∉
      (ConcatenateVideos env w [] outputPath fps).2.trace.drop w.trace.length) ∧
    (∀ name args, Event.exec name args ∉
      (ConcatenateVideos env w [] outputPath fps).2.trace.drop w.trace.length) := by
  have ht : (ConcatenateVideos env w [] outputPath fps).2.trace =
      w.trace ++ [.log .info "Начало склейки видеофайлов с FFmpeg: %v в %s".toList
        [.strs [], .str outputPath]] := by
    simp [ConcatenateVideos, World.Info, World.emit]
  refine ⟨by simp [ConcatenateVideos], by simp [ConcatenateVideos, World.Info, World.emit],
    ht, ?_, ?_, ?_⟩ <;> simp [ht]

theorem osRemove_not_mem (env : Env) (w : World) (path : Str) (h : env.remove path = none) :
    path ∉ (osRemove env w path).2.fs := by
  unfold osRemove
  by_cases hm : path ∈ w.fs
  · simp [hm, h, World.delPath, World.emit]
  · simp [hm, World.emit]

theorem osRemove_mem (env : Env) (w : World) (path : Str) (h : env.remove path ≠ none)
    (hm : path ∈ w.fs) : path ∈ (osRemove env w path).2.fs := by
  unfold osRemove
  cases hr : env.remove path with
  | none => exact absurd hr h
  | some e => simp [hm, World.emit]

theorem osRemove_mem_trace (env : Env) (w : World) (path : Str) :
    Event.remove path ∈ (osRemove env w path).2.trace := by
  unfold osRemove
  by_cases hm : path ∈ w.fs
  · cases hr : env.remove path <;> simp [hm, World.delPath, World.emit]
  · simp [hm, World.emit]

theorem writeList_fs (env : Env) (i : Nat) (paths : List Str) (w : World) :
    (writeList env i paths w).2.fs = w.fs := by
  induction paths generalizing i w with
  | nil => rfl
  | cons p rest ih =>
    simp only [writeList]
    split
    · rfl
    · rw [ih]; rfl

theorem runFfmpeg_fs_mem (env : Env) (w : World) (outputPath : Str) (fps : Int) {p : Str}
    (h : p ∈ w.fs) : p ∈ (runFfmpeg env w outputPath fps).2.fs := by
  simp only [runFfmpeg]
  split
  · exact h
  · exact List.mem_cons_of_mem _ h

theorem concatBody_fs_mem (env : Env) (w : World) (inputPaths : List Str) (outputPath : Str)
    (fps : Int) {p : Str} (h : p ∈ w.fs) :
    p ∈ (concatBody env w inputPaths outputPath fps).2.fs := by
  have hw : p ∈ (writeList env 0 inputPaths w).2.fs := by rw [writeList_fs]; exact h
  simp only [concatBody]
  split
  · exact hw
  · split
    · split
      · exact hw
      · exact runFfmpeg_fs_mem env _ outputPath fps hw
    · exact runFfmpeg_fs_mem env _ outputPath fps (List.mem_cons_of_mem _ hw)

/-- C7, as stated, fails: `os.Remove` can fail and `ConcatenateVideos` discards its error.  On
the sample world with `os.Remove` refused, the call over one segment succeeds, the removal of the
manifest `temp_videos/concat_list.txt` was attempted, and the manifest still exists in the file
system when the call has returned. -/
theorem manifest_left_behind_counterexample :
    (ConcatenateVideos removeDownEnv ⟨["temp_videos".toList], []⟩
      ["temp_videos/segment_1.mp4".toList] "output_shorts/Y_final_short.mp4".toList 30).1 =
      ("output_shorts/Y_final_short.mp4".toList, none) ∧
    Event.remove listFilePath ∈ (ConcatenateVideos removeDownEnv ⟨["temp_videos".toList], []⟩
      ["temp_videos/segment_1.mp4".toList] "output_shorts/Y_final_short.mp4".toList 30).2.trace ∧
    listFilePath ∈ (ConcatenateVideos removeDownEnv ⟨["temp_videos".toList], []⟩
      ["temp_videos/segment_1.mp4".toList] "output_shorts/Y_final_short.mp4".toList 30).2.fs := by
  decide

/-- C7, amended. Whenever `ConcatenateVideos` has created its manifest
`temp_videos/concat_list.txt` (the inputs are not empty and `os.Create` succeeded), then however
the call goes on (a write error at any line, an error creating the output directory, a failing
`ffmpeg`, or success) the removal of the manifest has been attempted when it returns; the
manifest does not exist in the file system if `os.Remove` is not refused, and it is still there
if it is.  In the two remaining cases no manifest is made and the file system is left as it
was. -/
theorem ConcatenateVideos_manifest_removed (env : Env) (w : World) (inputPaths : List Str)
    (outputPath : Str) (fps : Int) :
    (inputPaths ≠ [] → env.createList listFilePath = none →
      Event.remove listFilePath ∈ (ConcatenateVideos env w inputPaths outputPath fps).2.trace ∧
      (env.remove listFilePath = none →
        listFilePath ∉ (ConcatenateVideos env w inputPaths outputPath fps).2.fs) ∧
      (env.remove listFilePath ≠ none →
        listFilePath ∈ (ConcatenateVideos env w inputPaths outputPath fps).2.fs)) ∧
    (inputPaths = [] ∨ env.createList listFilePath ≠ none →
      (ConcatenateVideos env w inputPaths outputPath fps).2.fs = w.fs) := by
  constructor
  · intro hne hc
    have hlen : inputPaths.length ≠ 0 := by simpa using hne
    simp only [ConcatenateVideos, hlen, if_false, hc]
    refine ⟨?_, ?_, ?_⟩
    · have := osRemove_mem_trace env
        (concatBody env (((w.Info "Начало склейки видеофайлов с FFmpeg: %v в %s".toList
          [.strs inputPaths, .str outputPath]).emit (.create listFilePath)).addPath
            listFilePath) inputPaths outputPath fps).2 listFilePath
      simp only [World.emit]
      exact List.mem_append_left _ this
    · intro hr
      exact osRemove_not_mem env _ _ hr
    · intro hr
      exact osRemove_mem env _ _ hr
        (concatBody_fs_mem env _ inputPaths outputPath fps (List.mem_cons_self _ _))
  · rintro (h | h)
    · subst h
      simp [ConcatenateVideos, World.Info, World.emit]
    · by_cases hlen : inputPaths.length = 0
      · simp [ConcatenateVideos, hlen, World.Info, World.emit]
      · cases hc : env.createList listFilePath with
        | none => exact absurd hc h
        | some e => simp [ConcatenateVideos, hlen, hc, World.Info, World.emit]

/-- C7, amended, on three calls over one segment: with a failing `ffmpeg` and `os.Remove` not
refused, the call returns an error and the manifest is gone; with `os.Remove` refused the
manifest is still there; when `os.Create` fails nothing changes in the file system. -/
theorem ConcatenateVideos_manifest_removed_witness :
    (ConcatenateVideos { sampleEnv with ffmpeg := fun _ => .error ("exit status 1".toList, [], []) }
      ⟨["temp_videos".toList], []⟩ ["temp_videos/segment_1.mp4".toList]
      "output_shorts/Y_final_short.mp4".toList 30).1.2 ≠ none ∧
    listFilePath ∉ (ConcatenateVideos
      { sampleEnv with ffmpeg := fun _ => .error ("exit status 1".toList, [], []) }
      ⟨["temp_videos".toList], []⟩ ["temp_videos/segment_1.mp4".toList]
      "output_shorts/Y_final_short.mp4".toList 30).2.fs ∧
    listFilePath ∈ (ConcatenateVideos removeDownEnv
      ⟨["temp_videos".toList], []⟩ ["temp_videos/segment_1.mp4".toList]
      "output_shorts/Y_final_short.mp4".toList 30).2.fs ∧
    (ConcatenateVideos { sampleEnv with createList := fun _ => some "denied".toList }
      ⟨["temp_videos".toList], []⟩ ["temp_videos/segment_1.mp4".toList]
      "output_shorts/Y_final_short.mp4".toList 30).2.fs = ["temp_videos".toList] :=
  ⟨by decide,
   ((ConcatenateVideos_manifest_removed
      { sampleEnv with ffmpeg := fun _ => .error ("exit status 1".toList, [], []) }
      ⟨["temp_videos".toList], []⟩ ["temp_videos/segment_1.mp4".toList]
      "output_shorts/Y_final_short.mp4".toList 30).1 (by decide) rfl).2.1 rfl,
   ((ConcatenateVideos_manifest_removed removeDownEnv
      ⟨["temp_videos".toList], []⟩ ["temp_videos/segment_1.mp4".toList]
      "output_shorts/Y_final_short.mp4".toList 30).1 (by decide) rfl).2.2 (by decide),
   (ConcatenateVideos_manifest_removed
      { sampleEnv with createList := fun _ => some "denied".toList }
      ⟨["temp_videos".toList], []⟩ ["temp_videos/segment_1.mp4".toList]
      "output_shorts/Y_final_short.mp4".toList 30).2 (Or.inr (by decide))⟩

/-! ## `MultiPlatformUploader` -/

theorem NewMultiPlatformUploader_platforms (yk tk : Str) (platform : PlatformType) :
    (NewMultiPlatformUploader yk tk).platforms platform =
      if platform = PlatformTikTok then some (.tiktok ⟨tk⟩)
      else if platform = PlatformYouTube then some (.youtube ⟨yk⟩)
      else none := rfl

/-- C8. With the registry built by `NewMultiPlatformUploader`: for a platform tag other than
`youtube` and `tiktok`, `Upload` returns the empty URL and the error
`загрузчик для платформы <tag> не найден`, and the world is exactly as before (no log line, no
call of an uploader); for `youtube` and for `tiktok` it calls the registered uploader once and
returns that uploader's error, and with no error that uploader's URL. -/
theorem MultiPlatformUploader_Upload_registry (yk tk : Str) (w : World) (platform : PlatformType)
    (videoPath title description tags : Str) :
    (platform ≠ PlatformYouTube → platform ≠ PlatformTikTok →
      (NewMultiPlatformUploader yk tk).Upload w platform videoPath title description tags =
        (([], some ("загрузчик для платформы ".toList ++ platform ++ " не найден".toList)), w)) ∧
    (platform = PlatformYouTube →
      ((NewMultiPlatformUploader yk tk).Upload w platform videoPath title description tags).1.2 =
        ((YouTubeUploader.mk yk).Upload
          ((w.Info "Запуск загрузки видео '%s' на платформу: %s".toList
            [.str videoPath, .str platform]).emit
            (.platformUpload platform videoPath title description tags))
          videoPath title description tags).1.2 ∧
      (((NewMultiPlatformUploader yk tk).Upload w platform videoPath title description
          tags).1.2 = none →
        ((NewMultiPlatformUploader yk tk).Upload w platform videoPath title description
          tags).1.1 =
        ((YouTubeUploader.mk yk).Upload
          ((w.Info "Запуск загрузки видео '%s' на платформу: %s".toList
            [.str videoPath, .str platform]).emit
            (.platformUpload platform videoPath title description tags))
          videoPath title description tags).1.1)) ∧
    (platform = PlatformTikTok →
      ((NewMultiPlatformUploader yk tk).Upload w platform videoPath title description tags).1.2 =
        ((TikTokUploader.mk tk).Upload
          ((w.Info "Запуск загрузки видео '%s' на платформу: %s".toList
            [.str videoPath, .str platform]).emit
            (.platformUpload platform videoPath title description tags))
          videoPath title description tags).1.2 ∧
      (((NewMultiPlatformUploader yk tk).Upload w platform videoPath title description
          tags).1.2 = none →
        ((NewMultiPlatformUploader yk tk).Upload w platform videoPath title description
          tags).1.1 =
        ((TikTokUploader.mk tk).Upload
          ((w.Info "Запуск загрузки видео '%s' на платформу: %s".toList
            [.str videoPath, .str platform]).emit
            (.platformUpload platform videoPath title description tags))
          videoPath title description tags).1.1)) := by
  refine ⟨?_, ?_, ?_⟩
  · intro hy ht
    simp [MultiPlatformUploader.Upload, NewMultiPlatformUploader_platforms, hy, ht]
  · intro hp
    subst hp
    have hreg : (NewMultiPlatformUploader yk tk).platforms PlatformYouTube =
        some (.youtube ⟨yk⟩) := by
      have hne : PlatformYouTube ≠ PlatformTikTok := by decide
      rw [NewMultiPlatformUploader_platforms, if_neg hne, if_pos rfl]
    simp only [MultiPlatformUploader.Upload, hreg, VideoUploader.Upload]
    constructor
    · split <;> simp_all
    · split <;> simp_all
  · intro hp
    subst hp
    have hreg : (NewMultiPlatformUploader yk tk).platforms PlatformTikTok =
        some (.tiktok ⟨tk⟩) := by
      rw [NewMultiPlatformUploader_platforms]; simp
    simp only [MultiPlatformUploader.Upload, hreg, VideoUploader.Upload]
    constructor
    · split <;> simp_all
    · split <;> simp_all

/-- C8 on the tag `vimeo`, and on `youtube` with and without a key. -/
theorem MultiPlatformUploader_Upload_registry_witness :
    (NewMultiPlatformUploader "k".toList []).Upload World.initial "vimeo".toList
        "out/v.mp4".toList "t".toList "d".toList "g".toList =
      (([], some "загрузчик для платформы vimeo не найден".toList), World.initial) ∧
    ((NewMultiPlatformUploader "k".toList []).Upload World.initial PlatformYouTube
        "out/v.mp4".toList "t".toList "d".toList "g".toList).1 =
      ("http://youtube.com/watch?v=dummy_youtube_id_v.mp4".toList, none) ∧
    ((NewMultiPlatformUploader "k".toList []).Upload World.initial PlatformTikTok
        "out/v.mp4".toList "t".toList "d".toList "g".toList).1 =
      ([], some "TikTok API Key не предоставлен".toList) := by
  refine ⟨?_, ?_, ?_⟩
  · exact (MultiPlatformUploader_Upload_registry "k".toList [] World.initial "vimeo".toList
      "out/v.mp4".toList "t".toList "d".toList "g".toList).1 (by decide) (by decide)
  · have h := (MultiPlatformUploader_Upload_registry "k".toList [] World.initial PlatformYouTube
      "out/v.mp4".toList "t".toList "d".toList "g".toList).2.1 rfl
    refine Prod.ext (h.2 (h.1.trans (by decide)) |>.trans (by decide)) (h.1.trans (by decide))
  · have h := (MultiPlatformUploader_Upload_registry "k".toList [] World.initial PlatformTikTok
      "out/v.mp4".toList "t".toList "d".toList "g".toList).2.2 rfl
    exact Prod.ext (by decide) (h.1.trans (by decide))

/-! ## How traces grow -/

theorem Emits.refl (P : Event → Prop) (w : World) : Emits P w w :=
  ⟨[], by simp, by simp⟩

theorem Emits.trans {P : Event → Prop} {w1 w2 w3 : World} (h1 : Emits P w1 w2)
    (h2 : Emits P w2 w3) : Emits P w1 w3 := by
  obtain ⟨t1, e1, p1⟩ := h1
  obtain ⟨t2, e2, p2⟩ := h2
  refine ⟨t1 ++ t2, by rw [e2, e1, List.append_assoc], ?_⟩
  intro e he
  rcases List.mem_append.1 he with h | h
  · exact p1 e h
  · exact p2 e h

theorem Emits.mono {P Q : Event → Prop} {w w' : World} (hPQ : ∀ e, P e → Q e)
    (h : Emits P w w') : Emits Q w w' := by
  obtain ⟨t, e, p⟩ := h
  exact ⟨t, e, fun x hx => hPQ x (p x hx)⟩

theorem Emits.of_trace_eq {P : Event → Prop} {w w' : World} (h : w'.trace = w.trace) :
    Emits P w w' :=
  ⟨[], by simp [h], by simp⟩

theorem Emits.emit {P : Event → Prop} (w : World) {e : Event} (h : P e) :
    Emits P w (w.emit e) :=
  ⟨[e], rfl, by simpa using h⟩

theorem Emits.step {P : Event → Prop} {w w' : World} {e : Event} (h : Emits P w w')
    (he : P e) : Emits P w (w'.emit e) :=
  h.trans (Emits.emit w' he)

theorem Emits.addPath {P : Event → Prop} {w w' : World} (h : Emits P w w') (p : Str) :
    Emits P w (w'.addPath p) :=
  h.trans (Emits.of_trace_eq rfl)

theorem Emits.mem {P : Event → Prop} {w w' : World} (h : Emits P w w') {e : Event}
    (he : e ∈ w'.trace) : e ∈ w.trace ∨ P e := by
  obtain ⟨t, ht, p⟩ := h
  rw [ht] at he
  rcases List.mem_append.1 he with h | h
  · exact Or.inl h
  · exact Or.inr (p e h)

theorem Emits.subset {P : Event → Prop} {w w' : World} (h : Emits P w w') {e : Event}
    (he : e ∈ w.trace) : e ∈ w'.trace := by
  obtain ⟨t, ht, _⟩ := h
  rw [ht]
  exact List.mem_append_left _ he

theorem Emits.countP_eq {P : Event → Prop} {w w' : World} (h : Emits P w w')
    (q : Event → Bool) (hq : ∀ e, P e → q e = false) :
    w'.trace.countP q = w.trace.countP q := by
  obtain ⟨t, ht, p⟩ := h
  rw [ht, List.countP_append]
  have : t.countP q = 0 := by
    rw [List.countP_eq_zero]
    intro e he
    simp [hq e (p e he)]
  omega

/-! ### The services emit everyday events only -/

theorem plain_log {lvl : Level} {format : Str} (args : List Arg) (h1 : lvl ≠ .fatal)
    (h2 : format ≠ publishFormat) : (Event.log lvl format args).plain = true := by
  simp [Event.plain, h1, h2]

theorem early_log {lvl : Level} {format : Str} (args : List Arg) (h1 : lvl ≠ .fatal)
    (h2 : format ≠ publishFormat) : (Event.log lvl format args).early = true := by
  simp [Event.early, Event.plain, h1, h2]

theorem plain_of_early {e : Event} (h : e.early = true) : e.plain = true := by
  cases e <;> simp_all [Event.early, Event.plain]

theorem Emits.elog {w w' : World} (h : Emits (fun e => e.early = true) w w') {lvl : Level}
    {format : Str} (args : List Arg) (h1 : lvl ≠ .fatal) (h2 : format ≠ publishFormat) :
    Emits (fun e => e.early = true) w (w'.emit (.log lvl format args)) :=
  h.step (early_log args h1 h2)

theorem Emits.toPlain {w w' : World} (h : Emits (fun e => e.early = true) w w') :
    Emits (fun e => e.plain = true) w w' :=
  h.mono fun _ he => plain_of_early he

theorem Emits.logAt {w w' : World} (h : Emits (fun e => e.plain = true) w w') (lvl : Level)
    (format : Str) (args : List Arg) (h1 : lvl ≠ .fatal) (h2 : format ≠ publishFormat) :
    Emits (fun e => e.plain = true) w (w'.emit (.log lvl format args)) :=
  h.step (plain_log args h1 h2)

theorem Emits.elogAt {w w' : World} (h : Emits (fun e => e.early = true) w w') (lvl : Level)
    (format : Str) (args : List Arg) (h1 : lvl ≠ .fatal) (h2 : format ≠ publishFormat) :
    Emits (fun e => e.early = true) w (w'.emit (.log lvl format args)) :=
  h.step (early_log args h1 h2)

theorem Emits.log {w w' : World} (h : Emits (fun e => e.plain = true) w w') {lvl : Level}
    {format : Str} (args : List Arg) (h1 : lvl ≠ .fatal) (h2 : format ≠ publishFormat) :
    Emits (fun e => e.plain = true) w (w'.emit (.log lvl format args)) :=
  h.step (plain_log args h1 h2)

theorem GenerateVideoPromptForScene_emits (env : Env) (w : World) (i : Nat) (idea scene : Str) :
    Emits (fun e => e.plain = true) w (GenerateVideoPromptForScene env w i idea scene).2 := by
  unfold GenerateVideoPromptForScene World.Info
  exact ((Emits.refl _ w).log _ (by decide) (by decide)).step (by rfl)

theorem promptLoop_emits (env : Env) (idea : Str) (i : Nat) (scenes acc : List Str) (w : World) :
    Emits (fun e => e.plain = true) w (promptLoop env idea i scenes acc w).2 := by
  induction scenes generalizing i acc w with
  | nil => exact Emits.refl _ _
  | cons s rest ih =>
    have h := GenerateVideoPromptForScene_emits env w i idea s
    simp only [promptLoop]
    split
    · exact (h.log _ (by decide) (by decide)).trans (ih _ _ _)
    · exact ((h.log _ (by decide) (by decide)).log _ (by decide) (by decide)).trans (ih _ _ _)

theorem downloadRest_emits (env : Env) (w0 w : World) (k : Nat) (url path : Str)
    (h : Emits (fun e => e.plain = true) w0 w) :
    Emits (fun e => e.plain = true) w0 (downloadRest env w k url path).2 := by
  have h3 := h.step (e := .download url path) (by rfl)
  simp only [downloadRest]
  split
  · exact h3
  · split
    · exact h3
    · have h4 := h3.step (e := .create path) (by rfl)
      split
      · exact h4
      · split
        · exact h4.addPath _
        · exact h4.addPath _

theorem downloadFile_emits (env : Env) (w : World) (k : Nat) (url path : Str) :
    Emits (fun e => e.plain = true) w (downloadFile env w k url path).2 := by
  have h1 : Emits (fun e => e.plain = true) w
      (w.Info "Скачивание файла: %s в %s".toList [.str url, .str path]) :=
    (Emits.refl _ w).log _ (by decide) (by decide)
  simp only [downloadFile]
  split
  · exact h1
  · rename_i dir _
    have h2 := h1.step (e := .mkdirAll dir) (by rfl)
    split
    · split
      · exact h2
      · exact downloadRest_emits env w _ k url path h2
    · exact downloadRest_emits env w _ k url path (h2.addPath _)

theorem GenerateVideoSegment_emits (env : Env) (cfg : Config) (w : World) (prompt : Str)
    (k : Nat) : Emits (fun e => e.plain = true) w (GenerateVideoSegment env cfg w prompt k).2 := by
  have h2 : Emits (fun e => e.plain = true) w
      ((w.Info "Запрос на генерацию видеофрагмента для промпта (сцена %d): %s".toList
        [.int k, .str prompt]).emit (.videoRequest prompt k)) :=
    ((Emits.refl _ w).log _ (by decide) (by decide)).step (by rfl)
  simp only [GenerateVideoSegment]
  split
  · exact h2
  · split
    · exact h2
    · rename_i videoURL _ _
      have hd := h2.trans
        (downloadFile_emits env _ k videoURL (segmentPath cfg.Video.OutputFormat k))
      split
      · exact hd
      · exact hd
      · exact hd.log _ (by decide) (by decide)

theorem segmentLoop_emits (env : Env) (cfg : Config) (i : Nat) (prompts acc : List Str)
    (w : World) : Emits (fun e => e.plain = true) w (segmentLoop env cfg i prompts acc w).2 := by
  induction prompts generalizing i acc w with
  | nil => exact Emits.refl _ _
  | cons p rest ih =>
    have h := GenerateVideoSegment_emits env cfg w p (i + 1)
    simp only [segmentLoop]
    split
    · exact h
    · exact (h.log _ (by decide) (by decide)).trans (ih _ _ _)
    · exact ((h.log _ (by decide) (by decide)).log _ (by decide) (by decide)).trans (ih _ _ _)

theorem writeList_emits (env : Env) (i : Nat) (paths : List Str) (w : World) :
    Emits (fun e => e.plain = true) w (writeList env i paths w).2 := by
  induction paths generalizing i w with
  | nil => exact Emits.refl _ _
  | cons p rest ih =>
    simp only [writeList]
    split
    · exact Emits.emit w (by rfl)
    · exact (Emits.emit w (by rfl)).trans (ih _ _)

theorem runFfmpeg_emits (env : Env) (w0 w : World) (outputPath : Str) (fps : Int)
    (h : Emits (fun e => e.plain = true) w0 w) :
    Emits (fun e => e.plain = true) w0 (runFfmpeg env w outputPath fps).2 := by
  have h4 := (h.logAt .info "Запуск FFmpeg с командой: ffmpeg %s".toList
    [.str (List.intercalate [' '] (cmdArgs outputPath fps))]
    (by decide) (by decide)).step (e := .exec "ffmpeg".toList (cmdArgs outputPath fps)) (by rfl)
  simp only [runFfmpeg, World.Info, World.Error]
  split
  · exact (h4.log _ (by decide) (by decide)).log _ (by decide) (by decide)
  · exact ((h4.addPath _).log _ (by decide) (by decide)).log _ (by decide) (by decide)

theorem concatBody_emits (env : Env) (w : World) (inputPaths : List Str) (outputPath : Str)
    (fps : Int) :
    Emits (fun e => e.plain = true) w (concatBody env w inputPaths outputPath fps).2 := by
  have hw := writeList_emits env 0 inputPaths w
  simp only [concatBody]
  split
  · exact hw
  · have h2 := (hw.step (e := .close listFilePath) (by rfl)).step
      (e := .mkdirAll (Dir outputPath)) (by rfl)
    split
    · split
      · exact h2
      · exact runFfmpeg_emits env w _ outputPath fps h2
    · exact runFfmpeg_emits env w _ outputPath fps (h2.addPath _)

theorem osRemove_emits (env : Env) (w : World) (path : Str) :
    Emits (fun e => e.plain = true) w (osRemove env w path).2 := by
  unfold osRemove
  split
  · split
    · exact Emits.emit w (by rfl)
    · exact (Emits.emit w (by rfl)).trans (Emits.of_trace_eq rfl)
  · exact Emits.emit w (by rfl)

theorem ConcatenateVideos_emits (env : Env) (w : World) (inputPaths : List Str)
    (outputPath : Str) (fps : Int) :
    Emits (fun e => e.plain = true) w
      (ConcatenateVideos env w inputPaths outputPath fps).2 := by
  have h1 : Emits (fun e => e.plain = true) w
      (w.Info "Начало склейки видеофайлов с FFmpeg: %v в %s".toList
        [.strs inputPaths, .str outputPath]) :=
    (Emits.refl _ w).log _ (by decide) (by decide)
  simp only [ConcatenateVideos]
  split
  · exact h1
  · have h2 := h1.step (e := .create listFilePath) (by rfl)
    split
    · exact h2
    · exact (((h2.addPath _).trans (concatBody_emits env _ inputPaths outputPath fps)).trans
        (osRemove_emits env _ _)).step (by rfl)

theorem removeSegments_emits (env : Env) (paths : List Str) (w : World) :
    Emits (fun e => e.plain = true) w (removeSegments env paths w) := by
  induction paths generalizing w with
  | nil => exact Emits.refl _ _
  | cons p rest ih =>
    simp only [removeSegments]
    split
    · exact ((osRemove_emits env w p).log _ (by decide) (by decide)).trans (ih _)
    · exact (osRemove_emits env w p).trans (ih _)

theorem logScenes_emits (i : Nat) (scenes : List Str) (w : World) :
    Emits (fun e => e.early = true) w (logScenes i scenes w) := by
  induction scenes generalizing i w with
  | nil => exact Emits.refl _ _
  | cons s rest ih =>
    simp only [logScenes]
    exact ((Emits.refl _ w).elog _ (by decide) (by decide)).trans (ih _ _)

theorem deferredCleanup_emits (env : Env) (w : World) :
    Emits Event.cleanup w (deferredCleanup env w) := by
  have hl : ∀ (w1 w2 : World) (lvl : Level) (f : Str) (a : List Arg), lvl ≠ .fatal →
      f ≠ publishFormat → Emits Event.cleanup w1 w2 →
      Emits Event.cleanup w1 (w2.emit (.log lvl f a)) :=
    fun _ _ _ _ a h1 h2 h => h.step (Or.inl (plain_log a h1 h2))
  have h2 : Emits Event.cleanup w
      ((w.Info "Очистка временных видеофайлов...".toList []).emit
        (.removeAll "temp_videos".toList)) :=
    (hl _ _ _ _ _ (by decide) (by decide) (Emits.refl _ w)).step (Or.inr rfl)
  simp only [deferredCleanup]
  split
  · exact hl _ _ _ _ _ (by decide) (by decide) (hl _ _ _ _ _ (by decide) (by decide) h2)
  · exact hl _ _ _ _ _ (by decide) (by decide) (h2.trans (Emits.of_trace_eq rfl))

theorem GenerateShortsIdeaAndScenes_emits (env : Env) (w : World) (t : Str) :
    Emits (fun e => e.early = true) w (GenerateShortsIdeaAndScenes env w t).2 := by
  unfold GenerateShortsIdeaAndScenes World.Info
  exact ((Emits.refl _ w).elog _ (by decide) (by decide)).step (by rfl)

theorem parseLine_log_early (st : ParseState) (raw : Str)
    (h : ∀ e ∈ st.log, e.early = true) : ∀ e ∈ (parseLine st raw).log, e.early = true := by
  have key : ∀ (lvl : Level) (f : Str) (a : List Arg), lvl ≠ .fatal → f ≠ publishFormat →
      ∀ e ∈ st.log ++ [Event.log lvl f a], e.early = true := by
    intro lvl f a h1 h2 e he
    rcases List.mem_append.1 he with h' | h'
    · exact h e h'
    · rw [List.mem_singleton.1 h']; exact early_log a h1 h2
  unfold parseLine
  simp only []
  split
  · exact h
  · split
    · split
      · exact key _ _ _ (by decide) (by decide)
      · exact h
    · split
      · split
        · exact key _ _ _ (by decide) (by decide)
        · exact key _ _ _ (by decide) (by decide)
      · exact h

theorem foldl_parseLine_log_early (lines : List Str) (st : ParseState)
    (h : ∀ e ∈ st.log, e.early = true) :
    ∀ e ∈ (lines.foldl parseLine st).log, e.early = true := by
  induction lines generalizing st with
  | nil => exact h
  | cons l ls ih => exact ih _ (parseLine_log_early st l h)

theorem parse_log_early (content : Str) :
    ∀ e ∈ (parseIdeaAndScenes content).log, e.early = true := by
  have h := foldl_parseLine_log_early (Split '\n' content) ⟨[], [], []⟩ (by simp)
  have key : ∀ (l : List Event) (f : Str), (∀ e ∈ l, e.early = true) → f ≠ publishFormat →
      ∀ e ∈ l ++ [Event.log .warn f []], e.early = true := by
    intro l f hl h2 e he
    rcases List.mem_append.1 he with h' | h'
    · exact hl e h'
    · rw [List.mem_singleton.1 h']; exact early_log [] (by decide) h2
  unfold parseIdeaAndScenes
  simp only []
  split
  · split
    · exact key _ _ (key _ _ h (by decide)) (by decide)
    · exact key _ _ h (by decide)
  · split
    · exact key _ _ h (by decide)
    · exact h

/-! ## The stages of `main` -/

theorem promptLoop_fst (env : Env) (idea : Str) (i : Nat) (scenes acc : List Str) (w : World) :
    (promptLoop env idea i scenes acc w).1 =
      acc ++ (scenes.enumFrom i).filterMap
        fun p => (env.scenePrompt p.1 idea p.2).toOption := by
  induction scenes generalizing i acc w with
  | nil => simp [promptLoop]
  | cons s rest ih =>
    simp only [promptLoop, GenerateVideoPromptForScene, List.enumFrom_cons]
    cases h : env.scenePrompt i idea s with
    | error e => simp [ih, h, Except.toOption]
    | ok p => simp [ih, h, Except.toOption]

theorem promptLoop_requests (env : Env) (idea : Str) (i : Nat) (scenes acc : List Str)
    (w : World) : ∀ s ∈ scenes,
      Event.promptRequest idea s ∈ (promptLoop env idea i scenes acc w).2.trace := by
  induction scenes generalizing i acc w with
  | nil => simp
  | cons s rest ih =>
    intro x hx
    simp only [promptLoop]
    rcases List.mem_cons.1 hx with rfl | hx
    · have hin : Event.promptRequest idea x ∈
          (GenerateVideoPromptForScene env w i idea x).2.trace := by
        simp [GenerateVideoPromptForScene, World.emit]
      split
      · exact (promptLoop_emits env idea _ rest _ _).subset
          (by simp only [World.Error, World.emit]; exact List.mem_append_left _ hin)
      · exact (promptLoop_emits env idea _ rest _ _).subset
          (by simp only [World.Info, World.emit]
              exact List.mem_append_left _ (List.mem_append_left _ hin))
    · split
      · exact ih _ _ _ x hx
      · exact ih _ _ _ x hx

/-! ## The path of a segment -/

theorem digitChar_ne_slash (n : Nat) : Nat.digitChar (n % 10) ≠ '/' := by
  have h : n % 10 < 10 := Nat.mod_lt _ (by decide)
  generalize n % 10 = m at h ⊢
  interval_cases m <;> decide

theorem toDigitsCore_no_slash (fuel n : Nat) (ds : List Char) (h : '/' ∉ ds) :
    '/' ∉ Nat.toDigitsCore 10 fuel n ds := by
  induction fuel generalizing n ds with
  | zero => simpa [Nat.toDigitsCore] using h
  | succ f ih =>
    have hd : '/' ∉ Nat.digitChar (n % 10) :: ds := by
      intro hm
      rcases List.mem_cons.1 hm with e | e
      · exact digitChar_ne_slash _ e.symm
      · exact h e
    unfold Nat.toDigitsCore
    simp only []
    split
    · exact hd
    · exact ih _ _ hd

theorem fmtNat_no_slash (n : Nat) : '/' ∉ fmtNat n :=
  toDigitsCore_no_slash _ _ _ (by simp)

theorem Split_of_not_mem {sep : Char} {s : Str} (h : sep ∉ s) : Split sep s = [s] := by
  induction s with
  | nil => rfl
  | cons c cs ih =>
    have hc : c ≠ sep := fun e => h (by simp [e])
    have hcs : sep ∉ cs := fun e => h (by simp [e])
    simp [Split, hc, ih hcs]

theorem Split_append_sep {sep : Char} {a : Str} (b : Str) (h : sep ∉ a) :
    Split sep (a ++ sep :: b) = a :: Split sep b := by
  induction a with
  | nil => simp [Split]
  | cons c cs ih =>
    have hc : c ≠ sep := fun e => h (by simp [e])
    have hcs : sep ∉ cs := fun e => h (by simp [e])
    simp [Split, hc, ih hcs]

/-- The name `segment_<k>.<format>` of a segment file. -/
theorem segmentPath_eq {format : Str} (k : Nat) (h : '/' ∉ format) :
    segmentPath format k =
      "temp_videos/segment_".toList ++ fmtNat k ++ '.' :: format := by
  have hb : '/' ∉ "segment_".toList ++ fmtNat k ++ '.' :: format := by
    intro hm
    rcases List.mem_append.1 hm with hm | hm
    · rcases List.mem_append.1 hm with hm | hm
      · revert hm; decide
      · exact fmtNat_no_slash k hm
    · rcases List.mem_cons.1 hm with e | e
      · revert e; decide
      · exact h e
  have ha : '/' ∉ "temp_videos".toList := by decide
  have hsplit := Split_append_sep ("segment_".toList ++ fmtNat k ++ '.' :: format) ha
  rw [Split_of_not_mem hb] at hsplit
  have e1 : "temp_videos".toList = 't' :: "emp_videos".toList := by decide
  have e2 : "segment_".toList = 's' :: "egment_".toList := by decide
  have e3 : "temp_videos/segment_".toList = "temp_videos".toList ++ '/' :: "segment_".toList := by
    decide
  unfold segmentPath Join Clean
  rw [if_pos (by decide)]
  simp only [hsplit]
  rw [e3]
  simp [cleanStep, dotdot, e1, e2, List.intercalate]

theorem beforeLastSlash_isSome {s : Str} (h : '/' ∈ s) : (beforeLastSlash s).isSome = true := by
  unfold beforeLastSlash
  split
  · rename_i heq
    rw [List.dropWhile_eq_nil_iff] at heq
    have := heq '/' (by simpa using h)
    simp at this
  · rfl

/-! ## The segment stage -/

theorem downloadRest_fst (env : Env) (w w' : World) (k : Nat) (url path : Str) :
    (downloadRest env w k url path).1 = (downloadRest env w' k url path).1 := by
  simp only [downloadRest]
  split
  · rfl
  · split
    · rfl
    · split
      · rfl
      · split <;> rfl

theorem downloadFile_fst (env : Env) (w w' : World) (k : Nat) (url path : Str) :
    (downloadFile env w k url path).1 = (downloadFile env w' k url path).1 := by
  simp only [downloadFile]
  split
  · rfl
  · split
    · split
      · rfl
      · exact downloadRest_fst _ _ _ _ _ _
    · exact downloadRest_fst _ _ _ _ _ _

theorem GenerateVideoSegment_fst (env : Env) (cfg : Config) (w : World) (prompt : Str)
    (k : Nat) : (GenerateVideoSegment env cfg w prompt k).1 = segmentResult env cfg prompt k := by
  simp only [segmentResult, GenerateVideoSegment]
  split
  · rfl
  · split
    · rfl
    · rename_i videoURL _ _
      rw [downloadFile_fst env _
        ((World.initial.Info
          "Запрос на генерацию видеофрагмента для промпта (сцена %d): %s".toList
          [.int k, .str prompt]).emit (.videoRequest prompt k)) k videoURL
        (segmentPath cfg.Video.OutputFormat k)]
      split <;> rfl

theorem segmentResult_ok {env : Env} {cfg : Config} {prompt : Str} {k : Nat} {path : Str}
    (h : segmentResult env cfg prompt k = .ok path) :
    path = segmentPath cfg.Video.OutputFormat k := by
  simp only [segmentResult, GenerateVideoSegment] at h
  split at h
  · simp at h
  · split at h
    · simp at h
    · split at h
      · simp at h
      · simp at h
      · simpa using h.symm

theorem downloadFile_no_panic (env : Env) (w : World) (k : Nat) (url path : Str)
    (h : '/' ∈ path) : (downloadFile env w k url path).1 ≠ .panic := by
  have hs := beforeLastSlash_isSome h
  simp only [downloadFile]
  split
  · rename_i heq
    simp [heq] at hs
  · have hr : ∀ w2, (downloadRest env w2 k url path).1 ≠ .panic := by
      intro w2
      simp only [downloadRest]
      split
      · simp
      · split
        · simp
        · split
          · simp
          · split <;> simp
    split
    · split
      · simp
      · exact hr _
    · exact hr _

theorem segmentResult_no_panic (env : Env) (cfg : Config) (prompt : Str) (k : Nat)
    (h : '/' ∈ segmentPath cfg.Video.OutputFormat k) :
    segmentResult env cfg prompt k ≠ .panic := by
  simp only [segmentResult, GenerateVideoSegment]
  split
  · simp
  · split
    · simp
    · rename_i videoURL _ _
      have hd := downloadFile_no_panic env
        ((World.initial.Info
          "Запрос на генерацию видеофрагмента для промпта (сцена %d): %s".toList
          [.int k, .str prompt]).emit (.videoRequest prompt k)) k videoURL
        (segmentPath cfg.Video.OutputFormat k) h
      split
      · rename_i heq; exact absurd heq hd
      · simp
      · simp

theorem segmentPath_has_slash {format : Str} (k : Nat) (h : '/' ∉ format) :
    '/' ∈ segmentPath format k := by
  rw [segmentPath_eq k h]
  have e : "temp_videos/segment_".toList = "temp_videos".toList ++ '/' :: "segment_".toList := by
    decide
  rw [e]
  simp

theorem segmentLoop_fst (env : Env) (cfg : Config)
    (hnp : ∀ p k, segmentResult env cfg p k ≠ .panic) (i : Nat) (prompts acc : List Str)
    (w : World) :
    (segmentLoop env cfg i prompts acc w).1 =
      some (acc ++ (prompts.enumFrom i).filterMap
        fun p => (segmentResult env cfg p.2 (p.1 + 1)).toOption) := by
  induction prompts generalizing i acc w with
  | nil => simp [segmentLoop]
  | cons p rest ih =>
    simp only [segmentLoop, List.enumFrom_cons, GenerateVideoSegment_fst]
    cases h : segmentResult env cfg p (i + 1) with
    | panic => exact absurd h (hnp p (i + 1))
    | err e => simp [ih, h, Res.toOption]
    | ok path => simp [ih, h, Res.toOption]

theorem GenerateVideoSegment_request (env : Env) (cfg : Config) (w : World) (p : Str) (k : Nat) :
    Event.videoRequest p k ∈ (GenerateVideoSegment env cfg w p k).2.trace := by
  have h2 : Event.videoRequest p k ∈
      ((w.Info "Запрос на генерацию видеофрагмента для промпта (сцена %d): %s".toList
        [.int k, .str p]).emit (.videoRequest p k)).trace := by
    simp [World.emit]
  simp only [GenerateVideoSegment]
  split
  · exact h2
  · split
    · exact h2
    · rename_i videoURL _ _
      have hd := (downloadFile_emits env _ k videoURL
        (segmentPath cfg.Video.OutputFormat k)).subset h2
      split
      · dsimp only; exact hd
      · dsimp only; exact hd
      · dsimp only [World.Info, World.emit]; exact List.mem_append_left _ hd

theorem segmentLoop_requests (env : Env) (cfg : Config) (i : Nat) (prompts acc : List Str)
    (w : World) (hdone : (segmentLoop env cfg i prompts acc w).1 ≠ none) :
    ∀ q ∈ prompts.enumFrom i,
      Event.videoRequest q.2 (q.1 + 1) ∈ (segmentLoop env cfg i prompts acc w).2.trace := by
  induction prompts generalizing i acc w with
  | nil => simp
  | cons p rest ih =>
    intro q hq
    rw [List.enumFrom_cons] at hq
    simp only [segmentLoop] at hdone ⊢
    have hin := GenerateVideoSegment_request env cfg w p (i + 1)
    split
    · rename_i heq
      rw [heq] at hdone
      exact absurd rfl hdone
    · rename_i e heq
      rw [heq] at hdone
      rcases List.mem_cons.1 hq with rfl | hq
      · exact (segmentLoop_emits env cfg _ rest _ _).subset (List.mem_append_left _ hin)
      · exact ih _ _ _ hdone q hq
    · rename_i path heq
      rw [heq] at hdone
      rcases List.mem_cons.1 hq with rfl | hq
      · exact (segmentLoop_emits env cfg _ rest _ _).subset
          (List.mem_append_left _ (List.mem_append_left _ hin))
      · exact ih _ _ _ hdone q hq

/-! ## The ways of `pipeline` -/

theorem segmentLoop_fst_indep (env : Env) (cfg : Config) (i : Nat) (prompts acc : List Str)
    (w w' : World) :
    (segmentLoop env cfg i prompts acc w).1 = (segmentLoop env cfg i prompts acc w').1 := by
  induction prompts generalizing i acc w w' with
  | nil => rfl
  | cons p rest ih =>
    simp only [segmentLoop, GenerateVideoSegment_fst]
    cases segmentResult env cfg p (i + 1) with
    | panic => rfl
    | err e => exact ih _ _ _ _
    | ok path => exact ih _ _ _ _

theorem segmentLoop_fst_eq_outcome (env : Env) (cfg : Config) (prompts : List Str) (w : World) :
    (segmentLoop env cfg 0 prompts [] w).1 = segmentOutcome env cfg prompts :=
  segmentLoop_fst_indep env cfg 0 prompts [] w World.initial

theorem promptLoop_fst_eq_survivors (env : Env) (idea : Str) (scenes : List Str) (w : World) :
    (promptLoop env idea 0 scenes [] w).1 = promptSurvivors env idea scenes := by
  rw [promptLoop_fst]; rfl

theorem concatAndPublish_cases (env : Env) (cfg : Config) (w : World) (idea : Str)
    (paths : List Str) :
    (∃ w' format args, format ∈ lateFatalFormats ∧ Emits (fun e => e.plain = true) w w' ∧
      concatAndPublish env cfg w idea paths = (.exited 1, w'.Fatal format args)) ∨
    (∃ w' path, Emits (fun e => e.plain = true) w w' ∧
      concatAndPublish env cfg w idea paths = (.returned, publish cfg w' idea path)) := by
  have h1 := Emits.emit (P := fun e => e.plain = true) w (e := .mkdirAll "output_shorts".toList)
    (by rfl)
  simp only [concatAndPublish]
  split
  · left
    exact ⟨_, _, _, by simp [lateFatalFormats], h1, rfl⟩
  · have hc := (h1.addPath "output_shorts".toList).trans
      (ConcatenateVideos_emits env _ paths
        ("output_shorts".toList ++ ['/'] ++ spacesToUnderscores idea ++
          "_final_short.".toList ++ cfg.Video.OutputFormat) cfg.Video.FPS)
    split
    · left
      exact ⟨_, _, _, by simp [lateFatalFormats], hc, rfl⟩
    · right
      refine ⟨_, _, ?_, rfl⟩
      exact (((hc.log _ (by decide) (by decide)).log _ (by decide) (by decide)).trans
        (removeSegments_emits env _ _)).log _ (by decide) (by decide)

theorem pipeline_run (env : Env) (cfg : Config) (w : World) (idea : Str) (scenes : List Str) :
    PipelineRun env cfg w idea scenes (pipeline env cfg w idea scenes) := by
  have hp : Emits (fun e => e.plain = true) w
      (promptLoop env idea 0 scenes []
        (w.Info "\n--- Генерация подробных промптов для видео ---".toList [])).2 :=
    ((Emits.refl _ w).log _ (by decide) (by decide)).trans (promptLoop_emits _ _ _ _ _ _)
  have hreq := promptLoop_requests env idea 0 scenes []
    (w.Info "\n--- Генерация подробных промптов для видео ---".toList [])
  simp only [pipeline, promptLoop_fst_eq_survivors]
  by_cases hs : promptSurvivors env idea scenes = []
  · rw [if_pos (by simp [hs])]
    exact .noPrompts _ hs hp hreq
  · rw [if_neg (by simpa using hs)]
    have hstep : Emits (fun e => e.plain = true)
        (promptLoop env idea 0 scenes []
          (w.Info "\n--- Генерация подробных промптов для видео ---".toList [])).2
        (segmentLoop env cfg 0 (promptSurvivors env idea scenes) []
          ((promptLoop env idea 0 scenes []
            (w.Info "\n--- Генерация подробных промптов для видео ---".toList [])).2.Info
            "\n--- Генерация всех видеосегментов ---".toList [])).2 :=
      ((Emits.refl _ _).logAt .info
      "\n--- Генерация всех видеосегментов ---".toList [] (by decide)
        (by decide)).trans (segmentLoop_emits env cfg 0 (promptSurvivors env idea scenes) [] _)
    have hseg := hp.trans hstep
    have hreq2 : ∀ s ∈ scenes, Event.promptRequest idea s ∈
        (segmentLoop env cfg 0 (promptSurvivors env idea scenes) []
          ((promptLoop env idea 0 scenes []
            (w.Info "\n--- Генерация подробных промптов для видео ---".toList [])).2.Info
            "\n--- Генерация всех видеосегментов ---".toList [])).2.trace :=
      fun s hs' => hstep.subset (hreq s hs')
    have hout := segmentLoop_fst_eq_outcome env cfg (promptSurvivors env idea scenes)
      ((promptLoop env idea 0 scenes []
        (w.Info "\n--- Генерация подробных промптов для видео ---".toList [])).2.Info
        "\n--- Генерация всех видеосегментов ---".toList [])
    cases ho : segmentOutcome env cfg (promptSurvivors env idea scenes) with
    | none =>
      simp only [hout, ho]
      exact .panicked _ hs ho hseg hreq2
    | some paths =>
      have hvid := segmentLoop_requests env cfg 0 (promptSurvivors env idea scenes) []
        ((promptLoop env idea 0 scenes []
          (w.Info "\n--- Генерация подробных промптов для видео ---".toList [])).2.Info
          "\n--- Генерация всех видеосегментов ---".toList []) (by rw [hout, ho]; simp)
      simp only [hout, ho]
      by_cases hpaths : paths = []
      · subst hpaths
        simp only [List.length_nil, if_true]
        exact .noSegments _ hs ho hseg hreq2 hvid
      · simp only [List.length_eq_zero, hpaths, if_false]
        rcases concatAndPublish_cases env cfg
          (segmentLoop env cfg 0 (promptSurvivors env idea scenes) []
            ((promptLoop env idea 0 scenes []
              (w.Info "\n--- Генерация подробных промптов для видео ---".toList [])).2.Info
              "\n--- Генерация всех видеосегментов ---".toList [])).2 idea paths with
          ⟨w', f, a, hf, he, heq⟩ | ⟨w', path, he, heq⟩
        · rw [heq]
          exact .lateFatal _ paths f a hs ho hpaths hf (hseg.trans he)
            (fun s hs' => he.subset (hreq2 s hs')) (fun q hq => he.subset (hvid q hq))
        · rw [heq]
          exact .published _ paths path hs ho hpaths (hseg.trans he)
            (fun s hs' => he.subset (hreq2 s hs')) (fun q hq => he.subset (hvid q hq))

theorem stages_run (env : Env) (cfg : Config) (content : Str) (w0 w : World)
    (hcfg : env.loadConfig = .ok cfg) (hgen : env.ideaAndScenes topic = .ok content)
    (hidea : (parseIdeaAndScenes content).overallIdea ≠ [])
    (hscenes : (parseIdeaAndScenes content).scenes ≠ [])
    (h : Emits (fun e => e.early = true) w0 w) :
    MainRun env w0 (stages env cfg w (parseIdeaAndScenes content).overallIdea
      (parseIdeaAndScenes content).scenes) := by
  have h3 := ((h.elogAt .info
      "Общая идея: %s".toList [.str (parseIdeaAndScenes content).overallIdea]
      (by decide) (by decide)).trans
    (logScenes_emits 0 (parseIdeaAndScenes content).scenes _)).step
    (e := .mkdirAll "temp_videos".toList) (by rfl)
  simp only [stages]
  cases hmk : env.mkdirAll .mainTemp "temp_videos".toList with
  | some e =>
    exact .earlyFatal _ _ _ (by simp [earlyFatalFormats])
      (fun cfg' content' _ hg' => by
        rw [hgen] at hg'
        cases hg'
        exact ⟨hidea, hscenes, by rw [hmk]; exact Option.some_ne_none e⟩) h3
  | none =>
    exact .staged cfg content _ _ hcfg hgen hidea hscenes hmk (h3.addPath _)
      (by simp [World.addPath, World.emit]) (by simp [World.addPath]) (pipeline_run _ _ _ _ _)

theorem afterGeneration_run (env : Env) (cfg : Config) (content : Str) (w0 w : World)
    (hcfg : env.loadConfig = .ok cfg) (hgen : env.ideaAndScenes topic = .ok content)
    (h : Emits (fun e => e.early = true) w0 w) :
    MainRun env w0 (afterGeneration env cfg w content) := by
  have h3 := ((h.elogAt .info
      "\n--- Сгенерированная общая идея и сцены ---".toList [] (by decide)
    (by decide)).step (e := .println content) (by rfl)).elogAt .info
      "----------------------------------------".toList [] (by decide) (by decide)
  have h4 : ∀ w3 : World, Emits (fun e => e.early = true) w0 w3 →
      Emits (fun e => e.early = true) w0
        { w3 with trace := w3.trace ++ (parseIdeaAndScenes content).log } :=
    fun w3 h' => h'.trans ⟨(parseIdeaAndScenes content).log, rfl, parse_log_early content⟩
  simp only [afterGeneration]
  by_cases hfail : (parseIdeaAndScenes content).overallIdea = [] ∨
      (parseIdeaAndScenes content).scenes.length = 0
  · rw [if_pos hfail]
    exact .parseFatal cfg content _ hcfg hgen (by simpa using hfail) (h4 _ h3)
  · rw [if_neg hfail]
    exact stages_run env cfg content w0 _ hcfg hgen (fun h' => hfail (Or.inl h'))
      (fun h' => hfail (Or.inr (by simp [h']))) (h4 _ h3)

theorem main_run (env : Env) (w0 : World) : MainRun env w0 (main env w0) := by
  have h1 : Emits (fun e => e.early = true) w0
      (w0.Info "Запуск YouTube Shorts AI Bot...".toList []) :=
    (Emits.refl _ w0).elog _ (by decide) (by decide)
  simp only [main]
  cases hcfg : env.loadConfig with
  | error e =>
    exact .earlyFatal _ _ _ (by simp [earlyFatalFormats])
      (fun cfg content hc _ => by rw [hcfg] at hc; cases hc) h1
  | ok cfg =>
    have h5 := (((h1.elogAt .info
      "Бот запущен с настройкой: %s".toList [.str cfg.AppName] (by decide) (by decide)).elogAt .info
      "Эндпоинт текстового ИИ: %s".toList [.str cfg.TextAIEndpoint]
      (by decide) (by decide)).elogAt .info
      "Эндпоинт видео ИИ: %s".toList [.str cfg.VideoAIEndpoint]
      (by decide) (by decide)).elogAt .info
      "Модель текстового ИИ: %s".toList [.str cfg.TextModel] (by decide) (by decide)
    have hg := h5.trans (GenerateShortsIdeaAndScenes_emits env _ topic)
    have hg1 : ∀ w, (GenerateShortsIdeaAndScenes env w topic).1 = env.ideaAndScenes topic :=
      fun _ => rfl
    simp only [hg1]
    cases hgen : env.ideaAndScenes topic with
    | error e =>
      exact .earlyFatal _ _ _ (by simp [earlyFatalFormats])
        (fun cfg' content _ hc => by rw [hgen] at hc; cases hc) hg
    | ok content => exact afterGeneration_run env cfg content w0 _ hcfg hgen hg

/-! ## How a run ends -/

theorem Fatal_trace (w : World) (format : Str) (args : List Arg) :
    (w.Fatal format args).trace = w.trace ++ [.log .fatal format args, .exit 1] := by
  simp [World.Fatal, World.emit]

theorem abortsWith_Fatal_iff (format format' : Str) (w : World) (args : List Arg) :
    AbortsWith format (.exited 1, w.Fatal format' args) ↔ format = format' := by
  constructor
  · rintro ⟨w', args', h⟩
    have ht : (w.Fatal format' args).trace = (w'.Fatal format args').trace := by
      rw [(Prod.mk.inj h).2]
    rw [Fatal_trace, Fatal_trace] at ht
    have := (List.append_inj' ht rfl).2
    simp only [List.cons.injEq, Event.log.injEq] at this
    exact this.1.2.1.symm
  · rintro rfl
    exact ⟨w, args, rfl⟩

theorem not_abortsWith_of_ne {format : Str} {r : Outcome × World} (h : r.1 ≠ .exited 1) :
    ¬ AbortsWith format r := by
  rintro ⟨w', args, rfl⟩
  exact h rfl

theorem runDeferred_exited (env : Env) (w : World) (code : Nat) :
    runDeferred env (.exited code, w) = (.exited code, w) := rfl

theorem runDeferred_returned (env : Env) (w : World) :
    runDeferred env (.returned, w) = (.returned, deferredCleanup env w) := rfl

theorem runDeferred_panicked (env : Env) (w : World) :
    runDeferred env (.panicked, w) = (.panicked, deferredCleanup env w) := rfl

theorem Emits.all {P : Event → Prop} {w w' : World} (h : Emits P w w')
    (h0 : ∀ e ∈ w.trace, P e) : ∀ e ∈ w'.trace, P e := by
  intro e he
  rcases h.mem he with h1 | h1
  · exact h0 e h1
  · exact h1

theorem Emits.all_initial {P : Event → Prop} {w' : World} (h : Emits P World.initial w') :
    ∀ e ∈ w'.trace, P e :=
  h.all (by simp [World.initial])

/-- What `main` does under a configuration, an answer of the text service that parses to an idea
and scenes, and a successful creation of `temp_videos`: steps 2 to 5 inside the `defer`. -/
theorem main_staged (env : Env) (cfg : Config) (content : Str)
    (hcfg : env.loadConfig = .ok cfg) (hgen : env.ideaAndScenes topic = .ok content)
    (hidea : (parseIdeaAndScenes content).overallIdea ≠ [])
    (hscenes : (parseIdeaAndScenes content).scenes ≠ [])
    (hmk : env.mkdirAll .mainTemp "temp_videos".toList = none) :
    ∃ w' r, main env World.initial = runDeferred env r ∧
      Emits (fun e => e.early = true) World.initial w' ∧
      PipelineRun env cfg w' (parseIdeaAndScenes content).overallIdea
        (parseIdeaAndScenes content).scenes r := by
  have h := main_run env World.initial
  generalize main env World.initial = m at h
  cases h with
  | earlyFatal w' f a _ hside _ => exact absurd hmk (hside cfg content hcfg hgen).2.2
  | parseFatal cfg' content' w' _ hgen' hfail _ =>
    rw [hgen] at hgen'
    cases hgen'
    rcases hfail with h | h
    · exact absurd h hidea
    · exact absurd h hscenes
  | staged cfg' content' w' r hcfg' hgen' _ _ _ he _ _ hrun =>
    rw [hgen] at hgen'
    rw [hcfg] at hcfg'
    cases hgen'
    cases hcfg'
    exact ⟨w', r, rfl, he, hrun⟩

/-! ## The upload step -/

theorem YouTubeUploader_Upload_emits (u : YouTubeUploader) (w : World) (p t d g : Str) :
    Emits (fun e => e.plain = true) w (u.Upload w p t d g).2 := by
  have h2 := ((Emits.refl (fun e => e.plain = true) w).logAt .info
      "Начало загрузки видео на YouTube: %s".toList [.str p] (by decide) (by decide)).logAt .info
      "Название: %s, Описание: %s, Теги: %s".toList [.str t, .str d, .str g] (by decide) (by decide)
  simp only [YouTubeUploader.Upload]
  split
  · exact h2.log _ (by decide) (by decide)
  · exact h2.log _ (by decide) (by decide)

theorem TikTokUploader_Upload_emits (u : TikTokUploader) (w : World) (p t d g : Str) :
    Emits (fun e => e.plain = true) w (u.Upload w p t d g).2 := by
  have h2 := ((Emits.refl (fun e => e.plain = true) w).logAt .info
      "Начало загрузки видео на TikTok: %s".toList [.str p] (by decide) (by decide)).logAt .info
      "Название: %s, Описание: %s, Теги: %s".toList [.str t, .str d, .str g] (by decide) (by decide)
  simp only [TikTokUploader.Upload]
  split
  · exact h2.log _ (by decide) (by decide)
  · exact h2.log _ (by decide) (by decide)

theorem VideoUploader_Upload_emits (v : VideoUploader) (w : World) (p t d g : Str) :
    Emits (fun e => e.plain = true) w (v.Upload w p t d g).2 := by
  cases v with
  | youtube u => exact YouTubeUploader_Upload_emits u w p t d g
  | tiktok u => exact TikTokUploader_Upload_emits u w p t d g

/-- A registered platform: one call of its uploader, between everyday events. -/
theorem MultiPlatformUploader_Upload_registered (m : MultiPlatformUploader) (w : World)
    (platform : PlatformType) (v : VideoUploader) (p t d g : Str)
    (h : m.platforms platform = some v) :
    ∃ w1 , Emits (fun e => e.plain = true) w w1 ∧
      Emits (fun e => e.plain = true) (w1.emit (.platformUpload platform p t d g))
        (m.Upload w platform p t d g).2 := by
  refine ⟨w.Info "Запуск загрузки видео '%s' на платформу: %s".toList [.str p, .str platform],
    (Emits.refl _ w).log _ (by decide) (by decide), ?_⟩
  have hu := VideoUploader_Upload_emits v
    ((w.Info "Запуск загрузки видео '%s' на платформу: %s".toList
      [.str p, .str platform]).emit (.platformUpload platform p t d g)) p t d g
  simp only [MultiPlatformUploader.Upload, h]
  split
  · exact hu.log _ (by decide) (by decide)
  · exact hu.log _ (by decide) (by decide)

theorem countP_emit (w : World) (e : Event) (q : Event → Bool) :
    (w.emit e).trace.countP q = w.trace.countP q + (if q e = true then 1 else 0) := by
  simp [World.emit, List.countP_append, List.countP_cons]

theorem MultiPlatformUploader_Upload_count (m : MultiPlatformUploader) (w : World)
    (platform : PlatformType) (v : VideoUploader) (p t d g : Str)
    (h : m.platforms platform = some v) (q : Event → Bool)
    (hq : ∀ e, e.plain = true → q e = false) :
    (m.Upload w platform p t d g).2.trace.countP q =
      w.trace.countP q + (if q (.platformUpload platform p t d g) = true then 1 else 0) := by
  obtain ⟨w1, h1, h2⟩ := MultiPlatformUploader_Upload_registered m w platform v p t d g h
  rw [h2.countP_eq q hq, countP_emit, h1.countP_eq q hq]

theorem MultiPlatformUploader_Upload_grows (m : MultiPlatformUploader) (w : World)
    (platform : PlatformType) (p t d g : Str) :
    Emits (fun _ => True) w (m.Upload w platform p t d g).2 := by
  cases h : m.platforms platform with
  | none =>
    simp only [MultiPlatformUploader.Upload, h]
    exact Emits.refl _ _
  | some v =>
    obtain ⟨w1, h1, h2⟩ := MultiPlatformUploader_Upload_registered m w platform v p t d g h
    exact ((h1.mono fun _ _ => trivial).step trivial).trans (h2.mono fun _ _ => trivial)

theorem countP_log (q : Event → Bool) (hq : ∀ e, e.plain = true → q e = false) (w : World)
    {lvl : Level} {f : Str} (a : List Arg) (h1 : lvl ≠ .fatal) (h2 : f ≠ publishFormat) :
    (w.emit (.log lvl f a)).trace.countP q = w.trace.countP q := by
  rw [countP_emit, hq _ (plain_log a h1 h2)]
  simp

theorem publishYouTube_count (m : MultiPlatformUploader) (v : VideoUploader) (w : World)
    (idea path : Str) (h : m.platforms PlatformYouTube = some v) (q : Event → Bool)
    (hq : ∀ e, e.plain = true → q e = false) :
    (publishYouTube m w idea path).trace.countP q =
      w.trace.countP q +
        (if q (.platformUpload PlatformYouTube path (youtubeTitle idea)
          (youtubeDescription idea) youtubeTags) = true then 1 else 0) := by
  simp only [publishYouTube, World.Info, World.Error]
  split
  · rw [countP_log q hq _ _ (by decide) (by decide),
      MultiPlatformUploader_Upload_count _ _ _ _ _ _ _ _ h q hq]
  · rw [countP_log q hq _ _ (by decide) (by decide),
      MultiPlatformUploader_Upload_count _ _ _ _ _ _ _ _ h q hq]

theorem publishTikTok_count (m : MultiPlatformUploader) (v : VideoUploader) (w : World)
    (idea path : Str) (h : m.platforms PlatformTikTok = some v) (q : Event → Bool)
    (hq : ∀ e, e.plain = true → q e = false) :
    (publishTikTok m w idea path).trace.countP q =
      w.trace.countP q +
        (if q (.platformUpload PlatformTikTok path (tiktokTitle idea)
          tiktokDescription tiktokTags) = true then 1 else 0) := by
  simp only [publishTikTok, World.Info, World.Error]
  split
  · rw [countP_log q hq _ _ (by decide) (by decide),
      MultiPlatformUploader_Upload_count _ _ _ _ _ _ _ _ h q hq]
  · rw [countP_log q hq _ _ (by decide) (by decide),
      MultiPlatformUploader_Upload_count _ _ _ _ _ _ _ _ h q hq]

theorem publishYouTube_grows (m : MultiPlatformUploader) (w : World) (idea path : Str) :
    Emits (fun _ => True) w (publishYouTube m w idea path) := by
  have h := MultiPlatformUploader_Upload_grows m w PlatformYouTube path (youtubeTitle idea)
    (youtubeDescription idea) youtubeTags
  simp only [publishYouTube]
  split
  · exact h.step trivial
  · exact h.step trivial

theorem publishTikTok_grows (m : MultiPlatformUploader) (w : World) (idea path : Str) :
    Emits (fun _ => True) w (publishTikTok m w idea path) := by
  have h := MultiPlatformUploader_Upload_grows m w PlatformTikTok path (tiktokTitle idea)
    tiktokDescription tiktokTags
  simp only [publishTikTok]
  split
  · exact h.step trivial
  · exact h.step trivial

theorem publish_grows (cfg : Config) (w : World) (idea path : Str) :
    Emits (fun _ => True) w (publish cfg w idea path) :=
  ((((Emits.refl _ w).step trivial).trans (publishYouTube_grows _ _ idea path)).trans
    (publishTikTok_grows _ _ idea path)).step trivial

/-- The upload step calls the YouTube uploader once and the TikTok uploader once, whatever
each of them answers. -/
theorem publish_count (cfg : Config) (w : World) (idea path : Str) (q : Event → Bool)
    (hq : ∀ e, e.plain = true → q e = false) (hm : q publishMarker = false) :
    (publish cfg w idea path).trace.countP q =
      w.trace.countP q +
        (if q (.platformUpload PlatformYouTube path (youtubeTitle idea)
          (youtubeDescription idea) youtubeTags) = true then 1 else 0) +
        (if q (.platformUpload PlatformTikTok path (tiktokTitle idea)
          tiktokDescription tiktokTags) = true then 1 else 0) := by
  have hy : (NewMultiPlatformUploader cfg.YouTubeAPIKey cfg.TikTokAPIKey).platforms
      PlatformYouTube = some (.youtube ⟨cfg.YouTubeAPIKey⟩) := by
    have hne : PlatformYouTube ≠ PlatformTikTok := by decide
    rw [NewMultiPlatformUploader_platforms, if_neg hne, if_pos rfl]
  have ht : (NewMultiPlatformUploader cfg.YouTubeAPIKey cfg.TikTokAPIKey).platforms
      PlatformTikTok = some (.tiktok ⟨cfg.TikTokAPIKey⟩) := by
    rw [NewMultiPlatformUploader_platforms, if_pos rfl]
  have hmark : (w.emit (.log .info "\n--- Загрузка финального видео на платформы ---".toList
      [])).trace.countP q = w.trace.countP q := by
    have : Event.log .info "\n--- Загрузка финального видео на платформы ---".toList [] =
        publishMarker := rfl
    rw [this, countP_emit, hm]
    simp
  simp only [publish, World.Info]
  rw [countP_log q hq _ _ (by decide) (by decide), publishTikTok_count _ _ _ _ _ ht q hq,
    publishYouTube_count _ _ _ _ _ hy q hq, hmark]

/-! ## Which fatal line ends a run -/

theorem PipelineRun.abort_class {env : Env} {cfg : Config} {w : World} {idea : Str}
    {scenes : List Str} {r : Outcome × World} (h : PipelineRun env cfg w idea scenes r) :
    (promptSurvivors env idea scenes = [] → AbortsWith promptsFormat (runDeferred env r)) ∧
    (promptSurvivors env idea scenes ≠ [] →
      segmentOutcome env cfg (promptSurvivors env idea scenes) = some [] →
      AbortsWith segmentsFormat (runDeferred env r)) ∧
    (∀ f, AbortsWith f (runDeferred env r) →
      (f = promptsFormat ∧ promptSurvivors env idea scenes = []) ∨
      (f = segmentsFormat ∧ promptSurvivors env idea scenes ≠ [] ∧
        segmentOutcome env cfg (promptSurvivors env idea scenes) = some []) ∨
      f ∈ lateFatalFormats) := by
  cases h with
  | noPrompts w' hs _ _ =>
    rw [runDeferred_exited]
    refine ⟨fun _ => ⟨w', [], rfl⟩, fun hne => absurd hs hne, fun f hf => ?_⟩
    exact Or.inl ⟨(abortsWith_Fatal_iff _ _ _ _).1 hf, hs⟩
  | panicked w' hs ho _ _ =>
    rw [runDeferred_panicked]
    refine ⟨fun h0 => absurd h0 hs, fun _ h1 => ?_, fun f hf => ?_⟩
    · rw [ho] at h1; cases h1
    · exact absurd hf (not_abortsWith_of_ne (by simp))
  | noSegments w' hs ho _ _ _ =>
    rw [runDeferred_exited]
    refine ⟨fun h0 => absurd h0 hs, fun _ _ => ⟨w', [], rfl⟩, fun f hf => ?_⟩
    exact Or.inr (Or.inl ⟨(abortsWith_Fatal_iff _ _ _ _).1 hf, hs, ho⟩)
  | lateFatal w' paths format args hs ho hpaths hfmt _ _ _ =>
    rw [runDeferred_exited]
    refine ⟨fun h0 => absurd h0 hs, fun _ h1 => ?_, fun f hf => ?_⟩
    · rw [ho] at h1
      exact absurd (Option.some.inj h1) hpaths
    · rw [(abortsWith_Fatal_iff _ _ _ _).1 hf]
      exact Or.inr (Or.inr hfmt)
  | published w' paths path hs ho hpaths _ _ _ =>
    rw [runDeferred_returned]
    refine ⟨fun h0 => absurd h0 hs, fun _ h1 => ?_, fun f hf => ?_⟩
    · rw [ho] at h1
      exact absurd (Option.some.inj h1) hpaths
    · exact absurd hf (not_abortsWith_of_ne (by simp))

theorem mem_Fatal_of_mem {w : World} {e : Event} (format : Str) (args : List Arg)
    (h : e ∈ w.trace) : e ∈ (w.Fatal format args).trace := by
  rw [Fatal_trace]; exact List.mem_append_left _ h

theorem PipelineRun.requests {env : Env} {cfg : Config} {w : World} {idea : Str}
    {scenes : List Str} {r : Outcome × World} (h : PipelineRun env cfg w idea scenes r) :
    ∀ s ∈ scenes, Event.promptRequest idea s ∈ (runDeferred env r).2.trace := by
  intro s hs
  cases h with
  | noPrompts w' _ _ hreq => exact mem_Fatal_of_mem _ _ (hreq s hs)
  | panicked w' _ _ _ hreq => exact (deferredCleanup_emits env w').subset (hreq s hs)
  | noSegments w' _ _ _ hreq _ => exact mem_Fatal_of_mem _ _ (hreq s hs)
  | lateFatal w' _ _ _ _ _ _ _ _ hreq _ => exact mem_Fatal_of_mem _ _ (hreq s hs)
  | published w' _ path _ _ _ _ hreq _ =>
    exact (deferredCleanup_emits env _).subset ((publish_grows cfg w' idea path).subset (hreq s hs))

theorem PipelineRun.videoRequests {env : Env} {cfg : Config} {w : World} {idea : Str}
    {scenes : List Str} {r : Outcome × World} (h : PipelineRun env cfg w idea scenes r)
    (hs : promptSurvivors env idea scenes ≠ [])
    (hnp : segmentOutcome env cfg (promptSurvivors env idea scenes) ≠ none) :
    ∀ q ∈ (promptSurvivors env idea scenes).enum,
      Event.videoRequest q.2 (q.1 + 1) ∈ (runDeferred env r).2.trace := by
  intro q hq
  cases h with
  | noPrompts w' h0 _ _ => exact absurd h0 hs
  | panicked w' _ ho _ _ => exact absurd ho hnp
  | noSegments w' _ _ _ _ hvid => exact mem_Fatal_of_mem _ _ (hvid q hq)
  | lateFatal w' _ _ _ _ _ _ _ _ _ hvid => exact mem_Fatal_of_mem _ _ (hvid q hq)
  | published w' _ path _ _ _ _ _ hvid =>
    exact (deferredCleanup_emits env _).subset ((publish_grows cfg w' idea path).subset (hvid q hq))

theorem formats_distinct :
    promptsFormat ≠ segmentsFormat ∧ promptsFormat ∉ lateFatalFormats ∧
    segmentsFormat ∉ lateFatalFormats ∧ parseFormat ≠ promptsFormat ∧
    parseFormat ≠ segmentsFormat ∧ parseFormat ∉ lateFatalFormats ∧
    parseFormat ∉ earlyFatalFormats := by decide

/-! ## C3: the prompt stage -/

/-- C3. In a run that reaches step 2 (configuration loaded, content generated and parsed to an
idea and scenes, `temp_videos` created): the list of prompts built by the loop of `main` is, from
any world, the list of the answers of the successful requests in the order of their scenes;
every scene gets its request, failed ones being skipped; and the run is ended by the fatal line
of the prompt stage if and only if that list is empty. -/
theorem prompt_stage_survivors (env : Env) (cfg : Config) (content : Str)
    (hcfg : env.loadConfig = .ok cfg) (hgen : env.ideaAndScenes topic = .ok content)
    (hidea : (parseIdeaAndScenes content).overallIdea ≠ [])
    (hscenes : (parseIdeaAndScenes content).scenes ≠ [])
    (hmk : env.mkdirAll .mainTemp "temp_videos".toList = none) :
    (∀ w, (promptLoop env (parseIdeaAndScenes content).overallIdea 0
        (parseIdeaAndScenes content).scenes [] w).1 =
      (parseIdeaAndScenes content).scenes.enum.filterMap
        fun p => (env.scenePrompt p.1 (parseIdeaAndScenes content).overallIdea p.2).toOption) ∧
    (∀ s ∈ (parseIdeaAndScenes content).scenes,
      Event.promptRequest (parseIdeaAndScenes content).overallIdea s ∈
        (main env World.initial).2.trace) ∧
    (AbortsWith promptsFormat (main env World.initial) ↔
      (parseIdeaAndScenes content).scenes.enum.filterMap
        (fun p => (env.scenePrompt p.1 (parseIdeaAndScenes content).overallIdea p.2).toOption)
        = []) := by
  obtain ⟨w', r, hmain, _, hrun⟩ := main_staged env cfg content hcfg hgen hidea hscenes hmk
  refine ⟨fun w => promptLoop_fst_eq_survivors env _ _ w, ?_, ?_⟩
  · rw [hmain]; exact hrun.requests
  · rw [hmain]
    constructor
    · intro h
      rcases hrun.abort_class.2.2 _ h with ⟨_, h0⟩ | ⟨h1, _⟩ | h2
      · exact h0
      · exact absurd h1 formats_distinct.1
      · exact absurd h2 formats_distinct.2.1
    · exact hrun.abort_class.1

/-- C3 on the sample world with the first of the two scene requests failing: the surviving list
is the answer for the second scene alone and the prompt stage does not end the run; with every
request failing the run ends at the prompt stage. -/
theorem prompt_stage_survivors_witness :
    (promptLoop firstPromptDownEnv
      "Y".toList 0 ["A".toList, "B".toList] [] World.initial).1 = ["prompt for B".toList] ∧
    ¬ AbortsWith promptsFormat (main firstPromptDownEnv
      World.initial) ∧
    AbortsWith promptsFormat (main promptsDownEnv World.initial) := by
  have h1 := prompt_stage_survivors firstPromptDownEnv
    sampleConfig "Идея: Y\nСцена 1: A\nСцена 2: B".toList rfl rfl (by decide) (by decide) rfl
  have h2 := prompt_stage_survivors promptsDownEnv
    sampleConfig "Идея: Y\nСцена 1: A\nСцена 2: B".toList rfl rfl (by decide) (by decide) rfl
  refine ⟨?_, ?_, ?_⟩
  · have := h1.1 World.initial
    have e : (parseIdeaAndScenes "Идея: Y\nСцена 1: A\nСцена 2: B".toList).overallIdea =
      "Y".toList := by decide
    have e2 : (parseIdeaAndScenes "Идея: Y\nСцена 1: A\nСцена 2: B".toList).scenes =
      ["A".toList, "B".toList] := by decide
    rw [e, e2] at this
    rw [this]
    decide
  · rw [h1.2.2]; decide
  · rw [h2.2.2]; decide

/-! ## C4: the segment stage -/

/-- C4, as stated, fails on the path: with the configured output format `mp4/` the segment of
index 1 is stored at `temp_videos/segment_1.mp4`, which is not
`temp_videos/segment_1.` followed by the format: `filepath.Join` cleans the path. -/
theorem segment_path_not_literal_counterexample :
    (GenerateVideoSegment sampleEnv slashFormatConfig World.initial "a prompt".toList 1).1 =
      .ok "temp_videos/segment_1.mp4".toList ∧
    "temp_videos/segment_1.mp4".toList ≠
      "temp_videos/segment_".toList ++ fmtNat 1 ++ '.' :: slashFormatConfig.Video.OutputFormat := by
  decide

/-- C4, amended. In a run that reaches step 3 (as in C3, with at least one surviving prompt) and
whose configured output format contains no `/`: the prompt at position `k` (from 1) of the
surviving list is sent to the video service with segment index `k`; a successful call with index
`k` returns the path `temp_videos/segment_<k>.<format>`; the list of segments built by the loop
of `main` is, from any world, the list of the paths of the successful calls in the order of the
prompts; and the run is ended by the fatal line of the segment stage if and only if that list is
empty. -/
theorem segment_stage_survivors (env : Env) (cfg : Config) (content : Str)
    (hcfg : env.loadConfig = .ok cfg) (hgen : env.ideaAndScenes topic = .ok content)
    (hidea : (parseIdeaAndScenes content).overallIdea ≠ [])
    (hscenes : (parseIdeaAndScenes content).scenes ≠ [])
    (hmk : env.mkdirAll .mainTemp "temp_videos".toList = none)
    (hfmt : '/' ∉ cfg.Video.OutputFormat)
    (hprompts : promptSurvivors env (parseIdeaAndScenes content).overallIdea
      (parseIdeaAndScenes content).scenes ≠ []) :
    (∀ q ∈ (promptSurvivors env (parseIdeaAndScenes content).overallIdea
        (parseIdeaAndScenes content).scenes).enum,
      Event.videoRequest q.2 (q.1 + 1) ∈ (main env World.initial).2.trace) ∧
    (∀ w prompt k path, (GenerateVideoSegment env cfg w prompt k).1 = .ok path →
      path = "temp_videos/segment_".toList ++ fmtNat k ++ '.' :: cfg.Video.OutputFormat) ∧
    (∀ w, (segmentLoop env cfg 0 (promptSurvivors env (parseIdeaAndScenes content).overallIdea
        (parseIdeaAndScenes content).scenes) [] w).1 =
      some ((promptSurvivors env (parseIdeaAndScenes content).overallIdea
        (parseIdeaAndScenes content).scenes).enum.filterMap
          fun q => (GenerateVideoSegment env cfg World.initial q.2 (q.1 + 1)).1.toOption)) ∧
    (AbortsWith segmentsFormat (main env World.initial) ↔
      (promptSurvivors env (parseIdeaAndScenes content).overallIdea
        (parseIdeaAndScenes content).scenes).enum.filterMap
          (fun q => (GenerateVideoSegment env cfg World.initial q.2 (q.1 + 1)).1.toOption) =
        []) := by
  obtain ⟨w', r, hmain, _, hrun⟩ := main_staged env cfg content hcfg hgen hidea hscenes hmk
  have hnp : ∀ p k, segmentResult env cfg p k ≠ .panic :=
    fun p k => segmentResult_no_panic env cfg p k (segmentPath_has_slash k hfmt)
  have hloop : ∀ w, (segmentLoop env cfg 0 (promptSurvivors env
        (parseIdeaAndScenes content).overallIdea (parseIdeaAndScenes content).scenes) [] w).1 =
      some ((promptSurvivors env (parseIdeaAndScenes content).overallIdea
        (parseIdeaAndScenes content).scenes).enum.filterMap
          fun q => (GenerateVideoSegment env cfg World.initial q.2 (q.1 + 1)).1.toOption) := by
    intro w
    rw [segmentLoop_fst env cfg hnp]
    rfl
  have hout := hloop World.initial
  change segmentOutcome env cfg _ = _ at hout
  refine ⟨?_, ?_, hloop, ?_⟩
  · rw [hmain]
    exact hrun.videoRequests hprompts (by rw [hout]; simp)
  · intro w prompt k path h
    rw [GenerateVideoSegment_fst] at h
    rw [segmentResult_ok h, segmentPath_eq k hfmt]
  · rw [hmain]
    constructor
    · intro h
      rcases hrun.abort_class.2.2 _ h with ⟨h0, _⟩ | ⟨_, _, h1⟩ | h2
      · exact absurd h0.symm formats_distinct.1
      · rw [hout] at h1
        exact Option.some.inj h1
      · exact absurd h2 formats_distinct.2.2.1
    · intro h
      exact hrun.abort_class.2.1 hprompts (by rw [hout, h])

/-- C4, amended, on the sample world with the video service failing on segment 2: segment 1 is
stored at `temp_videos/segment_1.mp4`, the surviving list is that path alone and the segment
stage does not end the run; with every segment failing it does. -/
theorem segment_stage_survivors_witness :
    (GenerateVideoSegment secondSegmentDownEnv sampleConfig World.initial
      "prompt for A".toList 1).1 = .ok "temp_videos/segment_1.mp4".toList ∧
    (segmentLoop secondSegmentDownEnv sampleConfig 0
      ["prompt for A".toList, "prompt for B".toList] [] World.initial).1 =
      some ["temp_videos/segment_1.mp4".toList] ∧
    ¬ AbortsWith segmentsFormat (main secondSegmentDownEnv World.initial) ∧
    AbortsWith segmentsFormat (main segmentsDownEnv World.initial) := by
  have h1 := segment_stage_survivors secondSegmentDownEnv sampleConfig
    "Идея: Y\nСцена 1: A\nСцена 2: B".toList rfl rfl (by decide) (by decide) rfl (by decide)
    (by decide)
  have h2 := segment_stage_survivors segmentsDownEnv sampleConfig
    "Идея: Y\nСцена 1: A\nСцена 2: B".toList rfl rfl (by decide) (by decide) rfl (by decide)
    (by decide)
  refine ⟨by decide, by decide, ?_, ?_⟩
  · rw [h1.2.2.2]; decide
  · rw [h2.2.2.2]; decide

/-! ## C2: the parse stage -/

theorem parseLine_idea_ne_nil (st : ParseState) {raw : Str} (hnl : '\n' ∉ raw)
    (h : st.overallIdea ≠ [] ∨ ∃ y, IsIdeaLine raw y) : (parseLine st raw).overallIdea ≠ [] := by
  rcases parseLine_cases st hnl with ⟨y, hy, he⟩ | ⟨t, ht, he⟩ | he
  · rw [he]; exact hy.1
  · rw [he]
    rcases h with h | ⟨y, hy⟩
    · exact h
    · exfalso
      have e1 := hy.2
      obtain ⟨_, ds, _, _, e2⟩ := ht
      rw [e1] at e2
      have e3 : ideaHead = 'И' :: "дея: ".toList := by decide
      have e4 : sceneHead = 'С' :: "цена ".toList := by decide
      rw [e3, e4] at e2
      simp at e2
  · rw [he]
    rcases h with h | ⟨y, hy⟩
    · exact h
    · rw [parseLine_idea st hy hnl] at he
      have := congrArg ParseState.overallIdea he
      simp only [ParseState.setIdea] at this
      rw [← this]; exact hy.1

theorem foldl_parseLine_idea_ne_nil {lines : List Str} (hnl : ∀ l ∈ lines, '\n' ∉ l)
    (st : ParseState) (h : st.overallIdea ≠ [] ∨ ∃ l ∈ lines, ∃ y, IsIdeaLine l y) :
    (lines.foldl parseLine st).overallIdea ≠ [] := by
  induction lines generalizing st with
  | nil =>
    rcases h with h | ⟨l, hl, _⟩
    · exact h
    · simp at hl
  | cons l ls ih =>
    rw [List.foldl_cons]
    apply ih (fun x hx => hnl x (by simp [hx]))
    rcases h with h | ⟨x, hx, y, hy⟩
    · exact Or.inl (parseLine_idea_ne_nil st (hnl l (by simp)) (Or.inl h))
    · rcases List.mem_cons.1 hx with rfl | hx
      · exact Or.inl (parseLine_idea_ne_nil st (hnl x (by simp)) (Or.inr ⟨y, hy⟩))
      · exact Or.inr ⟨x, hx, y, hy⟩

theorem parseLine_scenes_ne_nil (st : ParseState) {raw : Str} (hnl : '\n' ∉ raw)
    (h : st.scenes ≠ [] ∨ ∃ t, IsSceneLine raw t) : (parseLine st raw).scenes ≠ [] := by
  rcases h with h | ⟨t, ht⟩
  · rcases parseLine_cases st hnl with ⟨y, _, he⟩ | ⟨t, _, he⟩ | he
    · rw [he]; exact h
    · rw [he]; simp [ParseState.addScene]
    · rw [he]; exact h
  · rw [parseLine_scene st ht hnl]; simp [ParseState.addScene]

theorem foldl_parseLine_scenes_ne_nil {lines : List Str} (hnl : ∀ l ∈ lines, '\n' ∉ l)
    (st : ParseState) (h : st.scenes ≠ [] ∨ ∃ l ∈ lines, ∃ t, IsSceneLine l t) :
    (lines.foldl parseLine st).scenes ≠ [] := by
  induction lines generalizing st with
  | nil =>
    rcases h with h | ⟨l, hl, _⟩
    · exact h
    · simp at hl
  | cons l ls ih =>
    rw [List.foldl_cons]
    apply ih (fun x hx => hnl x (by simp [hx]))
    rcases h with h | ⟨x, hx, t, ht⟩
    · exact Or.inl (parseLine_scenes_ne_nil st (hnl l (by simp)) (Or.inl h))
    · rcases List.mem_cons.1 hx with rfl | hx
      · exact Or.inl (parseLine_scenes_ne_nil st (hnl x (by simp)) (Or.inr ⟨t, ht⟩))
      · exact Or.inr ⟨x, hx, t, ht⟩

theorem parse_idea_eq_nil_iff (content : Str) :
    (parseIdeaAndScenes content).overallIdea = [] ↔
      ∀ l ∈ Split '\n' content, ∀ y, ¬ IsIdeaLine l y := by
  constructor
  · intro h l hl y hy
    exact foldl_parseLine_idea_ne_nil (Split_no_newline content) ⟨[], [], []⟩
      (Or.inr ⟨l, hl, y, hy⟩) h
  · intro h
    rw [parse_overallIdea, foldl_parseLine_idea_unchanged (Split_no_newline content) h]

theorem parse_scenes_eq_nil_iff (content : Str) :
    (parseIdeaAndScenes content).scenes = [] ↔
      ∀ l ∈ Split '\n' content, ∀ t, ¬ IsSceneLine l t := by
  constructor
  · intro h l hl t ht
    exact foldl_parseLine_scenes_ne_nil (Split_no_newline content) ⟨[], [], []⟩
      (Or.inr ⟨l, hl, t, ht⟩) h
  · intro h
    rw [parse_scenes, foldl_parseLine_scenes_unchanged (Split_no_newline content) h]

theorem main_parse_fatal (env : Env) (cfg : Config) (content : Str)
    (hcfg : env.loadConfig = .ok cfg) (hgen : env.ideaAndScenes topic = .ok content)
    (hfail : (parseIdeaAndScenes content).overallIdea = [] ∨
      (parseIdeaAndScenes content).scenes = []) :
    ∃ w', Emits (fun e => e.early = true) World.initial w' ∧
      main env World.initial = (.exited 1, w'.Fatal parseFormat []) := by
  have h := main_run env World.initial
  generalize main env World.initial = m at h ⊢
  cases h with
  | earlyFatal w' f a _ hside _ =>
    have := hside cfg content hcfg hgen
    rcases hfail with h | h
    · exact absurd h this.1
    · exact absurd h this.2.1
  | parseFatal cfg' content' w' _ _ _ he => exact ⟨w', he, rfl⟩
  | staged cfg' content' w' r _ hgen' hidea hscenes _ _ _ _ _ =>
    rw [hgen] at hgen'
    cases hgen'
    rcases hfail with h | h
    · exact absurd h hidea
    · exact absurd h hscenes

theorem no_promptRequest_Fatal {w' : World} (format : Str) (args : List Arg)
    (he : Emits (fun e => e.early = true) World.initial w') :
    ∀ e ∈ (w'.Fatal format args).trace, e.isPromptRequest = false := by
  intro e hmem
  rw [Fatal_trace] at hmem
  rcases List.mem_append.1 hmem with h | h
  · have := he.all_initial e h
    cases e <;> simp_all [Event.early, Event.isPromptRequest]
  · simp only [List.mem_cons, List.mem_singleton, List.not_mem_nil, or_false] at h
    rcases h with rfl | rfl <;> rfl

/-- C2, as stated, fails in its last part: on the sample world in which `main` cannot create the
directory `temp_videos`, the parsed idea and the parsed scene list are both non-empty, and yet
the run does not go on to prompt generation: it ends with exit status 1 through the fatal line
about `temp_videos`, and no prompt request was made. -/
theorem temp_dir_failure_counterexample :
    tempDirDownEnv.loadConfig = .ok sampleConfig ∧
    tempDirDownEnv.ideaAndScenes topic = .ok "Идея: Y\nСцена 1: A\nСцена 2: B".toList ∧
    (parseIdeaAndScenes "Идея: Y\nСцена 1: A\nСцена 2: B".toList).overallIdea = "Y".toList ∧
    (parseIdeaAndScenes "Идея: Y\nСцена 1: A\nСцена 2: B".toList).scenes =
      ["A".toList, "B".toList] ∧
    (main tempDirDownEnv World.initial).1 = .exited 1 ∧
    Event.log .fatal "Не удалось создать директорию temp_videos: %v".toList
      [.str "permission denied".toList] ∈ (main tempDirDownEnv World.initial).2.trace ∧
    (∀ e ∈ (main tempDirDownEnv World.initial).2.trace, e.isPromptRequest = false) :=
  ⟨rfl, rfl, by decide⟩

/-- C2, amended. With the configuration loaded and `content` the answer of the text service: the
parsed idea is empty exactly when the text has no idea line, the parsed scene list is empty
exactly when it has no scene line (whatever the idea); the run is ended by the fatal line of the
parse stage exactly when the idea or the scene list is empty, and then the exit status is 1 and
no prompt request was made; when both are non-empty and the directory `temp_videos` could be
created, the run goes on to request a prompt for every scene; when both are non-empty and the
directory could not be created, the run ends with exit status 1 and no prompt request was
made. -/
theorem parse_failure_is_fatal (env : Env) (cfg : Config) (content : Str)
    (hcfg : env.loadConfig = .ok cfg) (hgen : env.ideaAndScenes topic = .ok content) :
    ((∀ l ∈ Split '\n' content, ∀ y, ¬ IsIdeaLine l y) ↔
      (parseIdeaAndScenes content).overallIdea = []) ∧
    ((∀ l ∈ Split '\n' content, ∀ t, ¬ IsSceneLine l t) ↔
      (parseIdeaAndScenes content).scenes = []) ∧
    (AbortsWith parseFormat (main env World.initial) ↔
      ((parseIdeaAndScenes content).overallIdea = [] ∨
        (parseIdeaAndScenes content).scenes = [])) ∧
    (((parseIdeaAndScenes content).overallIdea = [] ∨
        (parseIdeaAndScenes content).scenes = []) →
      exitStatus (main env World.initial).1 = 1 ∧
      ∀ e ∈ (main env World.initial).2.trace, e.isPromptRequest = false) ∧
    ((parseIdeaAndScenes content).overallIdea ≠ [] →
      (parseIdeaAndScenes content).scenes ≠ [] →
      env.mkdirAll .mainTemp "temp_videos".toList = none →
      ∀ s ∈ (parseIdeaAndScenes content).scenes,
        Event.promptRequest (parseIdeaAndScenes content).overallIdea s ∈
          (main env World.initial).2.trace) ∧
    ((parseIdeaAndScenes content).overallIdea ≠ [] →
      (parseIdeaAndScenes content).scenes ≠ [] →
      env.mkdirAll .mainTemp "temp_videos".toList ≠ none →
      exitStatus (main env World.initial).1 = 1 ∧
      ∀ e ∈ (main env World.initial).2.trace, e.isPromptRequest = false) := by
  refine ⟨(parse_idea_eq_nil_iff content).symm, (parse_scenes_eq_nil_iff content).symm,
    ⟨?_, ?_⟩, ?_, ?_, ?_⟩
  · intro habort
    have h := main_run env World.initial
    generalize main env World.initial = m at h habort
    cases h with
    | earlyFatal w' f a hf _ _ =>
      rw [abortsWith_Fatal_iff] at habort
      rw [← habort] at hf
      exact absurd hf formats_distinct.2.2.2.2.2.2
    | parseFatal cfg' content' w' _ hgen' hfail _ =>
      rw [hgen] at hgen'
      cases hgen'
      exact hfail
    | staged cfg' content' w' r _ _ _ _ _ _ _ _ hrun =>
      exfalso
      rcases hrun.abort_class.2.2 _ habort with ⟨h0, _⟩ | ⟨h1, _⟩ | h2
      · exact formats_distinct.2.2.2.1 h0
      · exact formats_distinct.2.2.2.2.1 h1
      · exact formats_distinct.2.2.2.2.2.1 h2
  · intro hfail
    obtain ⟨w', _, hm⟩ := main_parse_fatal env cfg content hcfg hgen hfail
    exact ⟨w', [], hm⟩
  · intro hfail
    obtain ⟨w', he, hm⟩ := main_parse_fatal env cfg content hcfg hgen hfail
    rw [hm]
    refine ⟨rfl, ?_⟩
    intro e hmem
    rw [Fatal_trace] at hmem
    rcases List.mem_append.1 hmem with h | h
    · have := he.all_initial e h
      cases e <;> simp_all [Event.early, Event.isPromptRequest]
    · simp only [List.mem_cons, List.mem_singleton, List.not_mem_nil, or_false] at h
      rcases h with rfl | rfl <;> rfl
  · intro hidea hscenes hmk
    obtain ⟨w', r, hmain, _, hrun⟩ := main_staged env cfg content hcfg hgen hidea hscenes hmk
    rw [hmain]
    exact hrun.requests
  · intro hidea hscenes hmk
    have h := main_run env World.initial
    generalize main env World.initial = m at h ⊢
    cases h with
    | earlyFatal w' f a _ _ he => exact ⟨rfl, no_promptRequest_Fatal f a he⟩
    | parseFatal cfg' content' w' _ hgen' hfail _ =>
      rw [hgen] at hgen'
      cases hgen'
      rcases hfail with h | h
      · exact absurd h hidea
      · exact absurd h hscenes
    | staged cfg' content' w' r _ _ _ _ hmk' _ _ _ _ => exact absurd hmk' hmk

/-- C2, amended, on the sample world: a text without idea line and a text without scene line end
the run at the parse stage, the end-to-end example does not and its prompts are requested; when
`temp_videos` cannot be created the run ends with status 1. -/
theorem parse_failure_is_fatal_witness :
    AbortsWith parseFormat
      (main { sampleEnv with ideaAndScenes := fun _ => .ok "Сцена 1: A".toList }
        World.initial) ∧
    AbortsWith parseFormat
      (main { sampleEnv with ideaAndScenes := fun _ => .ok "Идея: Y\nничего".toList }
        World.initial) ∧
    ¬ AbortsWith parseFormat (main sampleEnv World.initial) ∧
    Event.promptRequest "Y".toList "B".toList ∈ (main sampleEnv World.initial).2.trace ∧
    exitStatus (main tempDirDownEnv World.initial).1 = 1 := by
  have h1 := parse_failure_is_fatal
    { sampleEnv with ideaAndScenes := fun _ => .ok "Сцена 1: A".toList } sampleConfig
    "Сцена 1: A".toList rfl rfl
  have h2 := parse_failure_is_fatal
    { sampleEnv with ideaAndScenes := fun _ => .ok "Идея: Y\nничего".toList } sampleConfig
    "Идея: Y\nничего".toList rfl rfl
  have h3 := parse_failure_is_fatal sampleEnv sampleConfig
    "Идея: Y\nСцена 1: A\nСцена 2: B".toList rfl rfl
  have h4 := parse_failure_is_fatal tempDirDownEnv sampleConfig
    "Идея: Y\nСцена 1: A\nСцена 2: B".toList rfl rfl
  refine ⟨h1.2.2.1.2 (Or.inl (by decide)), h2.2.2.1.2 (Or.inr (by decide)), ?_, ?_, ?_⟩
  · rw [h3.2.2.1]; decide
  · exact h3.2.2.2.2.1 (by decide) (by decide) rfl "B".toList (by decide)
  · exact (h4.2.2.2.2.2 (by decide) (by decide) (by decide)).1

/-! ## C5: the deferred cleanup -/

theorem removeAll_mem_deferredCleanup (env : Env) (w : World) :
    Event.removeAll "temp_videos".toList ∈ (deferredCleanup env w).trace := by
  simp only [deferredCleanup, World.Info, World.Warn]
  split <;> simp [World.emit, World.delTree]

theorem removeAll_not_mem_Fatal {w : World} (format : Str) (args : List Arg)
    (h : ∀ e ∈ w.trace, e.plain = true) :
    Event.removeAll "temp_videos".toList ∉ (w.Fatal format args).trace := by
  rw [Fatal_trace]
  intro hmem
  rcases List.mem_append.1 hmem with h' | h'
  · have := h _ h'
    simp [Event.plain] at this
  · simp at h'

/-- The deferred removal of `temp_videos` runs exactly in the runs that do not end through
`os.Exit`, that is through `Logger.Fatal`. -/
theorem deferredCleanup_runs_iff (env : Env) :
    Event.removeAll "temp_videos".toList ∈ (main env World.initial).2.trace ↔
      ((main env World.initial).1 = .returned ∨ (main env World.initial).1 = .panicked) := by
  have exited_case : ∀ (w : World) (code : Nat),
      Event.removeAll "temp_videos".toList ∉ w.trace →
      (Event.removeAll "temp_videos".toList ∈ ((Outcome.exited code, w) : Outcome × World).2.trace ↔
        (((Outcome.exited code, w) : Outcome × World).1 = .returned ∨
          ((Outcome.exited code, w) : Outcome × World).1 = .panicked)) := by
    intro w code hn
    refine ⟨fun h => absurd h hn, ?_⟩
    rintro (h | h) <;> exact absurd h (by simp)
  have h := main_run env World.initial
  generalize main env World.initial = m at h
  cases h with
  | earlyFatal w' f a _ _ he =>
    exact exited_case _ _ (removeAll_not_mem_Fatal f a he.toPlain.all_initial)
  | parseFatal cfg content w' _ _ _ he =>
    exact exited_case _ _ (removeAll_not_mem_Fatal parseFormat [] he.toPlain.all_initial)
  | staged cfg content w' r _ _ _ _ _ he _ _ hrun =>
    have hw' := he.toPlain.all_initial
    cases hrun with
    | noPrompts w'' _ hp _ =>
      exact exited_case _ _ (removeAll_not_mem_Fatal promptsFormat [] (hp.all hw'))
    | panicked w'' _ _ _ _ =>
      exact ⟨fun _ => Or.inr rfl, fun _ => removeAll_mem_deferredCleanup env w''⟩
    | noSegments w'' _ _ hp _ _ =>
      exact exited_case _ _ (removeAll_not_mem_Fatal segmentsFormat [] (hp.all hw'))
    | lateFatal w'' _ f a _ _ _ _ hp _ _ =>
      exact exited_case _ _ (removeAll_not_mem_Fatal f a (hp.all hw'))
    | published w'' _ path _ _ _ _ _ _ =>
      exact ⟨fun _ => Or.inl rfl, fun _ => removeAll_mem_deferredCleanup env _⟩

set_option maxRecDepth 100000 in
/-- C5, at the failing input: when every prompt request fails, `temp_videos` has been created,
the process exits with status 1 through `Logger.Fatal`, `os.RemoveAll("temp_videos")` is never
executed and the directory is still there; in the run where everything succeeds the removal
does run. -/
theorem cleanup_skipped_on_fatal :
    (main promptsDownEnv World.initial).1 = .exited 1 ∧
    Event.mkdirAll "temp_videos".toList ∈ (main promptsDownEnv World.initial).2.trace ∧
    Event.removeAll "temp_videos".toList ∉ (main promptsDownEnv World.initial).2.trace ∧
    "temp_videos".toList ∈ (main promptsDownEnv World.initial).2.fs ∧
    (main sampleEnv World.initial).1 = .returned ∧
    Event.removeAll "temp_videos".toList ∈ (main sampleEnv World.initial).2.trace ∧
    "temp_videos".toList ∉ (main sampleEnv World.initial).2.fs := by
  decide

/-! ## C9: the upload step is best effort -/

theorem isUploadTo_platformUpload (p p' : PlatformType) (a b c d : Str) :
    Event.isUploadTo p (.platformUpload p' a b c d) = (p' == p) := rfl

theorem upload_count_youtube :
    ((0 + if (PlatformYouTube == PlatformYouTube) = true then 1 else 0) +
      if (PlatformTikTok == PlatformYouTube) = true then 1 else 0) = 1 := by decide

theorem upload_count_tiktok :
    ((0 + if (PlatformYouTube == PlatformTikTok) = true then 1 else 0) +
      if (PlatformTikTok == PlatformTikTok) = true then 1 else 0) = 1 := by decide

theorem isUploadTo_of_plain (platform : PlatformType) (e : Event) (h : e.plain = true) :
    e.isUploadTo platform = false := by
  cases e <;> simp_all [Event.plain, Event.isUploadTo]

theorem isUploadTo_of_cleanup (platform : PlatformType) (e : Event) (h : e.cleanup) :
    e.isUploadTo platform = false := by
  rcases h with h | rfl
  · exact isUploadTo_of_plain platform e h
  · rfl

theorem publishMarker_not_mem_Fatal {w : World} (format : Str) (args : List Arg)
    (h : ∀ e ∈ w.trace, e.plain = true) : publishMarker ∉ (w.Fatal format args).trace := by
  rw [Fatal_trace]
  intro hmem
  rcases List.mem_append.1 hmem with h' | h'
  · have := h _ h'
    simp [Event.plain, publishMarker] at this
  · simp [publishMarker] at h'

theorem publishMarker_not_mem_cleanup (env : Env) {w : World}
    (h : ∀ e ∈ w.trace, e.plain = true) : publishMarker ∉ (deferredCleanup env w).trace := by
  intro hmem
  rcases (deferredCleanup_emits env w).mem hmem with h' | h'
  · have := h _ h'
    simp [Event.plain, publishMarker] at this
  · rcases h' with h' | h'
    · simp [Event.plain, publishMarker] at h'
    · simp [publishMarker] at h'

/-- C9. In every run that reaches the upload step (its opening log line is in the trace),
whatever the two upload keys are, hence whether each upload succeeds or fails: the YouTube
uploader is called exactly once and the TikTok uploader is called exactly once, `main` returns,
and the exit status is 0. -/
theorem publish_best_effort (env : Env)
    (hreach : publishMarker ∈ (main env World.initial).2.trace) :
    (main env World.initial).2.trace.countP (Event.isUploadTo PlatformYouTube) = 1 ∧
    (main env World.initial).2.trace.countP (Event.isUploadTo PlatformTikTok) = 1 ∧
    (main env World.initial).1 = .returned ∧
    exitStatus (main env World.initial).1 = 0 := by
  have h := main_run env World.initial
  generalize main env World.initial = m at h hreach
  cases h with
  | earlyFatal w' f a _ _ he =>
    exact absurd hreach (publishMarker_not_mem_Fatal f a he.toPlain.all_initial)
  | parseFatal cfg content w' _ _ _ he =>
    exact absurd hreach (publishMarker_not_mem_Fatal _ _ he.toPlain.all_initial)
  | staged cfg content w' r _ _ _ _ _ he _ _ hrun =>
    have hw' := he.toPlain.all_initial
    cases hrun with
    | noPrompts w'' _ hp _ =>
      exact absurd hreach (publishMarker_not_mem_Fatal _ _ (hp.all hw'))
    | panicked w'' _ _ hp _ =>
      exact absurd hreach (publishMarker_not_mem_cleanup env (hp.all hw'))
    | noSegments w'' _ _ hp _ _ =>
      exact absurd hreach (publishMarker_not_mem_Fatal _ _ (hp.all hw'))
    | lateFatal w'' _ f a _ _ _ _ hp _ _ =>
      exact absurd hreach (publishMarker_not_mem_Fatal _ _ (hp.all hw'))
    | published w'' _ path _ _ _ hp _ _ =>
      have hzero : ∀ platform, w''.trace.countP (Event.isUploadTo platform) = 0 := by
        intro platform
        rw [List.countP_eq_zero]
        intro e he'
        simp [isUploadTo_of_plain platform e (hp.all hw' e he')]
      rw [runDeferred_returned]
      refine ⟨?_, ?_, rfl, rfl⟩
      · rw [(deferredCleanup_emits env _).countP_eq _ (isUploadTo_of_cleanup PlatformYouTube),
          publish_count cfg w'' _ path _ (isUploadTo_of_plain PlatformYouTube) rfl, hzero]
        simp only [isUploadTo_platformUpload]
        exact upload_count_youtube
      · rw [(deferredCleanup_emits env _).countP_eq _ (isUploadTo_of_cleanup PlatformTikTok),
          publish_count cfg w'' _ path _ (isUploadTo_of_plain PlatformTikTok) rfl, hzero]
        simp only [isUploadTo_platformUpload]
        exact upload_count_tiktok

set_option maxRecDepth 100000 in
/-- C9 on the sample world without any upload key: both uploads fail, each was attempted once,
and the exit status is 0. -/
theorem publish_best_effort_witness :
    Event.log .error "Ошибка при загрузке видео на YouTube: %v".toList
      [.str "YouTube API Key не предоставлен".toList] ∈
      (main noUploadKeyEnv World.initial).2.trace ∧
    Event.log .error "Ошибка при загрузке видео на TikTok: %v".toList
      [.str "TikTok API Key не предоставлен".toList] ∈
      (main noUploadKeyEnv World.initial).2.trace ∧
    (main noUploadKeyEnv World.initial).2.trace.countP (Event.isUploadTo PlatformYouTube) = 1 ∧
    (main noUploadKeyEnv World.initial).2.trace.countP (Event.isUploadTo PlatformTikTok) = 1 ∧
    (main noUploadKeyEnv World.initial).1 = .returned ∧
    exitStatus (main noUploadKeyEnv World.initial).1 = 0 :=
  ⟨by decide, by decide, publish_best_effort noUploadKeyEnv (by decide)⟩

/-! ## C11: the last idea line wins -/

/-- C11, as stated, fails: in the text `Идея: A`, `Идея:B` two lines begin with the label
`Идея:`, and the idea returned is `A`, set by the first of them; the last one, whose remainder is
`B`, sets nothing because `ideaRegex` wants a space after the colon. -/
theorem last_label_line_counterexample :
    Split '\n' "Идея: A\nИдея:B".toList = ["Идея: A".toList, "Идея:B".toList] ∧
    startsWith (TrimSpace "Идея: A".toList) ideaLabel = true ∧
    startsWith (TrimSpace "Идея:B".toList) ideaLabel = true ∧
    (parseIdeaAndScenes "Идея: A\nИдея:B".toList).overallIdea = "A".toList ∧
    (parseIdeaAndScenes "Идея: A\nИдея:B".toList).overallIdea ≠ "B".toList := by decide

/-- C11, amended. For every raw text with any number of idea lines (lines that after trimming
read `Идея: ` followed by some text): the idea returned is the text of the last idea line,
whatever the idea lines before it set; a line that begins with the label `Идея:` without being
an idea line sets nothing and does not count. -/
theorem last_idea_line_wins (content : Str) (before after : List Str) (raw y : Str)
    (hsplit : Split '\n' content = before ++ raw :: after)
    (hraw : IsIdeaLine raw y)
    (hafter : ∀ l ∈ after, ∀ y', ¬ IsIdeaLine l y') :
    (parseIdeaAndScenes content).overallIdea = y := by
  have hnl := Split_no_newline content
  rw [hsplit] at hnl
  have hna : ∀ l ∈ after, '\n' ∉ l := fun l hl => hnl l (by simp [hl])
  have hnr : '\n' ∉ raw := hnl raw (by simp)
  rw [parse_overallIdea, hsplit, List.foldl_append, List.foldl_cons,
    foldl_parseLine_idea_unchanged hna hafter, parseLine_idea _ hraw hnr]
  rfl

/-- C11, amended, on the text `Идея: A`, `Сцена 1: S`, `Идея: B`, `Идея:C`: the idea is `B`. -/
theorem last_idea_line_wins_witness :
    (parseIdeaAndScenes "Идея: A\nСцена 1: S\nИдея: B\nИдея:C".toList).overallIdea =
      "B".toList := by
  refine last_idea_line_wins "Идея: A\nСцена 1: S\nИдея: B\nИдея:C".toList
    ["Идея: A".toList, "Сцена 1: S".toList] ["Идея:C".toList] "Идея: B".toList "B".toList
    (by decide) ⟨by decide, by decide⟩ ?_
  intro l hl y' hy'
  rw [List.mem_singleton.1 hl] at hy'
  have h := hy'.2
  have e : TrimSpace "Идея:C".toList = "Идея:".toList ++ ['C'] := by decide
  have e2 : ideaHead = "Идея:".toList ++ [' '] := by decide
  rw [e, e2, List.append_assoc] at h
  have := List.append_cancel_left h
  simp at this

/-! ## C12 and C14: scene lines without text -/

theorem sceneRegexFind_group (line : Str) :
    sceneRegexFind line = [] ∨
      ∃ whole g, g ≠ [] ∧ sceneRegexFind line = [whole, g] := by
  unfold sceneRegexFind
  split
  · exact Or.inl rfl
  · simp only []
    split
    · exact Or.inl rfl
    · split
      · exact Or.inl rfl
      · split
        · exact Or.inl rfl
        · rename_i hg
          exact Or.inr ⟨_, _, hg, rfl⟩

theorem sceneRegexFind_empty_text {ds : Str} (hd : ∀ c ∈ ds, isDigit c = true) :
    sceneRegexFind (sceneHead ++ ds ++ [':']) = [] := by
  have e : sceneHead ++ ds ++ [':'] = sceneHead ++ (ds ++ [':']) := by simp
  have ht : (ds ++ [':']).takeWhile isDigit = ds := by
    rw [List.takeWhile_append_of_pos hd]
    simp [List.takeWhile, isDigit]
  have hdrop : (ds ++ [':']).dropWhile isDigit = [':'] := by
    rw [List.dropWhile_append_of_pos hd]
    simp [List.dropWhile, isDigit]
  have hm : matchLit sceneSep [':'] = none := by decide
  unfold sceneRegexFind
  rw [e, matchLit_append]
  simp only [ht, hdrop, hm]
  split <;> rfl

theorem parseLine_empty_scene (st : ParseState) {raw : Str} (h : IsEmptySceneLine raw) :
    parseLine st raw = st := by
  obtain ⟨ds, hd, htrim⟩ := h
  have hne : sceneHead ++ ds ++ [':'] ≠ [] := by simp
  have hsw : startsWith (sceneHead ++ ds ++ [':']) ideaLabel = false := by
    rw [List.append_assoc]; exact not_startsWith_sceneHead _
  unfold parseLine
  simp only [htrim]
  rw [if_neg hne, hsw, sceneRegexFind_empty_text hd]
  simp

theorem parseLine_scenes_nonempty (st : ParseState) {raw : Str} (hnl : '\n' ∉ raw)
    (h : ∀ s ∈ st.scenes, s ≠ []) : ∀ s ∈ (parseLine st raw).scenes, s ≠ [] := by
  rcases parseLine_cases st hnl with ⟨y, _, he⟩ | ⟨t, ht, he⟩ | he
  · rw [he]; exact h
  · rw [he]
    intro s hs
    simp only [ParseState.addScene, List.mem_append, List.mem_singleton] at hs
    rcases hs with hs | rfl
    · exact h s hs
    · exact ht.1
  · rw [he]; exact h

theorem foldl_parseLine_scenes_nonempty {lines : List Str} (hnl : ∀ l ∈ lines, '\n' ∉ l)
    (st : ParseState) (h : ∀ s ∈ st.scenes, s ≠ []) :
    ∀ s ∈ (lines.foldl parseLine st).scenes, s ≠ [] := by
  induction lines generalizing st with
  | nil => exact h
  | cons l ls ih =>
    exact ih (fun x hx => hnl x (by simp [hx])) _
      (parseLine_scenes_nonempty st (hnl l (by simp)) h)

/-- C12. Every element of the scene list returned by `parseIdeaAndScenes` is a non-empty
string; and a scene line without text (`Сцена <digits>:`, followed by nothing or by white space
only) added anywhere between the lines of a text changes neither the idea nor the scene list
returned. -/
theorem empty_scene_line_dropped (content content' : Str) (before after : List Str)
    (raw : Str) (hraw : IsEmptySceneLine raw)
    (h1 : Split '\n' content = before ++ after)
    (h2 : Split '\n' content' = before ++ raw :: after) :
    (∀ s ∈ (parseIdeaAndScenes content).scenes, s ≠ []) ∧
    (∀ s ∈ (parseIdeaAndScenes content').scenes, s ≠ []) ∧
    (parseIdeaAndScenes content').overallIdea = (parseIdeaAndScenes content).overallIdea ∧
    (parseIdeaAndScenes content').scenes = (parseIdeaAndScenes content).scenes := by
  have hfold : (Split '\n' content').foldl parseLine ⟨[], [], []⟩ =
      (Split '\n' content).foldl parseLine ⟨[], [], []⟩ := by
    rw [h1, h2, List.foldl_append, List.foldl_append, List.foldl_cons,
      parseLine_empty_scene _ hraw]
  refine ⟨?_, ?_, ?_, ?_⟩
  · rw [parse_scenes]
    exact foldl_parseLine_scenes_nonempty (Split_no_newline content) _ (by simp)
  · rw [parse_scenes]
    exact foldl_parseLine_scenes_nonempty (Split_no_newline content') _ (by simp)
  · rw [parse_overallIdea, parse_overallIdea, hfold]
  · rw [parse_scenes, parse_scenes, hfold]

/-- C12 on the text `Идея: Y`, `Сцена 1: A`, `Сцена 2: B` with the line `Сцена 3:` followed by
two spaces added before the last line: idea `Y` and scenes `A`, `B` as without it. -/
theorem empty_scene_line_dropped_witness :
    (parseIdeaAndScenes "Идея: Y\nСцена 1: A\nСцена 3:  \nСцена 2: B".toList).overallIdea =
      "Y".toList ∧
    (parseIdeaAndScenes "Идея: Y\nСцена 1: A\nСцена 3:  \nСцена 2: B".toList).scenes =
      ["A".toList, "B".toList] := by
  have h := empty_scene_line_dropped "Идея: Y\nСцена 1: A\nСцена 2: B".toList
    "Идея: Y\nСцена 1: A\nСцена 3:  \nСцена 2: B".toList
    ["Идея: Y".toList, "Сцена 1: A".toList] ["Сцена 2: B".toList] "Сцена 3:  ".toList
    ⟨"3".toList, by decide, by decide⟩ (by decide) (by decide)
  exact ⟨h.2.2.1.trans (by decide), h.2.2.2.trans (by decide)⟩

/-! ## C14: the warning about an empty scene description -/

theorem parseLine_no_empty_scene_warning (st : ParseState) {raw : Str} (hnl : '\n' ∉ raw)
    (h : ∀ args, Event.log .warn emptySceneFormat args ∉ st.log) :
    ∀ args, Event.log .warn emptySceneFormat args ∉ (parseLine st raw).log := by
  intro args hmem
  rcases parseLine_cases st hnl with ⟨y, _, he⟩ | ⟨t, _, he⟩ | he
  · rw [he] at hmem
    simp only [ParseState.setIdea, List.mem_append, List.mem_singleton] at hmem
    rcases hmem with hm | hm
    · exact h args hm
    · simp at hm
  · rw [he] at hmem
    simp only [ParseState.addScene, List.mem_append, List.mem_singleton] at hmem
    rcases hmem with hm | hm
    · exact h args hm
    · simp at hm
  · rw [he] at hmem
    exact h args hmem

theorem foldl_parseLine_no_empty_scene_warning {lines : List Str}
    (hnl : ∀ l ∈ lines, '\n' ∉ l) (st : ParseState)
    (h : ∀ args, Event.log .warn emptySceneFormat args ∉ st.log) :
    ∀ args, Event.log .warn emptySceneFormat args ∉ (lines.foldl parseLine st).log := by
  induction lines generalizing st with
  | nil => exact h
  | cons l ls ih =>
    exact ih (fun x hx => hnl x (by simp [hx])) _
      (parseLine_no_empty_scene_warning st (hnl l (by simp)) h)

/-- C14. Whenever the scene pattern matches a trimmed line, the captured text has length at
least 1, so the test `len(matches[1]) > 0` succeeds; and for every raw text the log of
`parseIdeaAndScenes` holds no warning about an empty scene description. -/
theorem empty_scene_warning_unreachable :
    (∀ (line whole g : Str) (rest : List Str),
      sceneRegexFind (TrimSpace line) = whole :: g :: rest → 1 ≤ g.length) ∧
    (∀ (content : Str) (args : List Arg),
      Event.log .warn emptySceneFormat args ∉ (parseIdeaAndScenes content).log) := by
  constructor
  · intro line whole g rest h
    rcases sceneRegexFind_group (TrimSpace line) with h0 | ⟨w, g', hg, h1⟩
    · rw [h0] at h; cases h
    · rw [h1] at h
      simp only [List.cons.injEq] at h
      rw [← h.2.1]
      exact List.length_pos.2 hg
  · intro content args
    have hfold := foldl_parseLine_no_empty_scene_warning (Split_no_newline content)
      ⟨[], [], []⟩ (by simp)
    have hw : ∀ (l : List Event) (f : Str), f ≠ emptySceneFormat →
        (∀ a, Event.log .warn emptySceneFormat a ∉ l) →
        ∀ a, Event.log .warn emptySceneFormat a ∉ l ++ [Event.log .warn f []] := by
      intro l f hf hl a hmem
      rcases List.mem_append.1 hmem with hm | hm
      · exact hl a hm
      · simp only [List.mem_singleton, Event.log.injEq] at hm
        exact hf hm.2.1.symm
    unfold parseIdeaAndScenes
    simp only []
    split
    · split
      · exact hw _ _ (by decide) (hw _ _ (by decide) hfold) args
      · exact hw _ _ (by decide) hfold args
    · split
      · exact hw _ _ (by decide) hfold args
      · exact hfold args

/-- C14 on the line `  Сцена 7: A` (the captured text is `A`) and on a text made of the scene
lines without text `Сцена 3:` and `Сцена 3: `: its log has the two warnings about the missing
idea and the missing scenes, and no other line. -/
theorem empty_scene_warning_unreachable_witness :
    sceneRegexFind (TrimSpace "  Сцена 7: A".toList) = ["Сцена 7: A".toList, "A".toList] ∧
    1 ≤ "A".toList.length ∧
    (parseIdeaAndScenes "Сцена 3:\nСцена 3: ".toList).log.length = 2 ∧
    Event.log .warn emptySceneFormat [.str "Сцена 3:".toList] ∉
      (parseIdeaAndScenes "Сцена 3:\nСцена 3: ".toList).log :=
  ⟨by decide,
   empty_scene_warning_unreachable.1 "  Сцена 7: A".toList "Сцена 7: A".toList "A".toList []
     (by decide),
   by decide,
   empty_scene_warning_unreachable.2 "Сцена 3:\nСцена 3: ".toList [.str "Сцена 3:".toList]⟩

/-! ## C13: the uploaders and their key -/

/-- C13. For the YouTube uploader and for the TikTok uploader, for every path, title,
description and tags: `Upload` returns an error if and only if the key is empty; with an empty
key the URL is empty, and all that happened is three log lines (the two opening lines and the
warning), the file system being untouched: no upload action comes before the check; with a
non-empty key there is no error and the URL is not empty. -/
theorem uploaders_fail_fast_on_missing_key (key : Str) (w : World)
    (videoPath title description tags : Str) :
    ((((YouTubeUploader.mk key).Upload w videoPath title description tags).1.2 ≠ none ↔
        key = []) ∧
      (key = [] →
        ((YouTubeUploader.mk key).Upload w videoPath title description tags).1.1 = [] ∧
        ((YouTubeUploader.mk key).Upload w videoPath title description tags).2.fs = w.fs ∧
        ((YouTubeUploader.mk key).Upload w videoPath title description tags).2.trace =
          w.trace ++
            [.log .info "Начало загрузки видео на YouTube: %s".toList [.str videoPath],
             .log .info "Название: %s, Описание: %s, Теги: %s".toList
               [.str title, .str description, .str tags],
             .log .warn
               "YouTube API Key не предоставлен. Загрузка на YouTube невозможна.".toList []]) ∧
      (key ≠ [] →
        ((YouTubeUploader.mk key).Upload w videoPath title description tags).1.2 = none ∧
        ((YouTubeUploader.mk key).Upload w videoPath title description tags).1.1 ≠ [])) ∧
    ((((TikTokUploader.mk key).Upload w videoPath title description tags).1.2 ≠ none ↔
        key = []) ∧
      (key = [] →
        ((TikTokUploader.mk key).Upload w videoPath title description tags).1.1 = [] ∧
        ((TikTokUploader.mk key).Upload w videoPath title description tags).2.fs = w.fs ∧
        ((TikTokUploader.mk key).Upload w videoPath title description tags).2.trace =
          w.trace ++
            [.log .info "Начало загрузки видео на TikTok: %s".toList [.str videoPath],
             .log .info "Название: %s, Описание: %s, Теги: %s".toList
               [.str title, .str description, .str tags],
             .log .warn
               "TikTok API Key не предоставлен. Загрузка на TikTok невозможна.".toList []]) ∧
      (key ≠ [] →
        ((TikTokUploader.mk key).Upload w videoPath title description tags).1.2 = none ∧
        ((TikTokUploader.mk key).Upload w videoPath title description tags).1.1 ≠ [])) := by
  have ey : "http://youtube.com/watch?v=".toList = 'h' :: "ttp://youtube.com/watch?v=".toList := by
    decide
  have et : "https://www.tiktok.com/@youraccount/video/".toList =
      'h' :: "ttps://www.tiktok.com/@youraccount/video/".toList := by decide
  by_cases hk : key = []
  · subst hk
    refine ⟨⟨?_, ?_, ?_⟩, ⟨?_, ?_, ?_⟩⟩
    · simp [YouTubeUploader.Upload]
    · intro _
      simp [YouTubeUploader.Upload, World.Info, World.Warn, World.emit]
    · intro h; exact absurd rfl h
    · simp [TikTokUploader.Upload]
    · intro _
      simp [TikTokUploader.Upload, World.Info, World.Warn, World.emit]
    · intro h; exact absurd rfl h
  · refine ⟨⟨?_, ?_, ?_⟩, ⟨?_, ?_, ?_⟩⟩
    · simp [YouTubeUploader.Upload, hk]
    · intro h; exact absurd h hk
    · intro _
      simp only [YouTubeUploader.Upload, hk, if_false]
      rw [ey]
      simp
    · simp [TikTokUploader.Upload, hk]
    · intro h; exact absurd h hk
    · intro _
      simp only [TikTokUploader.Upload, hk, if_false]
      rw [et]
      simp

/-- C13 on the key `k` and on the empty key, for the video `out/v.mp4`. -/
theorem uploaders_fail_fast_on_missing_key_witness :
    ((YouTubeUploader.mk []).Upload World.initial "out/v.mp4".toList "t".toList "d".toList
      "g".toList).1 = ([], some "YouTube API Key не предоставлен".toList) ∧
    ((TikTokUploader.mk []).Upload World.initial "out/v.mp4".toList "t".toList "d".toList
      "g".toList).1.1 = [] ∧
    ((TikTokUploader.mk "k".toList).Upload World.initial "out/v.mp4".toList "t".toList "d".toList
      "g".toList).1.2 = none ∧
    ((YouTubeUploader.mk "k".toList).Upload World.initial "out/v.mp4".toList "t".toList
      "d".toList "g".toList).1.1 ≠ [] := by
  have h0 := uploaders_fail_fast_on_missing_key [] World.initial "out/v.mp4".toList "t".toList
    "d".toList "g".toList
  have h1 := uploaders_fail_fast_on_missing_key "k".toList World.initial "out/v.mp4".toList
    "t".toList "d".toList "g".toList
  exact ⟨by decide, (h0.2.2.1 rfl).1, (h1.2.2.2 (by decide)).1, (h1.1.2.2 (by decide)).2⟩

/-! ## C15: the paths of the segments -/

theorem digitChar_toNat (n : Nat) : (Nat.digitChar (n % 10)).toNat - 48 = n % 10 := by
  have h : n % 10 < 10 := Nat.mod_lt _ (by decide)
  generalize n % 10 = m at h ⊢
  interval_cases m <;> rfl

theorem foldl_toDigitsCore (fuel : Nat) : ∀ (n : Nat) (ds : Str), n < fuel →
    (Nat.toDigitsCore 10 fuel n ds).foldl (fun acc c => 10 * acc + (c.toNat - 48)) 0 =
      ds.foldl (fun acc c => 10 * acc + (c.toNat - 48)) n := by
  induction fuel with
  | zero => intro n ds h; exact absurd h (Nat.not_lt_zero n)
  | succ fuel ih =>
    intro n ds h
    unfold Nat.toDigitsCore
    simp only []
    split
    · rename_i h0
      have hd : (Nat.digitChar (n % 10)).toNat - 48 = n := by
        rw [digitChar_toNat]
        omega
      simp only [List.foldl_cons, Nat.mul_zero, Nat.zero_add, hd]
    · rename_i h0
      rw [ih (n / 10) _ (by omega)]
      simp only [List.foldl_cons, digitChar_toNat]
      congr 1
      omega

theorem digitsValue_fmtNat (n : Nat) : digitsValue (fmtNat n) = n := by
  unfold digitsValue fmtNat Nat.toDigits
  rw [foldl_toDigitsCore (n + 1) n [] (Nat.lt_succ_self n)]
  rfl

theorem fmtNat_injective : Function.Injective fmtNat := by
  intro a b h
  rw [← digitsValue_fmtNat a, ← digitsValue_fmtNat b, h]

theorem segmentPath_injective {format : Str} (h : '/' ∉ format) :
    Function.Injective (segmentPath format) := by
  intro a b hab
  rw [segmentPath_eq a h, segmentPath_eq b h, List.append_assoc, List.append_assoc] at hab
  exact fmtNat_injective (List.append_cancel_right (List.append_cancel_left hab))

theorem survivors_indices (env : Env) (cfg : Config) (prompts : List Str) :
    ∀ i : Nat, ∃ ks : List Nat, ks.Pairwise (fun a b => a < b) ∧
      (∀ k ∈ ks, i + 1 ≤ k ∧ k ≤ i + prompts.length) ∧
      (prompts.enumFrom i).filterMap
          (fun p => (segmentResult env cfg p.2 (p.1 + 1)).toOption) =
        ks.map (segmentPath cfg.Video.OutputFormat) := by
  induction prompts with
  | nil => intro i; exact ⟨[], List.Pairwise.nil, by simp, by simp⟩
  | cons p rest ih =>
    intro i
    obtain ⟨ks, hpw, hb, he⟩ := ih (i + 1)
    have hb' : ∀ k ∈ ks, i + 1 ≤ k ∧ k ≤ i + (p :: rest).length := by
      intro k hk
      have := hb k hk
      simp only [List.length_cons]
      omega
    cases hr : segmentResult env cfg p (i + 1) with
    | ok path =>
      refine ⟨(i + 1) :: ks, List.Pairwise.cons ?_ hpw, ?_, ?_⟩
      · intro k hk
        have := hb k hk
        omega
      · intro k hk
        rcases List.mem_cons.1 hk with hk | hk
        · subst hk
          simp only [List.length_cons]
          omega
        · exact hb' k hk
      · simp only [List.enumFrom_cons, List.filterMap_cons, hr, he]
        simp only [Res.toOption, List.map_cons, segmentResult_ok hr]
    | err e =>
      exact ⟨ks, hpw, hb', by
        simp only [List.enumFrom_cons, List.filterMap_cons, hr, he]
        simp only [Res.toOption]⟩
    | panic =>
      exact ⟨ks, hpw, hb', by
        simp only [List.enumFrom_cons, List.filterMap_cons, hr, he]
        simp only [Res.toOption]⟩

/-- C15, counterexample. With the output format `/../x` the segments 1 and 2 get the same path
`temp_videos/x`, because `filepath.Join` cleans the path; on the sample world with two prompts
the list built by the segment loop holds that path twice, and `ConcatenateVideos` writes the
manifest line for it twice. -/
theorem segments_share_file_counterexample :
    segmentPath dotdotFormatConfig.Video.OutputFormat 1 = "temp_videos/x".toList ∧
    segmentPath dotdotFormatConfig.Video.OutputFormat 2 = "temp_videos/x".toList ∧
    (segmentLoop sampleEnv dotdotFormatConfig 0
      ["prompt for A".toList, "prompt for B".toList] [] World.initial).1 =
      some ["temp_videos/x".toList, "temp_videos/x".toList] ∧
    (main dotdotFormatEnv World.initial).2.trace.count
      (.write listFilePath "file 'temp_videos/x'\n".toList) = 2 := by
  decide

/-- C15, amended. For a configured output format without `/`: the path
`temp_videos/segment_<k>.<format>` is an injective function of the segment index `k`; from every
world and for every list of prompts, the segment loop of `main` ends with the list of the paths
of some indices `ks` that increase strictly and lie between 1 and the number of prompts, so its
paths are pairwise distinct; and when the prompts and this list are not empty, this is the list
that `pipeline` hands to the concatenation step. -/
theorem segment_paths_distinct (env : Env) (cfg : Config)
    (hfmt : '/' ∉ cfg.Video.OutputFormat) :
    Function.Injective (segmentPath cfg.Video.OutputFormat) ∧
    (∀ k, segmentPath cfg.Video.OutputFormat k =
      "temp_videos/segment_".toList ++ fmtNat k ++ '.' :: cfg.Video.OutputFormat) ∧
    (∀ (prompts : List Str) (w : World), ∃ ks : List Nat,
      ks.Pairwise (fun a b => a < b) ∧
      (∀ k ∈ ks, 1 ≤ k ∧ k ≤ prompts.length) ∧
      (segmentLoop env cfg 0 prompts [] w).1 =
        some (ks.map (segmentPath cfg.Video.OutputFormat)) ∧
      (ks.map (segmentPath cfg.Video.OutputFormat)).Nodup) ∧
    (∀ (w : World) (overallIdea : Str) (scenes paths : List Str),
      (promptLoop env overallIdea 0 scenes []
        (w.Info "\n--- Генерация подробных промптов для видео ---".toList [])).1 ≠ [] →
      (segmentLoop env cfg 0
        (promptLoop env overallIdea 0 scenes []
          (w.Info "\n--- Генерация подробных промптов для видео ---".toList [])).1 []
        ((promptLoop env overallIdea 0 scenes []
          (w.Info "\n--- Генерация подробных промптов для видео ---".toList [])).2.Info
          "\n--- Генерация всех видеосегментов ---".toList [])).1 = some paths →
      paths ≠ [] →
      pipeline env cfg w overallIdea scenes =
        concatAndPublish env cfg
          (segmentLoop env cfg 0
            (promptLoop env overallIdea 0 scenes []
              (w.Info "\n--- Генерация подробных промптов для видео ---".toList [])).1 []
            ((promptLoop env overallIdea 0 scenes []
              (w.Info "\n--- Генерация подробных промптов для видео ---".toList [])).2.Info
              "\n--- Генерация всех видеосегментов ---".toList [])).2
          overallIdea paths) := by
  have hinj := segmentPath_injective hfmt
  have hnp : ∀ p k, segmentResult env cfg p k ≠ .panic :=
    fun p k => segmentResult_no_panic env cfg p k (segmentPath_has_slash k hfmt)
  refine ⟨hinj, fun k => segmentPath_eq k hfmt, ?_, ?_⟩
  · intro prompts w
    obtain ⟨ks, hpw, hb, he⟩ := survivors_indices env cfg prompts 0
    refine ⟨ks, hpw, ?_, ?_, ?_⟩
    · intro k hk
      have := hb k hk
      omega
    · rw [segmentLoop_fst env cfg hnp, he, List.nil_append]
    · exact List.Nodup.map hinj (hpw.imp (fun h => Nat.ne_of_lt h))
  · intro w overallIdea scenes paths hp hs hne
    have hp' : ¬ (promptLoop env overallIdea 0 scenes []
        (w.Info "\n--- Генерация подробных промптов для видео ---".toList [])).1.length = 0 :=
      fun h => hp (List.length_eq_zero.1 h)
    have hne' : ¬ paths.length = 0 := fun h => hne (List.length_eq_zero.1 h)
    simp only [pipeline, if_neg hp', hs, if_neg hne']

/-- C15, amended, on the sample configuration (format `mp4`) with the video service failing on
segment 2 of 3: the paths of the segments 1 and 2 differ, and the loop ends with the paths of the
segments 1 and 3, in this order. -/
theorem segment_paths_distinct_witness :
    '/' ∉ sampleConfig.Video.OutputFormat ∧
    segmentPath sampleConfig.Video.OutputFormat 1 ≠
      segmentPath sampleConfig.Video.OutputFormat 2 ∧
    (segmentLoop secondSegmentDownEnv sampleConfig 0
      ["prompt for A".toList, "prompt for B".toList, "prompt for C".toList] []
      World.initial).1 =
      some ["temp_videos/segment_1.mp4".toList, "temp_videos/segment_3.mp4".toList] ∧
    ["temp_videos/segment_1.mp4".toList, "temp_videos/segment_3.mp4".toList].Nodup :=
  ⟨by decide,
   fun h => absurd ((segment_paths_distinct secondSegmentDownEnv sampleConfig (by decide)).1 h)
     (by decide),
   by decide, by decide⟩

end AIContentGen
